import Mathlib

/-!
ZLEqualizer: soft-knee computer, controller, ideal filter response and match smoothing.

A shallow embedding of `source/dsp/compressor/computer/knee_computer.cpp`, of
`source/dsp/controller.cpp` (the control section of `process` with the update methods it
runs, the chunking loop, and the audio methods as the lists of calls they make on their
collaborators), of `Ideal::updateMagnidue` in `source/dsp/filter/ideal_filter/single_filter.hpp`
and of `EqMatchAnalyzer::updateSmooth` in `source/dsp/eq_match/eq_match_analyzer.hpp`.

Sample values (`FloatType`) are modelled by an arbitrary linearly ordered field, so every
statement is one of exact arithmetic; rounding, infinities and NaN are outside the model.
The definitions are computable and can be evaluated over `ℚ`.
-/

namespace zlCompressor

/-- The function `juce::jlimit (lowerLimit, upperLimit, valueToConstrain)` of the JUCE
library: `valueToConstrain < lowerLimit ? lowerLimit
  : (upperLimit < valueToConstrain ? upperLimit : valueToConstrain)`. -/
def jlimit {α : Type} [LinearOrder α] (lowerLimit upperLimit valueToConstrain : α) : α :=
  if valueToConstrain < lowerLimit then lowerLimit
  else if upperLimit < valueToConstrain then upperLimit
  else valueToConstrain

/-- The data members of `KneeComputer<FloatType>` read or written by `eval`, `process`
and `interpolate`. -/
structure KneeComputer (α : Type) where
  threshold : α
  ratio : α
  kneeW : α
  bound : α
  tempA : α
  tempB : α
  tempC : α
  reductionAtKnee : α
deriving DecidableEq, Repr

namespace KneeComputer

variable {α : Type} [LinearOrderedField α]

/-- The value `threshold_ + (x - threshold_) / ratio_` that the branch `x >= threshold_ + kneeW_`
of `eval` hands to `jlimit`. -/
def aboveKnee (k : KneeComputer α) (x : α) : α :=
  k.threshold + (x - k.threshold) / k.ratio

/-- The value `x + tempA * xx * xx / tempC`, with `xx = x + tempB`, that the last branch of
`eval` hands to `jlimit`. -/
def insideKnee (k : KneeComputer α) (x : α) : α :=
  let xx := x + k.tempB
  x + k.tempA * xx * xx / k.tempC

/-- The method `KneeComputer::eval`. -/
def eval (k : KneeComputer α) (x : α) : α :=
  if x ≤ k.threshold - k.kneeW then x
  else if x ≥ k.threshold + k.kneeW then
    jlimit (x - k.bound) (x + k.bound) (aboveKnee k x)
  else
    jlimit (x - k.bound) (x + k.bound) (insideKnee k x)

/-- The value `eval` computes before any clamping: `x` itself below the knee, and the argument
handed to `jlimit` in the two other branches. -/
def unclamped (k : KneeComputer α) (x : α) : α :=
  if x ≤ k.threshold - k.kneeW then x
  else if x ≥ k.threshold + k.kneeW then aboveKnee k x
  else insideKnee k x

/-- The method `KneeComputer::process`. -/
def process (k : KneeComputer α) (x : α) : α :=
  eval k x - x

/-- The method `KneeComputer::interpolate`: the three stores to `tempA`, `tempB`, `tempC`,
then the store of `process (threshold + kneeW)` (evaluated with the new coefficients) to
`reductionAtKnee`. -/
def interpolate (k : KneeComputer α) : KneeComputer α :=
  let k1 := { k with tempA := 1 / k.ratio - 1 }
  let k2 := { k1 with tempB := -k1.threshold + k1.kneeW }
  let k3 := { k2 with tempC := k2.kneeW * 4 }
  { k3 with reductionAtKnee := process k3 (k3.threshold + k3.kneeW) }

/-- The scenario of the specification: threshold -20 dB, ratio 4, knee half-width 6 dB, with a
given bound; the cached coefficients start at zero. -/
def scenario (B : α) : KneeComputer α :=
  { threshold := -20, ratio := 4, kneeW := 6, bound := B,
    tempA := 0, tempB := 0, tempC := 0, reductionAtKnee := 0 }

end KneeComputer

end zlCompressor

namespace zlFilter

/-- The enumeration `zlFilter::FilterStructure`: the implementation a band filter runs. -/
inductive FilterStructure where
  | iir
  | svf
  | parallel
deriving DecidableEq, Repr

/-- The enumeration `zlFilter::FilterType`. -/
inductive FilterType where
  | peak
  | lowShelf
  | lowPass
  | highShelf
  | highPass
  | notch
  | bandPass
  | tiltShelf
  | bandShelf
deriving DecidableEq, Repr

end zlFilter

namespace zlDSP

/-- The enumeration `zlDSP::filterStructure`: the filter structure selected for the equalizer. -/
inductive filterStructure where
  | minimum
  | svf
  | parallel
  | matched
  | mixed
  | linear
deriving DecidableEq, Repr

/-- The enumeration `zlDSP::lrType`: the routing group a band is assigned to. -/
inductive lrType where
  | stereo
  | left
  | right
  | mid
  | side
deriving DecidableEq, Repr

/-- Modelled from the spec: the correction filter classes (`prototypeCorrections`,
`mixedCorrections`, `linearFilters`) are declared outside the listed sources. A correction
filter "contributes a fixed, structure-dependent processing latency" (`getLatency`), is marked
for recomputation by `setToUpdate` and put back into its cleared state by `reset`. -/
structure Correction where
  latency : Int
  toUpdate : Bool
  isReset : Bool
deriving DecidableEq, Repr

/-- The parameters of a filter object that the controller reads or writes: `bFilters[i]`,
`mainIIRs[i]`, `mainIdeals[i]`, the main and side filter of `filters[i]`, and `soloFilter`.
`toUpdate` is the flag raised by `setToUpdate`, `toRest` the one raised by `setToRest`. -/
structure FilterParas (α : Type) where
  filterType : zlFilter.FilterType
  freq : α
  gain : α
  q : α
  toUpdate : Bool
  toRest : Bool

/-- The parts of a band's dynamic filter `filters[i]` that the control section of the
controller touches. -/
structure DynamicFilter (α : Type) where
  dynamicON : Bool
  filterStructure : zlFilter.FilterStructure
  mainFilter : FilterParas α
  sideFilter : FilterParas α

/-- The `std::sqrt`, `std::log2`, `std::log` and `std::sinh` of the C++ library, which an
ordered field does not provide; they are parameters of `getSoloFilterParas`. -/
structure FloatOps (α : Type) where
  sqrt : α → α
  log2 : α → α
  log : α → α
  sinh : α → α

/-- The data members of `Controller<FloatType>` used by the control section of `process`, by
the update methods it calls and by `handleAsyncUpdate`. Arrays indexed by band
(`std::array<_, bandNUM>`) and by routing group (`std::array<_, 5>`) are functions of the
index; `bandNUM` is the build-time number of bands. The integers are C++ `int`s, taken without
overflow. -/
structure Controller (α : Type) where
  bandNUM : Nat
  -- requests stored by the control thread (atomics)
  mFilterStructure : filterStructure
  filterLRs : Nat → lrType
  isActive : Nat → Bool
  isBypass : Nat → Bool
  dynRelatives : Nat → Bool
  isHistON : Nat → Bool
  currentThreshold : Nat → α
  isSgcON : Bool
  isEffectON : Bool
  isZeroLatency : Bool
  useSolo : Bool
  soloIdx : Nat
  soloSide : Bool
  toUpdateDynamicON : Bool
  toUpdateLRs : Bool
  toUpdateBypass : Bool
  toUpdateSgc : Bool
  toUpdateSolo : Bool
  -- state owned by the audio thread
  currentFilterStructure : filterStructure
  currentFilterLRs : Nat → lrType
  currentIsBypass : Nat → Bool
  currentIsSgcON : Bool
  currentIsEffectON : Bool
  currentUseSolo : Bool
  currentSoloIdx : Nat
  currentSoloSide : Bool
  useLR : Bool
  useMS : Bool
  filterLRIndices : Nat → List Nat
  dynamicONIndices : List Nat
  useTrackers : Nat → Bool
  latency : Int
  -- per-band and per-group objects
  filters : Nat → DynamicFilter α
  bFilters : Nat → FilterParas α
  mainIIRs : Nat → FilterParas α
  mainIdeals : Nat → FilterParas α
  compensations : Nat → α
  compensationGains : Nat → α
  soloFilter : FilterParas α
  prototypeCorrections : Nat → Correction
  mixedCorrections : Nat → Correction
  linearFilters : Nat → Correction
  -- collaborators: analyzers' delays, lookahead delay, sub-buffer, async updater, host
  sampleRate : α
  mainSpecSampleRate : α
  delaySamples : Int
  subBufferLatencySamples : Int
  fftPreDelaySeconds : α
  fftSideDelaySeconds : α
  conflictSideDelaySeconds : α
  asyncUpdateTriggered : Bool
  processorLatencySamples : Int

namespace Controller

variable {α : Type}

/-- The conversion `static_cast<int>(bool)`. -/
def boolToInt (b : Bool) : Int :=
  if b then 1 else 0

/-- The call `filterLRIndices[g].push(i)`. -/
def pushLRIndex (c : Controller α) (g i : Nat) : Controller α :=
  { c with filterLRIndices := Function.update c.filterLRIndices g (c.filterLRIndices g ++ [i]) }

/-- One iteration of the band loop of `updateLRs`. -/
def updateLRsBand (c : Controller α) (i : Nat) : Controller α :=
  if c.isActive i then
    let c1 := { c with currentFilterLRs := Function.update c.currentFilterLRs i (c.filterLRs i) }
    match c1.currentFilterLRs i with
    | lrType.stereo => pushLRIndex c1 0 i
    | lrType.left => { pushLRIndex c1 1 i with useLR := true }
    | lrType.right => { pushLRIndex c1 2 i with useLR := true }
    | lrType.mid => { pushLRIndex c1 3 i with useMS := true }
    | lrType.side => { pushLRIndex c1 4 i with useMS := true }
  else c

/-- The first part of `updateLRs` (lines 624-659): both flags cleared, the five lists cleared,
then the loop over the bands. -/
def updateLRsRouting (c : Controller α) : Controller α :=
  let c1 := { c with useLR := false, useMS := false, filterLRIndices := fun _ => [] }
  (List.range c1.bandNUM).foldl updateLRsBand c1

/-- The value of `newLatency` computed by the `switch` of `updateLRs` (lines 660-689). -/
def newLatency (c : Controller α) : Int :=
  match c.currentFilterStructure with
  | filterStructure.minimum => 0
  | filterStructure.svf => 0
  | filterStructure.parallel => 0
  | filterStructure.matched =>
    let singleLatency := (c.prototypeCorrections 0).latency
    singleLatency + boolToInt c.useLR * singleLatency + boolToInt c.useMS * singleLatency
  | filterStructure.mixed =>
    let singleLatency := (c.mixedCorrections 0).latency
    singleLatency + boolToInt c.useLR * singleLatency + boolToInt c.useMS * singleLatency
  | filterStructure.linear =>
    let singleLatency := (c.linearFilters 0).latency
    singleLatency + boolToInt c.useLR * singleLatency + boolToInt c.useMS * singleLatency

/-- The method `Controller::updateLRs`: the routing part, then the latency part, which stores
a changed latency, forwards it to the analyzers' delays and triggers the asynchronous update. -/
def updateLRs [Field α] (c : Controller α) : Controller α :=
  let c1 := updateLRsRouting c
  let newLatency := newLatency c1
  if newLatency ≠ c1.latency then
    let delayInSeconds : α := (newLatency : α) / c1.sampleRate
    { c1 with
      fftPreDelaySeconds := delayInSeconds
      fftSideDelaySeconds := delayInSeconds
      conflictSideDelaySeconds := delayInSeconds
      latency := newLatency
      asyncUpdateTriggered := true }
  else c1

/-- The method `Controller::updateDynamicONs`. -/
def updateDynamicONs (c : Controller α) : Controller α :=
  let c1 := { c with dynamicONIndices := [] }
  (List.range c1.bandNUM).foldl
    (fun s i => if (s.filters i).dynamicON then
      { s with dynamicONIndices := s.dynamicONIndices ++ [i] } else s) c1

/-- The method `Controller::updateTrackersON`: every flag cleared, then for each of the five
groups the flag is raised when some band of its list is relative. -/
def updateTrackersON (c : Controller α) : Controller α :=
  { c with useTrackers := fun idx =>
      if idx < 5 then (c.filterLRIndices idx).any (fun i => c.dynRelatives i) else false }

/-- The call `setToUpdate()` on each of the five correction filters of an array. -/
def setToUpdateAll (cs : Nat → Correction) : Nat → Correction :=
  fun j => { cs j with toUpdate := true }

/-- The call `reset()` on each of the five correction filters of an array. -/
def resetAll (cs : Nat → Correction) : Nat → Correction :=
  fun j => { cs j with isReset := true }

/-- The method `Controller::updateCorrections`. -/
def updateCorrections (c : Controller α) : Controller α :=
  if c.currentFilterStructure = filterStructure.matched then
    { c with prototypeCorrections := setToUpdateAll c.prototypeCorrections }
  else if c.currentFilterStructure = filterStructure.mixed then
    { c with mixedCorrections := setToUpdateAll c.mixedCorrections }
  else if c.currentFilterStructure = filterStructure.linear then
    { c with linearFilters := setToUpdateAll c.linearFilters }
  else c

/-- The inner loop of `updateSgcValues` over one routing list: starting from `1`, the product
of `compensations[i].getGain()` over the bands of the list that are not bypassed. -/
def currentSgc [Mul α] [One α] (c : Controller α) (indices : List Nat) : α :=
  indices.foldl (fun acc i => if !c.currentIsBypass i then acc * c.compensations i else acc) 1

/-- The method `Controller::updateSgcValues`. -/
def updateSgcValues [Mul α] [One α] (c : Controller α) : Controller α :=
  { c with compensationGains := fun lr =>
      if lr < 5 then currentSgc c (c.filterLRIndices lr) else c.compensationGains lr }

/-- The loop `for (auto &f: filters) f.setFilterStructure(x)`. -/
def setFilterStructureAll (fs : Nat → DynamicFilter α) (x : zlFilter.FilterStructure) :
    Nat → DynamicFilter α :=
  fun i => { fs i with filterStructure := x }

/-- The loop `for (auto &f: ...) f.setToUpdate()` over `mainIIRs` or `mainIdeals`. -/
def setToUpdateParas (fs : Nat → FilterParas α) : Nat → FilterParas α :=
  fun i => { fs i with toUpdate := true }

/-- The calls `setGain (bFilters[idx].getGain())` and `setQ (bFilters[idx].getQ())` on the
filter parameters `f`; of these setters, declared outside the listed sources, only the stored
value is modelled. -/
def setGainQ (f b : FilterParas α) : FilterParas α :=
  { f with gain := b.gain, q := b.q }

/-- A loop `for (size_t idx = 0; idx < bandNUM; ++idx)` applying `setGainQ` with `bFilters[idx]`
to `fs[idx]`. -/
def setGainQAll (n : Nat) (fs bs : Nat → FilterParas α) : Nat → FilterParas α :=
  fun idx => if idx < n then setGainQ (fs idx) (bs idx) else fs idx

/-- The method `Controller::updateFilterStructure`: the `switch` on the current structure,
then the loop that hands the base gain and Q to each band's main filter. -/
def updateFilterStructure (c : Controller α) : Controller α :=
  let c1 : Controller α :=
    match c.currentFilterStructure with
    | filterStructure.minimum =>
      { c with filters := setFilterStructureAll c.filters zlFilter.FilterStructure.iir }
    | filterStructure.svf =>
      { c with filters := setFilterStructureAll c.filters zlFilter.FilterStructure.svf }
    | filterStructure.parallel =>
      { c with filters := setFilterStructureAll c.filters zlFilter.FilterStructure.parallel }
    | filterStructure.matched =>
      { c with
        filters := setFilterStructureAll c.filters zlFilter.FilterStructure.iir
        mainIIRs := setToUpdateParas c.mainIIRs
        mainIdeals := setToUpdateParas c.mainIdeals
        prototypeCorrections := resetAll c.prototypeCorrections }
    | filterStructure.mixed =>
      { c with
        filters := setFilterStructureAll c.filters zlFilter.FilterStructure.iir
        mainIIRs := setToUpdateParas c.mainIIRs
        mainIdeals := setToUpdateParas c.mainIdeals
        mixedCorrections := resetAll c.mixedCorrections }
    | filterStructure.linear =>
      { c with
        mainIdeals := setGainQAll c.bandNUM (setToUpdateParas c.mainIdeals) c.bFilters
        linearFilters := resetAll c.linearFilters
        mainIIRs := setGainQAll c.bandNUM c.mainIIRs c.bFilters }
  { c1 with filters := fun idx =>
      if idx < c1.bandNUM then
        { c1.filters idx with mainFilter := setGainQ (c1.filters idx).mainFilter (c1.bFilters idx) }
      else c1.filters idx }

/-- The method `Controller::getSoloFilterParas`; `FloatType(0.025)` is `1 / 40` and
`FloatType(0.01)` is `1 / 100`. -/
def getSoloFilterParas [LinearOrderedField α] (ops : FloatOps α) (c : Controller α)
    (fType : zlFilter.FilterType) (freq q : α) : α × α :=
  match fType with
  | zlFilter.FilterType.highPass | zlFilter.FilterType.lowShelf =>
    let soloFreq := ops.sqrt 1 * ops.sqrt freq
    let scale := soloFreq
    let soloFreq := min (max soloFreq 10) 20000
    let bw := max (ops.log2 scale * 2) (1 / 100)
    let soloQ := 1 / (2 * ops.sinh (ops.log 2 / 2 * bw))
    let soloQ := min (max soloQ (1 / 40)) 25
    (soloFreq, soloQ)
  | zlFilter.FilterType.lowPass | zlFilter.FilterType.highShelf =>
    let soloFreq := ops.sqrt (c.mainSpecSampleRate / 2) * ops.sqrt freq
    let scale := soloFreq / freq
    let soloFreq := min (max soloFreq 10) 20000
    let bw := max (ops.log2 scale * 2) (1 / 100)
    let soloQ := 1 / (2 * ops.sinh (ops.log 2 / 2 * bw))
    let soloQ := min (max soloQ (1 / 40)) 25
    (soloFreq, soloQ)
  | zlFilter.FilterType.tiltShelf => (freq, 1 / 40)
  | zlFilter.FilterType.peak | zlFilter.FilterType.notch | zlFilter.FilterType.bandPass
  | zlFilter.FilterType.bandShelf => (freq, q)

/-- The method `Controller::updateSolo`. -/
def updateSolo [LinearOrderedField α] (ops : FloatOps α) (c : Controller α) : Controller α :=
  if c.currentUseSolo then
    let c1 := { c with currentSoloIdx := c.soloIdx, currentSoloSide := c.soloSide }
    let f := if !c1.currentSoloSide then c1.bFilters c1.currentSoloIdx
      else (c1.filters c1.currentSoloIdx).sideFilter
    let paras := getSoloFilterParas ops c1 f.filterType f.freq f.q
    { c1 with soloFilter := { c1.soloFilter with freq := paras.1, q := paras.2 } }
  else
    { c with soloFilter := { c.soloFilter with toRest := true } }

/-- Lines 126-130 of `process`: a requested structure that differs from the current one is
made current, `updateFilterStructure` runs and `toUpdateLRs` is raised. -/
def pendingFilterStructure (c : Controller α) : Controller α :=
  if c.mFilterStructure ≠ c.currentFilterStructure then
    { updateFilterStructure { c with currentFilterStructure := c.mFilterStructure } with
      toUpdateLRs := true }
  else c

/-- Lines 131-133 of `process`: `toUpdateDynamicON.exchange (false)` guards
`updateDynamicONs`. -/
def pendingDynamicON (c : Controller α) : Controller α :=
  if c.toUpdateDynamicON then updateDynamicONs { c with toUpdateDynamicON := false }
  else c

/-- Lines 134-139 of `process`: `toUpdateLRs.exchange (false)` guards `updateLRs`,
`updateTrackersON`, `updateCorrections` and the raising of `toUpdateSgc`. -/
def pendingLRs [Field α] (c : Controller α) : Controller α :=
  if c.toUpdateLRs then
    { updateCorrections (updateTrackersON (updateLRs { c with toUpdateLRs := false })) with
      toUpdateSgc := true }
  else c

/-- Lines 140-146 of `process`: `toUpdateBypass.exchange (false)` guards the copy of the
bypass flags, `updateCorrections` and the raising of `toUpdateSgc`. -/
def pendingBypass (c : Controller α) : Controller α :=
  if c.toUpdateBypass then
    let b := { c with
      toUpdateBypass := false
      currentIsBypass := fun i => if i < c.bandNUM then c.isBypass i else c.currentIsBypass i }
    { updateCorrections b with toUpdateSgc := true }
  else c

/-- Lines 147-156 of `process`: a changed static-gain-compensation switch is made current;
switched off, the five compensation gains are set to `1`; switched on, `toUpdateSgc` is
raised. -/
def pendingSgcON [One α] (c : Controller α) : Controller α :=
  if c.currentIsSgcON ≠ c.isSgcON then
    let s := { c with currentIsSgcON := c.isSgcON }
    if !s.currentIsSgcON then { s with compensationGains := fun _ => 1 }
    else { s with toUpdateSgc := true }
  else c

/-- Lines 157-161 of `process`: with compensation on, `toUpdateSgc.exchange (false)` guards
`updateSgcValues`. -/
def pendingSgc [Mul α] [One α] (c : Controller α) : Controller α :=
  if c.currentIsSgcON then
    if c.toUpdateSgc then updateSgcValues { c with toUpdateSgc := false } else c
  else c

/-- Lines 162-165 of `process`: `toUpdateSolo.exchange (false)` guards the copy of `useSolo`
and `updateSolo`. -/
def pendingSolo [LinearOrderedField α] (ops : FloatOps α) (c : Controller α) : Controller α :=
  if c.toUpdateSolo then
    updateSolo ops { c with toUpdateSolo := false, currentUseSolo := c.useSolo }
  else c

/-- The control section of `Controller::process` (lines 126-166): the pending changes are
applied in the order of the source, then `currentIsEffectON` is refreshed. The audio section
that follows (lookahead delay, sub-buffers, phase flip) is not part of this definition; it
writes neither the requested or the current structure, nor a dirty flag, nor the routing
fields, nor a latency. -/
def process [LinearOrderedField α] (ops : FloatOps α) (c : Controller α) : Controller α :=
  let c1 := pendingFilterStructure c
  let c2 := pendingDynamicON c1
  let c3 := pendingLRs c2
  let c4 := pendingBypass c3
  let c5 := pendingSgcON c4
  let c6 := pendingSgc c5
  let c7 := pendingSolo ops c6
  { c7 with currentIsEffectON := c7.isEffectON }

/-- The method `Controller::handleAsyncUpdate`; `delaySamples` stands for
`static_cast<int>(delay.getDelaySamples())` and `subBufferLatencySamples` for
`static_cast<int>(subBuffer.getLatencySamples())`. -/
def handleAsyncUpdate (c : Controller α) : Controller α :=
  let currentLatency := c.delaySamples
  let currentLatency :=
    if !c.isZeroLatency then currentLatency + c.subBufferLatencySamples else currentLatency
  let currentLatency := currentLatency + c.latency
  { c with processorLatencySamples := currentLatency }

/-- Modelled from the spec: the setter `setFilterStructure` is declared outside the listed
sources; the "external mode-select call" stores the requested structure in `mFilterStructure`,
which `process` compares with the current one. -/
def setFilterStructure (c : Controller α) (x : filterStructure) : Controller α :=
  { c with mFilterStructure := x }

/-- The `singleLatency` read by the `switch` of `updateLRs`: the latency of the first
correction filter of the current structure; the structures without a correction stage
(minimum-phase, state-variable, parallel) read none, which counts as `0`. -/
def singleLatency (c : Controller α) : Int :=
  match c.currentFilterStructure with
  | filterStructure.minimum => 0
  | filterStructure.svf => 0
  | filterStructure.parallel => 0
  | filterStructure.matched => (c.prototypeCorrections 0).latency
  | filterStructure.mixed => (c.mixedCorrections 0).latency
  | filterStructure.linear => (c.linearFilters 0).latency

/-- A band is routed to the left/right path. -/
def isLRType (x : lrType) : Bool :=
  x = lrType.left || x = lrType.right

/-- A band is routed to the mid/side path. -/
def isMSType (x : lrType) : Bool :=
  x = lrType.mid || x = lrType.side

/-- What the stored correction latency and the reported latency are computed from, apart from
the current structure: the number of bands, the activity and requested routing of each band,
the latency of each correction filter, the lookahead delay, the zero-latency switch and the
sub-buffer latency. -/
structure LatencyInputs where
  bandNUM : Nat
  isActive : Nat → Bool
  filterLRs : Nat → lrType
  prototypeLatency : Nat → Int
  mixedLatency : Nat → Int
  linearLatency : Nat → Int
  delaySamples : Int
  isZeroLatency : Bool
  subBufferLatencySamples : Int

/-- The latency inputs of a controller state. -/
def latencyInputs (c : Controller α) : LatencyInputs :=
  { bandNUM := c.bandNUM
    isActive := c.isActive
    filterLRs := c.filterLRs
    prototypeLatency := fun j => (c.prototypeCorrections j).latency
    mixedLatency := fun j => (c.mixedCorrections j).latency
    linearLatency := fun j => (c.linearFilters j).latency
    delaySamples := c.delaySamples
    isZeroLatency := c.isZeroLatency
    subBufferLatencySamples := c.subBufferLatencySamples }

/-- The value that `updateLRs` stores in `latency` when the structure `st` is current, written
as a function of the latency inputs. -/
def latencyOf (st : filterStructure) (v : LatencyInputs) : Int :=
  let useLR := (List.range v.bandNUM).any (fun i => v.isActive i && isLRType (v.filterLRs i))
  let useMS := (List.range v.bandNUM).any (fun i => v.isActive i && isMSType (v.filterLRs i))
  let single : Int :=
    match st with
    | filterStructure.minimum => 0
    | filterStructure.svf => 0
    | filterStructure.parallel => 0
    | filterStructure.matched => v.prototypeLatency 0
    | filterStructure.mixed => v.mixedLatency 0
    | filterStructure.linear => v.linearLatency 0
  single + boolToInt useLR * single + boolToInt useMS * single

/-- Two controller states agree on the latency inputs, on the requested structure, on the
current structure and on the stored correction latency. -/
def sameLatencyState (c d : Controller α) : Prop :=
  latencyInputs d = latencyInputs c ∧
    d.currentFilterStructure = c.currentFilterStructure ∧
    d.mFilterStructure = c.mFilterStructure ∧
    d.latency = c.latency

/-- Default filter parameters, the initial values of `Ideal`: peak, 1000 Hz, 0 dB, Q 0.707. -/
def defaultParas : FilterParas ℚ :=
  { filterType := zlFilter.FilterType.peak, freq := 1000, gain := 0, q := 707 / 1000,
    toUpdate := false, toRest := false }

/-- Stand-ins for the library functions over `ℚ`, for evaluating the control section on
concrete states in which no solo update is pending. -/
def rationalOps : FloatOps ℚ :=
  { sqrt := fun x => x, log2 := fun x => x, log := fun x => x, sinh := fun x => x }

/-- The scenario of the specification: 16 bands of which bands 0 to 4 are active and routed
to stereo, left, right, mid and side; every correction filter has a latency of 1024 samples;
the structure `requested` has been requested while the minimum-phase structure is current and
a routing update is pending, as after `prepare`. The lookahead delay is 48 samples, the
sub-buffer latency 64 samples. -/
def scenarioController (requested : filterStructure) : Controller ℚ :=
  { bandNUM := 16
    mFilterStructure := requested
    filterLRs := fun i =>
      match i with
      | 1 => lrType.left
      | 2 => lrType.right
      | 3 => lrType.mid
      | 4 => lrType.side
      | _ => lrType.stereo
    isActive := fun i => decide (i < 5)
    isBypass := fun _ => false
    dynRelatives := fun _ => false
    isHistON := fun _ => false
    currentThreshold := fun _ => -20
    isSgcON := false
    isEffectON := true
    isZeroLatency := false
    useSolo := false
    soloIdx := 0
    soloSide := false
    toUpdateDynamicON := false
    toUpdateLRs := true
    toUpdateBypass := false
    toUpdateSgc := false
    toUpdateSolo := false
    currentFilterStructure := filterStructure.minimum
    currentFilterLRs := fun _ => lrType.stereo
    currentIsBypass := fun _ => false
    currentIsSgcON := false
    currentIsEffectON := true
    currentUseSolo := false
    currentSoloIdx := 0
    currentSoloSide := false
    useLR := false
    useMS := false
    filterLRIndices := fun _ => []
    dynamicONIndices := []
    useTrackers := fun _ => false
    latency := 0
    filters := fun _ =>
      { dynamicON := false, filterStructure := zlFilter.FilterStructure.iir,
        mainFilter := defaultParas, sideFilter := defaultParas }
    bFilters := fun _ => defaultParas
    mainIIRs := fun _ => defaultParas
    mainIdeals := fun _ => defaultParas
    compensations := fun _ => 1
    compensationGains := fun _ => 1
    soloFilter := defaultParas
    prototypeCorrections := fun _ => { latency := 1024, toUpdate := false, isReset := false }
    mixedCorrections := fun _ => { latency := 1024, toUpdate := false, isReset := false }
    linearFilters := fun _ => { latency := 1024, toUpdate := false, isReset := false }
    sampleRate := 48000
    mainSpecSampleRate := 48000
    delaySamples := 48
    subBufferLatencySamples := 64
    fftPreDelaySeconds := 0
    fftSideDelaySeconds := 0
    conflictSideDelaySeconds := 0
    asyncUpdateTriggered := false
    processorLatencySamples := 0 }

end Controller

/-- A call that the controller makes on one of its collaborators (compressors, trackers, band
filters, gains, splitters, histograms), with the arguments that the controller chooses, or a
store to the atomic flag `isHistON[i]`. The audio methods of the controller and
`setLearningHist` are modelled by the list of these calls, in the order of the source. -/
inductive Call (α : Type) where
  | setThreshold (i : Nat) (x : α)
  | trackerProcess (lrIdx : Nat)
  | setBaseLine (i : Nat) (x : α)
  | filterProcess (i : Nat) (isBypassed : Bool)
  | filterProcessParallelPost (i : Nat) (isBypassed : Bool)
  | compensationGainProcess (lrIdx : Nat) (isBypassed : Bool)
  | lrMainSplit
  | lrSideSplit
  | lrMainCombine
  | msMainSplit
  | msSideSplit
  | msMainCombine
  | histogramPush (i idx : Nat)
  | subHistogramPush (i idx : Nat)
  | histogramReset (i : Nat)
  | subHistogramReset (i : Nat) (x : α)
  | isHistONStore (i : Nat) (x : Bool)
deriving DecidableEq, Repr

/-- The values that the collaborators of the controller return while one sub-buffer is
processed, and the two library functions applied to them. Their classes are declared outside
the listed sources, so the values are parameters: `groupLoudness lrIdx` is
`trackers[lrIdx].getMomentaryLoudness()` after `tracker.process`, `baseLine i` and
`momentaryLoudness i` are `getBaseLine()` and `getTracker().getMomentaryLoudness()` of the
compressor of band `i`, `percentile i` is `subHistograms[i].getPercentile(0.5)`, `mainGain i`,
`mainQ i` and `shouldBeParallel i` are read from the main filter of band `i`. -/
structure Readings (α : Type) where
  minusInfinityDB : α
  groupLoudness : Nat → α
  baseLine : Nat → α
  momentaryLoudness : Nat → α
  percentile : Nat → α
  mainGain : Nat → α
  mainQ : Nat → α
  shouldBeParallel : Nat → Bool
  snapToLegalValue : α → α
  roundToInt : α → Int

namespace Controller

variable {α : Type}

/-- The value of `baseLine` after lines 367-374 of `processDynamicLRMS`: `0` when the tracker
of the group is off, else the momentary loudness of the group, replaced by
`minusInfinityDB * 0.5` when it is at most `minusInfinityDB + 1`. -/
def groupBaseLine [LinearOrderedField α] (c : Controller α) (r : Readings α) (lrIdx : Nat) : α :=
  if c.useTrackers lrIdx then
    if r.groupLoudness lrIdx ≤ r.minusInfinityDB + 1 then r.minusInfinityDB * (1 / 2)
    else r.groupLoudness lrIdx
  else 0

/-- The body of the band loop of `processDynamicLRMS` for band `i` (lines 376-386): the
baseline handed to the compressor, then the band filter run in its bypassed or its normal
variant. -/
def processDynamicBand [LinearOrderedField α] (isBypassed : Bool) (c : Controller α)
    (baseLine : α) (i : Nat) : List (Call α) :=
  [Call.setBaseLine i (if c.dynRelatives i then baseLine else 0),
    Call.filterProcess i (c.currentIsBypass i || isBypassed)]

/-- The method `Controller::processDynamicLRMS<isBypassed> (lrIdx, ...)`. -/
def processDynamicLRMS [LinearOrderedField α] (isBypassed : Bool) (c : Controller α)
    (r : Readings α) (lrIdx : Nat) : List (Call α) :=
  (if c.useTrackers lrIdx then [Call.trackerProcess lrIdx] else [])
    ++ (c.filterLRIndices lrIdx).flatMap (processDynamicBand isBypassed c (groupBaseLine c r lrIdx))
    ++ (if c.currentIsSgcON ∧ c.currentFilterStructure ≠ filterStructure.parallel then
        [Call.compensationGainProcess lrIdx isBypassed] else [])

/-- The method `Controller::processParallelPostLRMS<isBypassed> (lrIdx, shouldParallel, ...)`. -/
def processParallelPostLRMS (isBypassed : Bool) (c : Controller α) (r : Readings α)
    (lrIdx : Nat) (shouldParallel : Bool) : List (Call α) :=
  (c.filterLRIndices lrIdx).flatMap (fun i =>
    if r.shouldBeParallel i = shouldParallel then
      [Call.filterProcessParallelPost i (c.currentIsBypass i || isBypassed)]
    else [])

/-- Lines 303-316 of `processDynamic`: unless the effect is bypassed, the threshold handed to
the knee computer of each dynamics-enabled band. -/
def setAutoThresholds [LinearOrderedField α] (isBypassed : Bool) (c : Controller α)
    (r : Readings α) : List (Call α) :=
  if !isBypassed then
    c.dynamicONIndices.map (fun i =>
      if c.isHistON i then
        Call.setThreshold i
          (c.currentThreshold i + 40 + r.snapToLegalValue (-(r.percentile i)))
      else Call.setThreshold i (c.currentThreshold i))
  else []

/-- Lines 347-355 of `processDynamic` for a band `i` that is learning, with
`diff = compressor.getBaseLine () - compressor.getTracker ().getMomentaryLoudness ()`: the
pushes into the two histograms of the band. -/
def histogramCalls [LinearOrderedField α] (roundToInt : α → Int) (i : Nat) (diff : α) :
    List (Call α) :=
  if diff ≤ 100 then
    let histIdx := zlCompressor.jlimit 0 79 (roundToInt diff)
    [Call.histogramPush i histIdx.toNat, Call.subHistogramPush i histIdx.toNat]
  else []

/-- The body of the last loop of `processDynamic` for band `i` (lines 343-355): the gain and Q
of the main filter are handed to `mainIdeals[i]` and `mainIIRs[i]`, and a learning band pushes
into its histograms. -/
def updateMainAndHistogram [LinearOrderedField α] (r : Readings α)
    (s : Controller α × List (Call α)) (i : Nat) : Controller α × List (Call α) :=
  let c := s.1
  let c1 := { c with
    mainIdeals := Function.update c.mainIdeals i
      { c.mainIdeals i with gain := r.mainGain i, q := r.mainQ i }
    mainIIRs := Function.update c.mainIIRs i
      { c.mainIIRs i with gain := r.mainGain i, q := r.mainQ i } }
  if c1.isHistON i then
    (c1, s.2 ++ histogramCalls r.roundToInt i (r.baseLine i - r.momentaryLoudness i))
  else (c1, s.2)

/-- The method `Controller::processDynamic<isBypassed>`: the thresholds, the bands of the
stereo group, then those of the left and right groups between split and combine, then those of
the mid and side groups, and last the loop over the dynamics-enabled bands. -/
def processDynamic [LinearOrderedField α] (isBypassed : Bool) (c : Controller α)
    (r : Readings α) : Controller α × List (Call α) :=
  let calls :=
    setAutoThresholds isBypassed c r
      ++ processDynamicLRMS isBypassed c r 0
      ++ (if c.useLR then
          [Call.lrMainSplit, Call.lrSideSplit] ++ processDynamicLRMS isBypassed c r 1
            ++ processDynamicLRMS isBypassed c r 2 ++ [Call.lrMainCombine]
        else [])
      ++ (if c.useMS then
          [Call.msMainSplit, Call.msSideSplit] ++ processDynamicLRMS isBypassed c r 3
            ++ processDynamicLRMS isBypassed c r 4 ++ [Call.msMainCombine]
        else [])
  if !isBypassed then c.dynamicONIndices.foldl (updateMainAndHistogram r) (c, calls)
  else (c, calls)

/-- The bands that a list of calls runs through their band filter (`filters[i].process`). -/
def processedBands (calls : List (Call α)) : List Nat :=
  calls.filterMap (fun x =>
    match x with
    | Call.filterProcess i _ => some i
    | _ => none)

/-- The index of the routing list of a routing group: `filterLRIndices[0..4]` are the lists of
stereo, left, right, mid and side, as in the `switch` of `updateLRs`. -/
def lrIndex (x : lrType) : Nat :=
  match x with
  | lrType.stereo => 0
  | lrType.left => 1
  | lrType.right => 2
  | lrType.mid => 3
  | lrType.side => 4

/-- The method `Controller::setLearningHist (idx, isLearning)`: the calls it makes, in the
order of the source (the two resets of the `if` block, then the store to `isHistON[idx]`), and
the state it leaves. -/
def setLearningHist [LinearOrderedField α] (c : Controller α) (idx : Nat) (isLearning : Bool) :
    List (Call α) × Controller α :=
  ((if isLearning then [Call.histogramReset idx, Call.subHistogramReset idx (25 / 2)] else [])
      ++ [Call.isHistONStore idx isLearning],
    { c with isHistON := Function.update c.isHistON idx isLearning })

/-- The update methods that the control section of `process` can run. -/
inductive UpdateMethod where
  | updateFilterStructure
  | updateDynamicONs
  | updateLRs
  | updateTrackersON
  | updateCorrections
  | updateSgcValues
  | updateSolo
deriving DecidableEq, Repr

/-- The update methods that the control section of `process` runs on a state, in order: each
guard of lines 126-165 is evaluated on the state that the preceding lines left. -/
def processUpdateCalls [LinearOrderedField α] (c : Controller α) : List UpdateMethod :=
  let c1 := pendingFilterStructure c
  let c2 := pendingDynamicON c1
  let c3 := pendingLRs c2
  let c4 := pendingBypass c3
  let c5 := pendingSgcON c4
  let c6 := pendingSgc c5
  (if c.mFilterStructure ≠ c.currentFilterStructure then [UpdateMethod.updateFilterStructure]
    else [])
    ++ (if c1.toUpdateDynamicON then [UpdateMethod.updateDynamicONs] else [])
    ++ (if c2.toUpdateLRs then
        [UpdateMethod.updateLRs, UpdateMethod.updateTrackersON, UpdateMethod.updateCorrections]
      else [])
    ++ (if c3.toUpdateBypass then [UpdateMethod.updateCorrections] else [])
    ++ (if c5.currentIsSgcON ∧ c5.toUpdateSgc then [UpdateMethod.updateSgcValues] else [])
    ++ (if c6.toUpdateSolo then [UpdateMethod.updateSolo] else [])

/-- Modelled from the spec: the class of the band filters `filters[i]` is declared outside the
listed sources. The normal variant of a band's processing "applies" an envelope-derived gain
and Q "to the band's dynamic filter" (`modulation i` stands for that gain and Q, whatever the
sidechain content makes them), and "a fully bypassed band contributes no gain change": the
bypassed variant leaves the dynamic filter as it is. Calls on the other collaborators do not
touch the band filters. -/
def applyBandCall (modulation : Nat → α × α) (fs : Nat → DynamicFilter α) (x : Call α) :
    Nat → DynamicFilter α :=
  match x with
  | Call.filterProcess i false =>
    Function.update fs i { fs i with
      mainFilter := { (fs i).mainFilter with gain := (modulation i).1, q := (modulation i).2 } }
  | Call.filterProcessParallelPost i false =>
    Function.update fs i { fs i with
      mainFilter := { (fs i).mainFilter with gain := (modulation i).1, q := (modulation i).2 } }
  | _ => fs

/-- The band filters after a list of calls, under `applyBandCall`. -/
def applyBandCalls (modulation : Nat → α × α) (fs : Nat → DynamicFilter α)
    (calls : List (Call α)) : Nat → DynamicFilter α :=
  calls.foldl (applyBandCall modulation) fs

/-- The readings used to evaluate the audio methods on the scenario: silence floor -240 dB,
every loudness -30 dB, every baseline 0 dB, median bucket 40, and `round` for `roundToInt`. -/
def scenarioReadings : Readings ℚ :=
  { minusInfinityDB := -240, groupLoudness := fun _ => -30, baseLine := fun _ => 0,
    momentaryLoudness := fun _ => -30, percentile := fun _ => 40, mainGain := fun _ => 0,
    mainQ := fun _ => 1, shouldBeParallel := fun _ => false,
    snapToLegalValue := fun x => x, roundToInt := fun x => round x }

/-- A steady state with one band: band 0 is active, routed to stereo (so it is the only entry
of routing list 0), with dynamics and learning switched on; the minimum-phase structure is
current and no update is pending. -/
def learningController : Controller ℚ :=
  { scenarioController filterStructure.minimum with
    isActive := fun i => decide (i = 0)
    toUpdateLRs := false
    filterLRIndices := fun g => if g = 0 then [0] else []
    filters := fun i =>
      { dynamicON := decide (i = 0), filterStructure := zlFilter.FilterStructure.iir,
        mainFilter := defaultParas, sideFilter := defaultParas }
    dynamicONIndices := [0]
    isHistON := fun i => decide (i = 0) }

/-- Readings in which the sidechain of each band is 5 dB louder than its baseline: baseline
0 dB, momentary loudness 5 dB, so that `diff` is -5. -/
def loudReadings : Readings ℚ :=
  { scenarioReadings with momentaryLoudness := fun _ => 5 }

/-- Readings of silence: the loudness of every group sits at `minusInfinityDB`. -/
def silentReadings : Readings ℚ :=
  { scenarioReadings with groupLoudness := fun _ => -240 }

/-- The one-band steady state with band 0 relative and the tracker of the stereo group on, as
`updateTrackersON` leaves it. -/
def relativeController : Controller ℚ :=
  { learningController with
    dynRelatives := fun i => decide (i = 0)
    useTrackers := fun g => decide (g = 0) }

/-- The one-band steady state with the bypass of band 0 applied. -/
def bypassedController : Controller ℚ :=
  { learningController with
    isBypass := fun i => decide (i = 0)
    currentIsBypass := fun i => decide (i = 0) }

/-- An array of correction filters `ds` comes from `cs` by `setToUpdate` calls at most: same
latencies, same cleared state, and every filter marked for update stays marked. -/
def keepsCorrections (cs ds : Nat → Correction) : Prop :=
  ∀ j, (ds j).latency = (cs j).latency ∧ (ds j).isReset = (cs j).isReset ∧
    ((cs j).toUpdate = true → (ds j).toUpdate = true)

/-- State `d` has the band filters and the current structure of state `c`, and its correction
filters come from those of `c` by `setToUpdate` calls at most. -/
def keepsBank (c d : Controller α) : Prop :=
  d.filters = c.filters ∧ d.currentFilterStructure = c.currentFilterStructure ∧
    keepsCorrections c.prototypeCorrections d.prototypeCorrections ∧
    keepsCorrections c.mixedCorrections d.mixedCorrections ∧
    keepsCorrections c.linearFilters d.linearFilters

/-- State `d` has the routing lists, routing flags, tracker flags and stored latency of state
`c`. -/
def keepsRouting (c d : Controller α) : Prop :=
  d.filterLRIndices = c.filterLRIndices ∧ d.useLR = c.useLR ∧ d.useMS = c.useMS ∧
    d.currentFilterLRs = c.currentFilterLRs ∧ d.useTrackers = c.useTrackers ∧
    d.latency = c.latency

end Controller

end zlDSP

namespace zlFilter

/-- The data members of `Ideal<FloatType, FilterSize>` that `updateMagnidue` reads or writes,
apart from the coefficients. -/
structure Ideal (α : Type) where
  toUpdatePara : Bool
  filterNum : Nat
  gains : List α
  dBs : List α

/-- The method `Ideal::updateMagnidue`. A pending parameter update is consumed (`designed`
stands for the number of sections that `updateParas` stores in `filterNum`); `gains` is filled
with `1`; each of the `filterNum` sections multiplies its magnitudes into it (`accumulate i`
stands for `filters[i].updateFromIdeal (coeffs[i])` followed by
`filters[i].updateMagnidue (ws, gains)`, declared outside the listed sources); the lambda of
lines 70-72 then writes one decibel value per gain over the front of `dBs`. The logarithm
`log10` accepts only arguments that come with a proof of positivity. -/
def Ideal.updateMagnidue {α : Type} [LinearOrderedField α] (log10 : { g : α // 0 < g } → α)
    (designed : Nat) (accumulate : Nat → List α → List α) (f : Ideal α) : Ideal α :=
  let f1 := if f.toUpdatePara then { f with toUpdatePara := false, filterNum := designed } else f
  let filled := f1.gains.map (fun _ => (1 : α))
  let gains1 := (List.range f1.filterNum).foldl (fun g i => accumulate i g) filled
  { f1 with
    gains := gains1
    dBs := gains1.map (fun g => if h : 0 < g then log10 ⟨g, h⟩ * 20 else -480)
      ++ f1.dBs.drop gains1.length }

/-- A two-point response with a parameter update pending, for evaluating `updateMagnidue`. -/
def twoPointIdeal : Ideal ℚ :=
  { toUpdatePara := true, filterNum := 1, gains := [1, 1], dBs := [0, 0] }

end zlFilter

namespace zlSplitter

/-- Modelled from the spec: the splitter classes are declared outside the listed sources. A
2-channel buffer is a list of sample frames `(left, right)`; the left/right splitter
"decomposes" it into the left view and the right view. -/
def lrSplit {α : Type} (buffer : List (α × α)) : List α × List α :=
  (buffer.map Prod.fst, buffer.map Prod.snd)

/-- Modelled from the spec: the left/right splitter "recombines" the two views into the
2-channel buffer. -/
def lrCombine {α : Type} (views : List α × List α) : List (α × α) :=
  views.1.zip views.2

/-- Modelled from the spec: the mid/side splitter "decomposes" a 2-channel buffer into the mid
view `(left + right) / 2` and the side view `(left - right) / 2`. -/
def msSplit {α : Type} [Field α] (buffer : List (α × α)) : List α × List α :=
  (buffer.map (fun x => (x.1 + x.2) / 2), buffer.map (fun x => (x.1 - x.2) / 2))

/-- Modelled from the spec: the mid/side splitter "recombines" the mid and side views into
left `mid + side` and right `mid - side`. -/
def msCombine {α : Type} [Field α] (views : List α × List α) : List (α × α) :=
  (views.1.zip views.2).map (fun x => (x.1 + x.2, x.1 - x.2))

end zlSplitter

namespace zlDSP

/-- A stage that `processSubBufferOnOff<isBypassed>` runs on the main sub-buffer: one of the
processing methods of the controller, or a call on the automatic-gain object `autoGain` or on
the output-gain object `outputGain`, each with its template argument. -/
inductive SubBufferStage where
  | processLinear (isBypassed : Bool)
  | autoGainProcessPre
  | processDynamic (isBypassed : Bool)
  | processParallelPost (isBypassed : Bool)
  | autoGainProcessPost (isBypassed : Bool)
  | processPrototypeCorrection (isBypassed : Bool)
  | processMixedCorrection (isBypassed : Bool)
  | outputGainProcess (isBypassed : Bool)
deriving DecidableEq, Repr

namespace Controller

variable {α : Type}

/-- The method `Controller::processSubBufferOnOff<isBypassed>` (lines 233-253): the stages it
runs, in the order of the source. -/
def processSubBufferOnOff (isBypassed : Bool) (c : Controller α) : List SubBufferStage :=
  (if c.currentFilterStructure = filterStructure.linear then
      [SubBufferStage.processLinear isBypassed]
    else
      [SubBufferStage.autoGainProcessPre, SubBufferStage.processDynamic isBypassed]
        ++ (if c.currentFilterStructure = filterStructure.parallel then
            [SubBufferStage.processParallelPost isBypassed] else [])
        ++ [SubBufferStage.autoGainProcessPost isBypassed]
        ++ (if c.currentFilterStructure = filterStructure.matched then
            [SubBufferStage.processPrototypeCorrection isBypassed]
          else if c.currentFilterStructure = filterStructure.mixed then
            [SubBufferStage.processMixedCorrection isBypassed]
          else []))
    ++ [SubBufferStage.outputGainProcess isBypassed]

/-- The `while` loop of the zero-latency branch of `process` (lines 177-187), started with
`startSample`; `numSamples` is `buffer.getNumSamples ()`. The result lists, in order, the
`(startSample, actualNumSample)` of each call of `processSubBuffer`. The loop need not end, so
the model counts iterations down from `fuel` and returns `none` when they are used up. The
sample counts are C++ `int`s that are not negative here: when the sum
`startSample + samplePerBuffer` does not fit an `int` (it reaches `2 ^ 31`), the behaviour of
the source is undefined and the model returns `none` as well. -/
def chunkLoop (samplePerBuffer numSamples : Nat) : Nat → Nat → Option (List (Nat × Nat))
  | 0, _ => none
  | fuel + 1, startSample =>
    if startSample < numSamples then
      let actualNumSample := min samplePerBuffer (numSamples - startSample)
      if startSample + samplePerBuffer < 2 ^ 31 then
        (chunkLoop samplePerBuffer numSamples fuel (startSample + samplePerBuffer)).map
          (fun rest => (startSample, actualNumSample) :: rest)
      else none
    else some []

/-- The sample indices that a list of sub-buffers `(startSample, actualNumSample)` hands to
`processSubBuffer`, in the order in which they are processed. -/
def chunkSamples (chunks : List (Nat × Nat)) : List Nat :=
  chunks.flatMap (fun ch => List.range' ch.1 ch.2)

/-- The method `Controller::setSolo (idx, isSide)`. -/
def setSolo (c : Controller α) (idx : Nat) (isSide : Bool) : Controller α :=
  { c with soloIdx := idx, soloSide := isSide, useSolo := true, toUpdateSolo := true }

/-- The method `Controller::clearSolo (idx, isSide)`. -/
def clearSolo (c : Controller α) (idx : Nat) (isSide : Bool) : Controller α :=
  if idx = c.soloIdx ∧ isSide = c.soloSide then
    { c with useSolo := false, toUpdateSolo := true }
  else c

/-- The method `Controller::setRelative (idx, isRelative)`. -/
def setRelative (c : Controller α) (idx : Nat) (isRelative : Bool) : Controller α :=
  updateTrackersON { c with dynRelatives := Function.update c.dynRelatives idx isRelative }

/-- The tracker flags agree with the routing lists: the tracker of each of the five groups is
on exactly when some band of the list of the group is flagged relative. -/
def trackerInvariant (c : Controller α) : Prop :=
  ∀ g, g < 5 → (c.useTrackers g = true ↔ ∃ i ∈ c.filterLRIndices g, c.dynRelatives i = true)

/-- State `d` has the tracker flags, the routing lists and the relative flags of state `c`. -/
def sameTrackerState (c d : Controller α) : Prop :=
  d.useTrackers = c.useTrackers ∧ d.filterLRIndices = c.filterLRIndices ∧
    d.dynRelatives = c.dynRelatives

/-- The thresholds that a list of calls hands to the knee computers, as pairs of band and
value, in order. -/
def thresholdsSet (calls : List (Call α)) : List (Nat × α) :=
  calls.filterMap (fun x =>
    match x with
    | Call.setThreshold i v => some (i, v)
    | _ => none)

/-- The bucket indices that a list of calls pushes into a histogram or a fast-decay
histogram, in order. -/
def bucketsPushed (calls : List (Call α)) : List Nat :=
  calls.filterMap (fun x =>
    match x with
    | Call.histogramPush _ idx => some idx
    | Call.subHistogramPush _ idx => some idx
    | _ => none)

/-- The one-band steady state with solo of the side filter of band 2 requested and made
current. -/
def soloController : Controller ℚ :=
  { learningController with
    useSolo := true, currentUseSolo := true, soloIdx := 2, soloSide := true }

/-- A steady state whose stereo list holds bands 0, 1 and 2 with compensation gains 2, 3 and
4, band 1 being bypassed, and with static gain compensation switched on. -/
def compensatedController : Controller ℚ :=
  { learningController with
    filterLRIndices := fun g => if g = 0 then [0, 1, 2] else []
    compensations := fun i => (i : ℚ) + 2
    currentIsBypass := fun i => decide (i = 1)
    isSgcON := true
    currentIsSgcON := true }

/-- The one-band steady state with the phase-matched structure current. -/
def matchedController : Controller ℚ :=
  { learningController with
    mFilterStructure := filterStructure.matched
    currentFilterStructure := filterStructure.matched }

end Controller

end zlDSP

namespace zlEqMatch

/-- The constant `EqMatchAnalyzer::smoothSize`. -/
def smoothSize : Nat := 11

/-- The data members of `EqMatchAnalyzer<FloatType>` that `updateSmooth` reads or writes; the
array `smoothKernel` is a function of the tap index, of which the taps below `smoothSize`
exist. -/
structure EqMatchAnalyzer (α : Type) where
  smooth : α
  toUpdateSmooth : Bool
  smoothKernel : Nat → α

/-- The value `tempSlope` of `updateSmooth` for a given `currentSmooth`, with
`midSlope = -1 / (smoothSize / 2)`. -/
def tempSlope {α : Type} [LinearOrderedField α] (currentSmooth : α) : α :=
  let midSlope : α := -1 / ((smoothSize / 2 : Nat) : α)
  if currentSmooth < 1 / 2 then -1 + currentSmooth * 2 * (midSlope + 1)
  else midSlope + (currentSmooth - 1 / 2) * 2 * (-midSlope)

/-- The kernel after the first loop of `updateSmooth`, before it is scaled: the centre tap is
set to `1`, then for `i = 1 .. smoothSize / 2` the tap `smoothSize / 2 + i` is set to
`tempSlope * i + 1` and copied to the tap `smoothSize / 2 - i`. -/
def rawKernel {α : Type} [LinearOrderedField α] (a : EqMatchAnalyzer α) : Nat → α :=
  let k0 := Function.update a.smoothKernel (smoothSize / 2) 1
  (List.range' 1 (smoothSize / 2)).foldl (fun k i =>
    let k1 := Function.update k (smoothSize / 2 + i) (tempSlope a.smooth * (i : α) + 1)
    Function.update k1 (smoothSize / 2 - i) (k1 (smoothSize / 2 + i))) k0

/-- The value of `std::reduce (smoothKernel.begin (), smoothKernel.end (), 0.0f)`: the sum of
the `smoothSize` taps. -/
def kernelSum {α : Type} [LinearOrderedField α] (k : Nat → α) : α :=
  ((List.range smoothSize).map k).sum

/-- The method `EqMatchAnalyzer::updateSmooth`: `toUpdateSmooth.exchange (false)` guards the
rebuilding of the kernel, which ends with every tap multiplied by
`kernelC = 1 / max (sum, 0.01)`. -/
def EqMatchAnalyzer.updateSmooth {α : Type} [LinearOrderedField α] (a : EqMatchAnalyzer α) :
    EqMatchAnalyzer α :=
  if a.toUpdateSmooth then
    let k := rawKernel a
    let kernelC := 1 / max (kernelSum k) (1 / 100)
    { a with
      toUpdateSmooth := false
      smoothKernel := fun j => if j < smoothSize then k j * kernelC else k j }
  else a

/-- An analyzer whose kernel holds zeros and whose update flag is set, with a given value of
the Smooth slider. -/
def freshAnalyzer (smooth : ℚ) : EqMatchAnalyzer ℚ :=
  { smooth := smooth, toUpdateSmooth := true, smoothKernel := fun _ => 0 }

end zlEqMatch

open zlCompressor zlCompressor.KneeComputer

section KneeLemmas

variable {α : Type} [LinearOrderedField α]

theorem jlimit_of_between {lo hi v : α} (h1 : lo ≤ v) (h2 : v ≤ hi) : jlimit lo hi v = v := by
  unfold jlimit
  rw [if_neg (not_lt.mpr h1), if_neg (not_lt.mpr h2)]

theorem jlimit_mem {lo hi : α} (h : lo ≤ hi) (v : α) :
    lo ≤ jlimit lo hi v ∧ jlimit lo hi v ≤ hi := by
  unfold jlimit
  split_ifs with h1 h2
  · exact ⟨le_refl _, h⟩
  · exact ⟨h, le_refl _⟩
  · exact ⟨not_lt.mp h1, not_lt.mp h2⟩

theorem eval_of_le_knee_start (k : KneeComputer α) {x : α} (hx : x ≤ k.threshold - k.kneeW) :
    eval k x = x := by
  unfold eval
  rw [if_pos hx]

@[simp] theorem interpolate_threshold (k : KneeComputer α) :
    (interpolate k).threshold = k.threshold := rfl

@[simp] theorem interpolate_ratio (k : KneeComputer α) : (interpolate k).ratio = k.ratio := rfl

@[simp] theorem interpolate_kneeW (k : KneeComputer α) : (interpolate k).kneeW = k.kneeW := rfl

@[simp] theorem interpolate_bound (k : KneeComputer α) : (interpolate k).bound = k.bound := rfl

@[simp] theorem interpolate_tempA (k : KneeComputer α) :
    (interpolate k).tempA = 1 / k.ratio - 1 := rfl

@[simp] theorem interpolate_tempB (k : KneeComputer α) :
    (interpolate k).tempB = -k.threshold + k.kneeW := rfl

@[simp] theorem interpolate_tempC (k : KneeComputer α) :
    (interpolate k).tempC = k.kneeW * 4 := rfl

/-- Inside the knee the quadratic blend is non-decreasing (`u`, `v` are the distances of the
two inputs to the knee start, `r = 1 / ratio`). -/
theorem knee_quad_mono (r W u v : α) (hr0 : 0 ≤ r) (hW : 0 < W)
    (hu : 0 ≤ u) (huv : u ≤ v) (hv : v ≤ 2 * W) :
    u + (r - 1) * u * u / (W * 4) ≤ v + (r - 1) * v * v / (W * 4) := by
  have h4 : (0 : α) < W * 4 := by linarith
  have key : ((1 - r) * v * v - (1 - r) * u * u) / (W * 4) ≤ v - u := by
    rw [div_le_iff₀ h4]
    have h1 : 0 ≤ (v - u) * (4 * W - (v + u)) := mul_nonneg (by linarith) (by linarith)
    have h2 : 0 ≤ r * ((v - u) * (v + u)) :=
      mul_nonneg hr0 (mul_nonneg (by linarith) (by linarith))
    nlinarith
  have e : (r - 1) * v * v / (W * 4) - (r - 1) * u * u / (W * 4)
      = -(((1 - r) * v * v - (1 - r) * u * u) / (W * 4)) := by ring
  linarith

/-- Up to the knee end the quadratic blend stays below the value of the ratio line there. -/
theorem knee_quad_le_line (r W u : α) (hr0 : 0 ≤ r) (hW : 0 < W)
    (hu : 0 ≤ u) (hv : u ≤ 2 * W) :
    u + (r - 1) * u * u / (W * 4) ≤ W + W * r := by
  have h4 : (0 : α) < W * 4 := by linarith
  have key : (u - W - W * r) ≤ (1 - r) * u * u / (W * 4) := by
    rw [le_div_iff₀ h4]
    have h1 : 0 ≤ (u - 2 * W) * (u - 2 * W) := mul_self_nonneg _
    have h2 : 0 ≤ r * ((2 * W - u) * (2 * W + u)) :=
      mul_nonneg hr0 (mul_nonneg (by linarith) (by linarith))
    nlinarith
  have e : (r - 1) * u * u / (W * 4) = -((1 - r) * u * u / (W * 4)) := by ring
  linarith

/-- The quadratic term of the blend never raises the level when `ratio >= 1`. -/
theorem knee_quad_nonpos (r W u : α) (hr1 : r ≤ 1) (hW : 0 < W) :
    (r - 1) * u * u / (W * 4) ≤ 0 := by
  have h4 : (0 : α) < W * 4 := by linarith
  apply div_nonpos_of_nonpos_of_nonneg _ h4.le
  have : 0 ≤ (1 - r) * (u * u) := mul_nonneg (by linarith) (mul_self_nonneg u)
  nlinarith

theorem inv_ratio_bounds {R : α} (hR : 1 ≤ R) : 0 ≤ 1 / R ∧ 1 / R ≤ 1 := by
  have h0 : (0 : α) < R := by linarith
  exact ⟨by positivity, by rw [div_le_iff₀ h0]; linarith⟩

theorem insideKnee_interpolate (k : KneeComputer α) (x : α) :
    insideKnee (interpolate k) x = k.threshold - k.kneeW + ((x - k.threshold + k.kneeW)
      + (1 / k.ratio - 1) * (x - k.threshold + k.kneeW) * (x - k.threshold + k.kneeW)
        / (k.kneeW * 4)) := by
  simp only [insideKnee, interpolate_tempA, interpolate_tempB, interpolate_tempC]
  ring

theorem aboveKnee_interpolate (k : KneeComputer α) (x : α) :
    aboveKnee (interpolate k) x = k.threshold + (x - k.threshold) * (1 / k.ratio) := by
  simp only [aboveKnee, interpolate_threshold, interpolate_ratio]
  ring

theorem eval_eq_unclamped (k : KneeComputer α) (x : α) :
    eval k x = if x ≤ k.threshold - k.kneeW then x
      else jlimit (x - k.bound) (x + k.bound) (unclamped k x) := by
  unfold eval unclamped
  split_ifs <;> rfl

theorem unclamped_below (k : KneeComputer α) {x : α} (h : x ≤ k.threshold - k.kneeW) :
    unclamped (interpolate k) x = x := by
  unfold unclamped
  simp only [interpolate_threshold, interpolate_kneeW]
  rw [if_pos h]

theorem unclamped_above (k : KneeComputer α) {x : α} (h1 : k.threshold - k.kneeW < x)
    (h2 : k.threshold + k.kneeW ≤ x) :
    unclamped (interpolate k) x = k.threshold + (x - k.threshold) * (1 / k.ratio) := by
  unfold unclamped
  simp only [interpolate_threshold, interpolate_kneeW]
  rw [if_neg (not_le.mpr h1), if_pos h2, aboveKnee_interpolate]

theorem unclamped_inside (k : KneeComputer α) {x : α} (h1 : k.threshold - k.kneeW < x)
    (h2 : x < k.threshold + k.kneeW) :
    unclamped (interpolate k) x = k.threshold - k.kneeW + ((x - k.threshold + k.kneeW)
      + (1 / k.ratio - 1) * (x - k.threshold + k.kneeW) * (x - k.threshold + k.kneeW)
        / (k.kneeW * 4)) := by
  unfold unclamped
  simp only [interpolate_threshold, interpolate_kneeW]
  rw [if_neg (not_le.mpr h1), if_neg (not_le.mpr h2), insideKnee_interpolate]

/-- With current coefficients, `ratio >= 1` and `kneeW >= 0`, the value before clamping never
exceeds the input. -/
theorem unclamped_le_self (k : KneeComputer α) (hR : 1 ≤ k.ratio) (x : α) :
    unclamped (interpolate k) x ≤ x := by
  obtain ⟨hr0, hr1⟩ := inv_ratio_bounds hR
  rcases le_or_lt x (k.threshold - k.kneeW) with h1 | h1
  · rw [unclamped_below k h1]
  rcases le_or_lt (k.threshold + k.kneeW) x with h2 | h2
  · rw [unclamped_above k h1 h2]
    have : 0 ≤ (x - k.threshold) * (1 - 1 / k.ratio) :=
      mul_nonneg (by linarith) (by linarith)
    nlinarith
  · rw [unclamped_inside k h1 h2]
    have := knee_quad_nonpos (1 / k.ratio) k.kneeW (x - k.threshold + k.kneeW) hr1
      (by linarith)
    linarith

/-- With current coefficients, `ratio >= 1` and `kneeW >= 0`, the value before clamping is
non-decreasing in the input, across the three branches. -/
theorem unclamped_mono (k : KneeComputer α) (hR : 1 ≤ k.ratio) (hW : 0 ≤ k.kneeW) {x y : α}
    (hxy : x ≤ y) : unclamped (interpolate k) x ≤ unclamped (interpolate k) y := by
  obtain ⟨hr0, hr1⟩ := inv_ratio_bounds hR
  rcases le_or_lt x (k.threshold - k.kneeW) with hx1 | hx1
  · rw [unclamped_below k hx1]
    rcases le_or_lt y (k.threshold - k.kneeW) with hy1 | hy1
    · rw [unclamped_below k hy1]; exact hxy
    rcases le_or_lt (k.threshold + k.kneeW) y with hy2 | hy2
    · rw [unclamped_above k hy1 hy2]
      have : 0 ≤ (y - k.threshold) * (1 / k.ratio) := mul_nonneg (by linarith) hr0
      linarith
    · rw [unclamped_inside k hy1 hy2]
      have := knee_quad_mono (1 / k.ratio) k.kneeW 0 (y - k.threshold + k.kneeW) hr0
        (by linarith) (le_refl _) (by linarith) (by linarith)
      simp only [mul_zero, zero_mul, zero_div, add_zero] at this
      linarith
  have hy1 : k.threshold - k.kneeW < y := lt_of_lt_of_le hx1 hxy
  rcases le_or_lt (k.threshold + k.kneeW) x with hx2 | hx2
  · rw [unclamped_above k hx1 hx2, unclamped_above k hy1 (le_trans hx2 hxy)]
    have : 0 ≤ (y - x) * (1 / k.ratio) := mul_nonneg (by linarith) hr0
    nlinarith
  rcases le_or_lt (k.threshold + k.kneeW) y with hy2 | hy2
  · rw [unclamped_inside k hx1 hx2, unclamped_above k hy1 hy2]
    have h1 := knee_quad_le_line (1 / k.ratio) k.kneeW (x - k.threshold + k.kneeW) hr0
      (by linarith) (by linarith) (by linarith)
    have h2 : 0 ≤ (y - k.threshold - k.kneeW) * (1 / k.ratio) :=
      mul_nonneg (by linarith) hr0
    nlinarith
  · rw [unclamped_inside k hx1 hx2, unclamped_inside k hy1 hy2]
    have := knee_quad_mono (1 / k.ratio) k.kneeW (x - k.threshold + k.kneeW)
      (y - k.threshold + k.kneeW) hr0 (by linarith) (by linarith) (by linarith) (by linarith)
    linarith

/-- With a non-negative bound, clamping a value that does not exceed the input is taking the
maximum with the lower limit. -/
theorem jlimit_eq_max {B x g : α} (hB : 0 ≤ B) (hg : g ≤ x) :
    jlimit (x - B) (x + B) g = max (x - B) g := by
  unfold jlimit
  split_ifs with h1 h2
  · rw [max_eq_left h1.le]
  · exfalso; linarith
  · rw [max_eq_right (not_lt.mp h1)]

/-- With a negative bound the limits are crossed and a value that does not exceed the input is
sent to the first limit `x - B`. -/
theorem jlimit_of_neg_bound {B x g : α} (hB : B < 0) (hg : g ≤ x) :
    jlimit (x - B) (x + B) g = x - B := by
  unfold jlimit
  rw [if_pos (by linarith)]

theorem eval_interpolate_eq_max (k : KneeComputer α) (hR : 1 ≤ k.ratio) (hB : 0 ≤ k.bound)
    (x : α) : eval (interpolate k) x = max (x - k.bound) (unclamped (interpolate k) x) := by
  rw [eval_eq_unclamped]
  simp only [interpolate_threshold, interpolate_kneeW, interpolate_bound]
  split_ifs with h
  · rw [unclamped_below k h, max_eq_right (by linarith)]
  · exact jlimit_eq_max hB (unclamped_le_self k hR x)

theorem eval_interpolate_of_neg_bound (k : KneeComputer α) (hR : 1 ≤ k.ratio)
    (hB : k.bound < 0) (x : α) :
    eval (interpolate k) x = if x ≤ k.threshold - k.kneeW then x else x - k.bound := by
  rw [eval_eq_unclamped]
  simp only [interpolate_threshold, interpolate_kneeW, interpolate_bound]
  split_ifs with h
  · rfl
  · exact jlimit_of_neg_bound hB (unclamped_le_self k hR x)

/-- With current coefficients the branch formulas of `eval` agree at both knee boundaries, in
any ordered field. -/
theorem knee_boundary_values (k : KneeComputer α) :
    insideKnee (interpolate k) (k.threshold - k.kneeW) = k.threshold - k.kneeW ∧
      insideKnee (interpolate k) (k.threshold + k.kneeW) = k.threshold + k.kneeW / k.ratio ∧
      aboveKnee (interpolate k) (k.threshold + k.kneeW) = k.threshold + k.kneeW / k.ratio := by
  refine ⟨?_, ?_, ?_⟩
  · simp only [insideKnee, interpolate_tempA, interpolate_tempB, interpolate_tempC]
    ring
  · simp only [insideKnee, interpolate_tempA, interpolate_tempB, interpolate_tempC]
    rcases eq_or_ne k.kneeW 0 with h | h
    · rw [h]; simp
    · field_simp
      ring
  · simp only [aboveKnee, interpolate_threshold, interpolate_ratio]
    ring

end KneeLemmas

section KneeClaims

variable {α : Type} [LinearOrderedField α]

/-- C1: for every threshold, knee half-width, ratio and bound, an input `x` with
`x <= threshold - kneeW` is returned unchanged by `eval`, and `process x` is exactly `0`. -/
theorem eval_below_knee (k : KneeComputer α) (x : α) (hx : x ≤ k.threshold - k.kneeW) :
    eval k x = x ∧ process k x = 0 := by
  have h : eval k x = x := eval_of_le_knee_start k hx
  exact ⟨h, by unfold process; rw [h, sub_self]⟩

/-- Witness for C1 on the scenario of the specification: `x = -30` lies below the knee start
`-26`. -/
theorem eval_below_knee_witness :
    (-30 : ℚ) ≤ (scenario (100 : ℚ)).threshold - (scenario (100 : ℚ)).kneeW ∧
      eval (scenario (100 : ℚ)) (-30) = -30 ∧ process (scenario (100 : ℚ)) (-30) = 0 :=
  ⟨by norm_num [scenario], eval_below_knee (scenario (100 : ℚ)) (-30) (by norm_num [scenario])⟩

/-- C2: for every `x` with `x >= threshold + kneeW` (and `x > threshold - kneeW`), `eval x` is
`jlimit` with lower limit `x - bound` and upper limit `x + bound` applied to
`threshold + (x - threshold) / ratio`; with threshold -20, ratio 4, knee half-width 6 and a bound
that does not clamp at `x` (`3 (x + 20) / 4 <= bound`), `eval x = -20 + (x + 20) / 4` for every
`x >= -14`, and `process (-14) = -4.5`. -/
theorem eval_above_knee (k : KneeComputer α) (x : α) :
    (x ≥ k.threshold + k.kneeW → x > k.threshold - k.kneeW →
        eval k x = jlimit (x - k.bound) (x + k.bound)
          (k.threshold + (x - k.threshold) / k.ratio)) ∧
    (k.threshold = -20 → k.ratio = 4 → k.kneeW = 6 → -14 ≤ x → 3 * (x + 20) / 4 ≤ k.bound →
        eval k x = -20 + (x + 20) / 4) ∧
    (k.threshold = -20 → k.ratio = 4 → k.kneeW = 6 → 9 / 2 ≤ k.bound →
        process k (-14) = -(9 / 2)) := by
  have above : ∀ y : α, y ≥ k.threshold + k.kneeW → y > k.threshold - k.kneeW →
      eval k y = jlimit (y - k.bound) (y + k.bound)
        (k.threshold + (y - k.threshold) / k.ratio) := by
    intro y h1 h2
    unfold eval
    rw [if_neg (not_le.mpr h2), if_pos h1]
    rfl
  have slope : ∀ y : α, k.threshold = -20 → k.ratio = 4 → k.kneeW = 6 → -14 ≤ y →
      3 * (y + 20) / 4 ≤ k.bound → eval k y = -20 + (y + 20) / 4 := by
    intro y hT hR hW hy hB
    rw [above y (by rw [hT, hW]; linarith) (by rw [hT, hW]; linarith), hT, hR]
    rw [jlimit_of_between (by linarith) (by linarith)]
    ring
  refine ⟨above x, slope x, ?_⟩
  intro hT hR hW hB
  unfold process
  rw [slope (-14) hT hR hW (le_refl _) (by linarith)]
  norm_num

/-- Witness for C2: the scenario with bound 100 at `x = 0`. -/
theorem eval_above_knee_witness :
    eval (scenario (100 : ℚ)) 0 = jlimit (0 - 100) (0 + 100) (-20 + (0 - (-20)) / 4) ∧
      eval (scenario (100 : ℚ)) 0 = -20 + (0 + 20) / 4 ∧
      process (scenario (100 : ℚ)) (-14) = -(9 / 2) :=
  ⟨(eval_above_knee (scenario (100 : ℚ)) 0).1 (by norm_num [scenario]) (by norm_num [scenario]),
    (eval_above_knee (scenario (100 : ℚ)) 0).2.1 rfl rfl rfl (by norm_num)
      (by norm_num [scenario]),
    (eval_above_knee (scenario (100 : ℚ)) 0).2.2 rfl rfl rfl (by norm_num [scenario])⟩

/-- C3: after `interpolate`, for every `x` strictly inside the knee
(`threshold - kneeW < x < threshold + kneeW`), `eval x` is `jlimit (x - bound) (x + bound)` of
`x + a (x + b)^2 / c` with `a = 1 / ratio - 1`, `b = kneeW - threshold`, `c = 4 kneeW`, and
`interpolate` stores exactly these three coefficients. -/
theorem eval_inside_knee (k : KneeComputer α) (x : α)
    (h1 : k.threshold - k.kneeW < x) (h2 : x < k.threshold + k.kneeW) :
    eval (interpolate k) x = jlimit (x - k.bound) (x + k.bound)
        (x + (1 / k.ratio - 1) * (x + (k.kneeW - k.threshold)) ^ 2 / (4 * k.kneeW)) ∧
      (interpolate k).tempA = 1 / k.ratio - 1 ∧
      (interpolate k).tempB = k.kneeW - k.threshold ∧
      (interpolate k).tempC = 4 * k.kneeW := by
  refine ⟨?_, rfl, ?_, ?_⟩
  · unfold eval
    simp only [interpolate_threshold, interpolate_kneeW, interpolate_bound]
    rw [if_neg (not_le.mpr h1), if_neg (not_le.mpr h2)]
    congr 1
    simp only [insideKnee, interpolate_tempA, interpolate_tempB, interpolate_tempC]
    ring
  · rw [interpolate_tempB]; ring
  · rw [interpolate_tempC]; ring

/-- Witness for C3: the scenario with bound 100 at `x = -20`, the centre of the knee. -/
theorem eval_inside_knee_witness :
    eval (interpolate (scenario (100 : ℚ))) (-20) = jlimit (-20 - 100) (-20 + 100)
        (-20 + (1 / 4 - 1) * (-20 + (6 - (-20))) ^ 2 / (4 * 6)) ∧
      (interpolate (scenario (100 : ℚ))).tempA = 1 / 4 - 1 ∧
      (interpolate (scenario (100 : ℚ))).tempB = 6 - (-20) ∧
      (interpolate (scenario (100 : ℚ))).tempC = 4 * 6 :=
  eval_inside_knee (scenario (100 : ℚ)) (-20) (by norm_num [scenario]) (by norm_num [scenario])

/-- C7: for every bound `B >= 0` and every input `x` (any threshold and knee width, non-zero
ratio, whatever the cached coefficients), `x - B <= eval x <= x + B`, that is
`|process x| <= B`. -/
theorem eval_within_bound (k : KneeComputer α) (x : α) (hB : 0 ≤ k.bound)
    (_hR : k.ratio ≠ 0) :
    x - k.bound ≤ eval k x ∧ eval k x ≤ x + k.bound ∧ |process k x| ≤ k.bound := by
  have hlim : x - k.bound ≤ x + k.bound := by linarith
  have h : x - k.bound ≤ eval k x ∧ eval k x ≤ x + k.bound := by
    unfold eval
    split_ifs
    · constructor <;> linarith
    · exact jlimit_mem hlim _
    · exact jlimit_mem hlim _
  refine ⟨h.1, h.2, ?_⟩
  unfold process
  rw [abs_le]
  constructor <;> linarith [h.1, h.2]

/-- Witness for C7: the scenario with the tight bound 3 at `x = 0`. -/
theorem eval_within_bound_witness :
    (0 : ℚ) - 3 ≤ eval (interpolate (scenario (3 : ℚ))) 0 ∧
      eval (interpolate (scenario (3 : ℚ))) 0 ≤ 0 + 3 ∧
      |process (interpolate (scenario (3 : ℚ))) 0| ≤ 3 :=
  eval_within_bound (interpolate (scenario (3 : ℚ))) 0 (by norm_num [scenario])
    (by norm_num [scenario])

/-- C5: for every threshold, `ratio >= 1` and `kneeW >= 0`, with current coefficients, and all
inputs `x <= y`, `eval x <= eval y`: `eval` is non-decreasing across the below-knee,
inside-knee and above-knee branches, the clamp to `[x - bound, x + bound]` included (for any
bound). -/
theorem eval_mono (k : KneeComputer α) (hR : 1 ≤ k.ratio) (hW : 0 ≤ k.kneeW) (x y : α)
    (hxy : x ≤ y) : eval (interpolate k) x ≤ eval (interpolate k) y := by
  rcases le_or_lt 0 k.bound with hB | hB
  · rw [eval_interpolate_eq_max k hR hB, eval_interpolate_eq_max k hR hB]
    exact max_le_max (by linarith) (unclamped_mono k hR hW hxy)
  · rw [eval_interpolate_of_neg_bound k hR hB, eval_interpolate_of_neg_bound k hR hB]
    split_ifs with h1 h2 h2
    · exact hxy
    · linarith
    · exfalso; exact h1 (le_trans hxy h2)
    · linarith

/-- Witness for C5: in the scenario with the tight bound 3, an input inside the knee and one
above it. -/
theorem eval_mono_witness :
    eval (interpolate (scenario (3 : ℚ))) (-20) ≤ eval (interpolate (scenario (3 : ℚ))) (-10) :=
  eval_mono (scenario (3 : ℚ)) (by norm_num [scenario]) (by norm_num [scenario]) (-20) (-10)
    (by norm_num)

end KneeClaims

section KneeContinuity

/-- Over the reals, with current coefficients and `kneeW >= 0`, the value before clamping is a
continuous function of the input: the three branch formulas are continuous and agree where
the branches meet. -/
theorem unclamped_continuous (k : KneeComputer ℝ) (hW : 0 ≤ k.kneeW) :
    Continuous (unclamped (interpolate k)) := by
  have hin : Continuous (insideKnee (interpolate k)) := by
    unfold insideKnee
    fun_prop
  have hab : Continuous (aboveKnee (interpolate k)) := by
    unfold aboveKnee
    fun_prop
  obtain ⟨v1, v2, v3⟩ := knee_boundary_values k
  have hinner : Continuous (fun x : ℝ => if k.threshold + k.kneeW ≤ x then
      aboveKnee (interpolate k) x else insideKnee (interpolate k) x) := by
    apply Continuous.if_le hab hin continuous_const continuous_id
    intro x hx
    simp only [id_eq] at hx
    subst hx
    rw [v2, v3]
  have houter : Continuous (fun x : ℝ => if x ≤ k.threshold - k.kneeW then x else
      (if k.threshold + k.kneeW ≤ x then
        aboveKnee (interpolate k) x else insideKnee (interpolate k) x)) := by
    apply Continuous.if_le continuous_id hinner continuous_id continuous_const
    intro x hx
    simp only [id_eq] at hx
    subst hx
    split_ifs with h
    · have h0 : k.kneeW = 0 := by linarith
      simp [aboveKnee, h0]
    · rw [v1]; rfl
  exact houter

/-- Over the reals, with current coefficients, `ratio >= 1`, `kneeW >= 0` and a non-negative
bound, `eval` is a continuous function of the input. -/
theorem eval_continuous (k : KneeComputer ℝ) (hR : 1 ≤ k.ratio) (hW : 0 ≤ k.kneeW)
    (hB : 0 ≤ k.bound) : Continuous (eval (interpolate k)) := by
  have h : eval (interpolate k)
      = fun x => max (x - k.bound) (unclamped (interpolate k) x) := by
    funext x
    exact eval_interpolate_eq_max k hR hB x
  rw [h]
  exact (continuous_id.sub continuous_const).max (unclamped_continuous k hW)

/-- C4: for every threshold, `ratio >= 1` and `kneeW >= 0`, with current coefficients, `eval`
is continuous at both knee boundaries: at `x = threshold - kneeW` the inside-knee formula gives
`x` itself, the value of the below-knee branch; at `x = threshold + kneeW` the inside-knee
formula and the above-knee formula both give `threshold + kneeW / ratio`, hence the same value
after clamping; and with a non-negative bound `eval`, as a function on the reals, is continuous
at both points. (For `kneeW = 0` the knee is empty, the two boundaries coincide and the
inside-knee branch is never taken.) -/
theorem knee_boundaries_agree (k : KneeComputer ℝ) (hR : 1 ≤ k.ratio) (hW : 0 ≤ k.kneeW) :
    insideKnee (interpolate k) (k.threshold - k.kneeW) = k.threshold - k.kneeW ∧
      eval (interpolate k) (k.threshold - k.kneeW) = k.threshold - k.kneeW ∧
      insideKnee (interpolate k) (k.threshold + k.kneeW) = k.threshold + k.kneeW / k.ratio ∧
      aboveKnee (interpolate k) (k.threshold + k.kneeW) = k.threshold + k.kneeW / k.ratio ∧
      jlimit (k.threshold + k.kneeW - k.bound) (k.threshold + k.kneeW + k.bound)
          (insideKnee (interpolate k) (k.threshold + k.kneeW))
        = jlimit (k.threshold + k.kneeW - k.bound) (k.threshold + k.kneeW + k.bound)
          (aboveKnee (interpolate k) (k.threshold + k.kneeW)) ∧
      (0 ≤ k.bound → ContinuousAt (eval (interpolate k)) (k.threshold - k.kneeW) ∧
        ContinuousAt (eval (interpolate k)) (k.threshold + k.kneeW)) := by
  obtain ⟨v1, v2, v3⟩ := knee_boundary_values k
  refine ⟨v1, eval_of_le_knee_start (interpolate k) (le_refl _), v2, v3, by rw [v2, v3], ?_⟩
  intro hB
  exact ⟨(eval_continuous k hR hW hB).continuousAt, (eval_continuous k hR hW hB).continuousAt⟩

/-- Witness for C4: the scenario with bound 100 over the reals, knee boundaries `-26` and
`-14`. -/
theorem knee_boundaries_agree_witness :
    insideKnee (interpolate (scenario (100 : ℝ))) (-20 - 6) = -20 - 6 ∧
      insideKnee (interpolate (scenario (100 : ℝ))) (-20 + 6) = -20 + 6 / 4 ∧
      ContinuousAt (eval (interpolate (scenario (100 : ℝ)))) (-20 - 6) ∧
      ContinuousAt (eval (interpolate (scenario (100 : ℝ)))) (-20 + 6) :=
  ⟨(knee_boundaries_agree (scenario (100 : ℝ)) (by norm_num [scenario])
      (by norm_num [scenario])).1,
    (knee_boundaries_agree (scenario (100 : ℝ)) (by norm_num [scenario])
      (by norm_num [scenario])).2.2.1,
    ((knee_boundaries_agree (scenario (100 : ℝ)) (by norm_num [scenario])
      (by norm_num [scenario])).2.2.2.2.2 (by norm_num [scenario])).1,
    ((knee_boundaries_agree (scenario (100 : ℝ)) (by norm_num [scenario])
      (by norm_num [scenario])).2.2.2.2.2 (by norm_num [scenario])).2⟩

end KneeContinuity

section KneeDerivative

/-- The unclamped inside-knee value with current coefficients has, at every point `x0`, the
derivative `1 + (1 / ratio - 1) (2 (x0 + kneeW - threshold)) / (4 kneeW)`. -/
theorem insideKnee_hasDerivAt (k : KneeComputer ℝ) (x0 : ℝ) :
    HasDerivAt (insideKnee (interpolate k))
      (1 + (1 / k.ratio - 1) * (2 * (x0 + k.kneeW - k.threshold)) / (4 * k.kneeW)) x0 := by
  have h1 : HasDerivAt (fun x : ℝ => x + (-k.threshold + k.kneeW)) 1 x0 :=
    (hasDerivAt_id x0).add_const _
  have h2 := ((h1.mul h1).const_mul (1 / k.ratio - 1)).div_const (k.kneeW * 4)
  have h3 := (hasDerivAt_id x0).add h2
  have hf : insideKnee (interpolate k) = fun x : ℝ => id x + (1 / k.ratio - 1) *
      ((x + (-k.threshold + k.kneeW)) * (x + (-k.threshold + k.kneeW))) / (k.kneeW * 4) := by
    funext x
    simp only [insideKnee, interpolate_tempA, interpolate_tempB, interpolate_tempC, id]
    ring
  rw [hf]
  convert h3 using 1
  ring

/-- C6: for `kneeW > 0` the unclamped inside-knee quadratic
`q x = x + (1 / ratio - 1) (x + kneeW - threshold)^2 / (4 kneeW)` computed with current
coefficients has first derivative `1` at `threshold - kneeW`, the slope of the below-knee
branch `x`, and first derivative `1 / ratio` at `threshold + kneeW`, the slope of the
above-knee formula. -/
theorem knee_derivative_matches (k : KneeComputer ℝ) (hW : 0 < k.kneeW) :
    (∀ x : ℝ, insideKnee (interpolate k) x
        = x + (1 / k.ratio - 1) * (x + k.kneeW - k.threshold) ^ 2 / (4 * k.kneeW)) ∧
      HasDerivAt (insideKnee (interpolate k)) 1 (k.threshold - k.kneeW) ∧
      HasDerivAt (fun x : ℝ => x) 1 (k.threshold - k.kneeW) ∧
      HasDerivAt (insideKnee (interpolate k)) (1 / k.ratio) (k.threshold + k.kneeW) ∧
      HasDerivAt (aboveKnee (interpolate k)) (1 / k.ratio) (k.threshold + k.kneeW) := by
  have hW4 : (4 : ℝ) * k.kneeW ≠ 0 := by positivity
  refine ⟨?_, ?_, hasDerivAt_id _, ?_, ?_⟩
  · intro x
    simp only [insideKnee, interpolate_tempA, interpolate_tempB, interpolate_tempC]
    ring
  · convert insideKnee_hasDerivAt k (k.threshold - k.kneeW) using 1
    field_simp
  · convert insideKnee_hasDerivAt k (k.threshold + k.kneeW) using 1
    field_simp
    ring
  · have h := ((hasDerivAt_id (k.threshold + k.kneeW)).sub_const k.threshold).div_const k.ratio
    have h2 := h.const_add k.threshold
    have hf : aboveKnee (interpolate k)
        = fun x : ℝ => k.threshold + (id x - k.threshold) / k.ratio := by
      funext x
      simp only [aboveKnee, interpolate_threshold, interpolate_ratio, id]
    rw [hf]
    exact h2

/-- Witness for C6: the scenario of the specification over the reals, knee half-width 6. -/
theorem knee_derivative_matches_witness :
    HasDerivAt (insideKnee (interpolate (scenario (100 : ℝ)))) 1
        ((scenario (100 : ℝ)).threshold - (scenario (100 : ℝ)).kneeW) ∧
      HasDerivAt (insideKnee (interpolate (scenario (100 : ℝ))))
        (1 / (scenario (100 : ℝ)).ratio)
        ((scenario (100 : ℝ)).threshold + (scenario (100 : ℝ)).kneeW) :=
  ⟨(knee_derivative_matches (scenario (100 : ℝ)) (by norm_num [scenario])).2.1,
    (knee_derivative_matches (scenario (100 : ℝ)) (by norm_num [scenario])).2.2.2.1⟩

end KneeDerivative

open zlDSP zlDSP.Controller

section ControllerLemmas

variable {α : Type}

/-- One iteration of the band loop of `updateLRs` rewrites only `currentFilterLRs`,
`filterLRIndices`, `useLR` and `useMS`, and raises a flag exactly for an active band of the
corresponding routing. -/
theorem updateLRsBand_eq (c : Controller α) (i : Nat) :
    ∃ F G, updateLRsBand c i = { c with
      currentFilterLRs := F
      filterLRIndices := G
      useLR := c.useLR || (c.isActive i && isLRType (c.filterLRs i))
      useMS := c.useMS || (c.isActive i && isMSType (c.filterLRs i)) } := by
  unfold updateLRsBand
  cases hA : c.isActive i
  · exact ⟨c.currentFilterLRs, c.filterLRIndices, by simp⟩
  · simp only [if_true, Function.update_same]
    cases hL : c.filterLRs i
    · exact ⟨_, _, by simp [pushLRIndex, isLRType, isMSType]; exact ⟨rfl, rfl⟩⟩
    · exact ⟨_, _, by simp [pushLRIndex, isLRType, isMSType]; exact ⟨rfl, rfl⟩⟩
    · exact ⟨_, _, by simp [pushLRIndex, isLRType, isMSType]; exact ⟨rfl, rfl⟩⟩
    · exact ⟨_, _, by simp [pushLRIndex, isLRType, isMSType]; exact ⟨rfl, rfl⟩⟩
    · exact ⟨_, _, by simp [pushLRIndex, isLRType, isMSType]; exact ⟨rfl, rfl⟩⟩

/-- The band loop of `updateLRs` over a list of band indices rewrites only
`currentFilterLRs`, `filterLRIndices`, `useLR` and `useMS`; a flag ends up raised exactly when
it was raised before or the list holds an active band of the corresponding routing. -/
theorem foldl_updateLRsBand_eq (l : List Nat) : ∀ c : Controller α,
    ∃ F G, l.foldl updateLRsBand c = { c with
      currentFilterLRs := F
      filterLRIndices := G
      useLR := c.useLR || l.any (fun i => c.isActive i && isLRType (c.filterLRs i))
      useMS := c.useMS || l.any (fun i => c.isActive i && isMSType (c.filterLRs i)) } := by
  induction l with
  | nil => intro c; exact ⟨c.currentFilterLRs, c.filterLRIndices, by simp⟩
  | cons i l ih =>
    intro c
    obtain ⟨F1, G1, h1⟩ := updateLRsBand_eq c i
    obtain ⟨F, G, h⟩ := ih (updateLRsBand c i)
    refine ⟨F, G, ?_⟩
    rw [List.foldl_cons, h, h1]
    simp [Bool.or_assoc]

/-- The routing part of `updateLRs` rewrites only `currentFilterLRs`, `filterLRIndices`,
`useLR` and `useMS`; `useLR` (`useMS`) is raised exactly when some active band below
`bandNUM` is routed to left or right (mid or side). -/
theorem updateLRsRouting_eq (c : Controller α) :
    ∃ F G, updateLRsRouting c = { c with
      currentFilterLRs := F
      filterLRIndices := G
      useLR := (List.range c.bandNUM).any (fun i => c.isActive i && isLRType (c.filterLRs i))
      useMS := (List.range c.bandNUM).any
        (fun i => c.isActive i && isMSType (c.filterLRs i)) } := by
  unfold updateLRsRouting
  obtain ⟨F, G, h⟩ := foldl_updateLRsBand_eq (List.range c.bandNUM)
    { c with useLR := false, useMS := false, filterLRIndices := fun _ => [] }
  exact ⟨F, G, by rw [h]; simp⟩

/-- The method `updateLRs` leaves the routing flags as its routing part computed them and
always ends with `latency` equal to the `newLatency` of its `switch`, whether the store was
needed or not. -/
theorem updateLRs_latency_eq [Field α] (c : Controller α) :
    (updateLRs c).latency = newLatency (updateLRsRouting c) ∧
      (updateLRs c).useLR = (updateLRsRouting c).useLR ∧
      (updateLRs c).useMS = (updateLRsRouting c).useMS := by
  unfold updateLRs
  simp only []
  split_ifs with h
  · exact ⟨rfl, rfl, rfl⟩
  · exact ⟨(not_not.mp h).symm, rfl, rfl⟩

/-- The latency that `updateLRs` stores, as a function of the state it starts from. -/
theorem updateLRs_latency_formula [Field α] (c : Controller α) :
    (updateLRs c).latency = singleLatency c + boolToInt (updateLRs c).useLR * singleLatency c
      + boolToInt (updateLRs c).useMS * singleLatency c := by
  obtain ⟨h1, h2, h3⟩ := updateLRs_latency_eq c
  obtain ⟨F, G, h⟩ := updateLRsRouting_eq c
  rw [h1, h2, h3, h]
  unfold newLatency singleLatency
  cases c.currentFilterStructure <;> simp

/-- After `updateLRs`, `useLR` is raised exactly when some active band is routed to left or
right, and `useMS` exactly when some active band is routed to mid or side. -/
theorem updateLRs_flags [Field α] (c : Controller α) :
    ((updateLRs c).useLR = true ↔ ∃ i, i < c.bandNUM ∧ c.isActive i = true ∧
        (c.filterLRs i = lrType.left ∨ c.filterLRs i = lrType.right)) ∧
      ((updateLRs c).useMS = true ↔ ∃ i, i < c.bandNUM ∧ c.isActive i = true ∧
        (c.filterLRs i = lrType.mid ∨ c.filterLRs i = lrType.side)) := by
  obtain ⟨_, h2, h3⟩ := updateLRs_latency_eq c
  obtain ⟨F, G, h⟩ := updateLRsRouting_eq c
  rw [h2, h3, h]
  simp [isLRType, isMSType]

theorem newLatency_updateLRsRouting (c : Controller α) :
    newLatency (updateLRsRouting c) = latencyOf c.currentFilterStructure (latencyInputs c) := by
  obtain ⟨F, G, h⟩ := updateLRsRouting_eq c
  rw [h]
  unfold newLatency latencyOf latencyInputs
  cases c.currentFilterStructure <;> simp

theorem updateLRs_latency_of_inputs [Field α] (c : Controller α) :
    (updateLRs c).latency = latencyOf c.currentFilterStructure (latencyInputs c) := by
  rw [(updateLRs_latency_eq c).1, newLatency_updateLRsRouting]

/-- The method `updateLRs` changes neither the latency inputs nor the current structure nor
the requested one. -/
theorem updateLRs_frame [Field α] (c : Controller α) :
    latencyInputs (updateLRs c) = latencyInputs c ∧
      (updateLRs c).currentFilterStructure = c.currentFilterStructure ∧
      (updateLRs c).mFilterStructure = c.mFilterStructure := by
  obtain ⟨F, G, h⟩ := updateLRsRouting_eq c
  unfold updateLRs
  simp only []
  rw [h]
  split_ifs <;> exact ⟨rfl, rfl, rfl⟩

theorem updateTrackersON_frame (c : Controller α) :
    latencyInputs (updateTrackersON c) = latencyInputs c ∧
      (updateTrackersON c).currentFilterStructure = c.currentFilterStructure ∧
      (updateTrackersON c).mFilterStructure = c.mFilterStructure ∧
      (updateTrackersON c).latency = c.latency :=
  ⟨rfl, rfl, rfl, rfl⟩

theorem updateCorrections_frame (c : Controller α) :
    latencyInputs (updateCorrections c) = latencyInputs c ∧
      (updateCorrections c).currentFilterStructure = c.currentFilterStructure ∧
      (updateCorrections c).mFilterStructure = c.mFilterStructure ∧
      (updateCorrections c).latency = c.latency := by
  unfold updateCorrections
  split_ifs <;> exact ⟨rfl, rfl, rfl, rfl⟩

theorem updateFilterStructure_frame (c : Controller α) :
    latencyInputs (updateFilterStructure c) = latencyInputs c ∧
      (updateFilterStructure c).currentFilterStructure = c.currentFilterStructure ∧
      (updateFilterStructure c).mFilterStructure = c.mFilterStructure ∧
      (updateFilterStructure c).latency = c.latency ∧
      (updateFilterStructure c).toUpdateLRs = c.toUpdateLRs ∧
      (updateFilterStructure c).toUpdateDynamicON = c.toUpdateDynamicON := by
  unfold updateFilterStructure
  cases c.currentFilterStructure <;> exact ⟨rfl, rfl, rfl, rfl, rfl, rfl⟩

theorem updateDynamicONs_eq (c : Controller α) :
    ∃ L, updateDynamicONs c = { c with dynamicONIndices := L } := by
  unfold updateDynamicONs
  have key : ∀ (l : List Nat) (s : Controller α), ∃ L,
      l.foldl (fun s i => if (s.filters i).dynamicON then
        { s with dynamicONIndices := s.dynamicONIndices ++ [i] } else s) s
        = { s with dynamicONIndices := L } := by
    intro l
    induction l with
    | nil => intro s; exact ⟨s.dynamicONIndices, rfl⟩
    | cons i l ih =>
      intro s
      rw [List.foldl_cons]
      split_ifs
      · obtain ⟨L, h⟩ := ih { s with dynamicONIndices := s.dynamicONIndices ++ [i] }
        exact ⟨L, h⟩
      · exact ih s
  obtain ⟨L, h⟩ := key (List.range c.bandNUM) { c with dynamicONIndices := [] }
  exact ⟨L, h⟩

theorem sameLatencyState_trans {c d e : Controller α} (h1 : sameLatencyState c d)
    (h2 : sameLatencyState d e) : sameLatencyState c e :=
  ⟨h2.1.trans h1.1, h2.2.1.trans h1.2.1, h2.2.2.1.trans h1.2.2.1, h2.2.2.2.trans h1.2.2.2⟩

/-- Lines 126-130 of `process` make the requested structure current, raise `toUpdateLRs` when
they switched, and leave the latency inputs and the stored latency alone. -/
theorem pendingFilterStructure_spec (c : Controller α) :
    latencyInputs (pendingFilterStructure c) = latencyInputs c ∧
      (pendingFilterStructure c).currentFilterStructure = c.mFilterStructure ∧
      (pendingFilterStructure c).mFilterStructure = c.mFilterStructure ∧
      (pendingFilterStructure c).latency = c.latency ∧
      (c.mFilterStructure ≠ c.currentFilterStructure ∨ c.toUpdateLRs = true →
        (pendingFilterStructure c).toUpdateLRs = true) ∧
      (c.mFilterStructure = c.currentFilterStructure → pendingFilterStructure c = c) := by
  unfold pendingFilterStructure
  split_ifs with h
  · obtain ⟨f1, f2, f3, f4, _, _⟩ :=
      updateFilterStructure_frame { c with currentFilterStructure := c.mFilterStructure }
    exact ⟨f1, f2, f3, f4, fun _ => rfl, fun h2 => absurd h2 h⟩
  · exact ⟨rfl, (not_not.mp h).symm, rfl, rfl, fun h2 => h2.resolve_left h, fun _ => rfl⟩

theorem pendingDynamicON_spec (c : Controller α) :
    sameLatencyState c (pendingDynamicON c) ∧
      (pendingDynamicON c).toUpdateLRs = c.toUpdateLRs := by
  unfold pendingDynamicON
  split_ifs
  · obtain ⟨L, h⟩ := updateDynamicONs_eq { c with toUpdateDynamicON := false }
    rw [h]
    exact ⟨⟨rfl, rfl, rfl, rfl⟩, rfl⟩
  · exact ⟨⟨rfl, rfl, rfl, rfl⟩, rfl⟩

/-- Lines 134-139 of `process`: when `toUpdateLRs` is raised the stored latency becomes the one
of the current structure for the current latency inputs; inputs and structures are kept. -/
theorem pendingLRs_spec [Field α] (c : Controller α) :
    latencyInputs (pendingLRs c) = latencyInputs c ∧
      (pendingLRs c).currentFilterStructure = c.currentFilterStructure ∧
      (pendingLRs c).mFilterStructure = c.mFilterStructure ∧
      (c.toUpdateLRs = true →
        (pendingLRs c).latency = latencyOf c.currentFilterStructure (latencyInputs c)) ∧
      (c.toUpdateLRs = false → (pendingLRs c).latency = c.latency) := by
  unfold pendingLRs
  split_ifs with h
  · obtain ⟨a1, a2, a3⟩ := updateLRs_frame { c with toUpdateLRs := false }
    obtain ⟨b1, b2, b3, b4⟩ := updateTrackersON_frame (updateLRs { c with toUpdateLRs := false })
    obtain ⟨d1, d2, d3, d4⟩ :=
      updateCorrections_frame (updateTrackersON (updateLRs { c with toUpdateLRs := false }))
    refine ⟨?_, ?_, ?_, ?_, ?_⟩
    · exact (d1.trans b1).trans a1
    · exact (d2.trans b2).trans a2
    · exact (d3.trans b3).trans a3
    · intro _
      exact (d4.trans b4).trans (updateLRs_latency_of_inputs { c with toUpdateLRs := false })
    · intro h2
      rw [h] at h2
      exact absurd h2 (by decide)
  · exact ⟨rfl, rfl, rfl, fun h2 => absurd h2 h, fun _ => rfl⟩

theorem pendingBypass_spec (c : Controller α) : sameLatencyState c (pendingBypass c) := by
  unfold pendingBypass
  split_ifs
  · obtain ⟨d1, d2, d3, d4⟩ := updateCorrections_frame { c with
      toUpdateBypass := false
      currentIsBypass := fun i => if i < c.bandNUM then c.isBypass i else c.currentIsBypass i }
    exact ⟨d1, d2, d3, d4⟩
  · exact ⟨rfl, rfl, rfl, rfl⟩

theorem pendingSgcON_spec [One α] (c : Controller α) : sameLatencyState c (pendingSgcON c) := by
  unfold pendingSgcON
  by_cases h : c.currentIsSgcON ≠ c.isSgcON
  · rw [if_pos h]
    cases c.isSgcON <;> exact ⟨rfl, rfl, rfl, rfl⟩
  · rw [if_neg h]
    exact ⟨rfl, rfl, rfl, rfl⟩

theorem pendingSgc_spec [Mul α] [One α] (c : Controller α) :
    sameLatencyState c (pendingSgc c) := by
  unfold pendingSgc
  split_ifs <;> exact ⟨rfl, rfl, rfl, rfl⟩

theorem pendingSolo_spec [LinearOrderedField α] (ops : FloatOps α) (c : Controller α) :
    sameLatencyState c (pendingSolo ops c) := by
  unfold pendingSolo updateSolo
  split_ifs <;> exact ⟨rfl, rfl, rfl, rfl⟩

/-- The control section of `process` keeps the latency inputs and the requested structure,
makes the requested structure current, and, whenever it switched the structure or found
`toUpdateLRs` raised, stores the latency of the requested structure for these inputs;
otherwise it keeps the stored latency. -/
theorem process_latency_spec [LinearOrderedField α] (ops : FloatOps α) (c : Controller α) :
    latencyInputs (process ops c) = latencyInputs c ∧
      (process ops c).currentFilterStructure = c.mFilterStructure ∧
      (process ops c).mFilterStructure = c.mFilterStructure ∧
      (c.mFilterStructure ≠ c.currentFilterStructure ∨ c.toUpdateLRs = true →
        (process ops c).latency = latencyOf c.mFilterStructure (latencyInputs c)) ∧
      (c.mFilterStructure = c.currentFilterStructure → c.toUpdateLRs = false →
        (process ops c).latency = c.latency) := by
  obtain ⟨a1, a2, a3, a4, a5, a6⟩ := pendingFilterStructure_spec c
  obtain ⟨⟨b1, b2, b3, b4⟩, b5⟩ := pendingDynamicON_spec (pendingFilterStructure c)
  obtain ⟨d1, d2, d3, d4, d5⟩ := pendingLRs_spec (pendingDynamicON (pendingFilterStructure c))
  have t := sameLatencyState_trans (sameLatencyState_trans (sameLatencyState_trans
    (pendingBypass_spec (pendingLRs (pendingDynamicON (pendingFilterStructure c))))
    (pendingSgcON_spec _)) (pendingSgc_spec _)) (pendingSolo_spec ops _)
  obtain ⟨t1, t2, t3, t4⟩ := t
  unfold Controller.process
  refine ⟨?_, ?_, ?_, ?_, ?_⟩
  · exact ((t1.trans d1).trans b1).trans a1
  · exact ((t2.trans d2).trans b2).trans a2
  · exact ((t3.trans d3).trans b3).trans a3
  · intro h
    have h5 := d4 (b5.trans (a5 h))
    rw [b2, a2, b1, a1] at h5
    exact t4.trans h5
  · intro h1 h2
    have h5 := d5 (b5.trans (by rw [a6 h1]; exact h2))
    exact ((t4.trans h5).trans b4).trans a4

theorem handleAsyncUpdate_eq (c : Controller α) :
    (handleAsyncUpdate c).processorLatencySamples
      = c.delaySamples + (if c.isZeroLatency = true then 0 else c.subBufferLatencySamples)
        + c.latency := by
  unfold handleAsyncUpdate
  cases c.isZeroLatency <;> simp

theorem boolToInt_bounds (b : Bool) : 0 ≤ boolToInt b ∧ boolToInt b ≤ 1 := by
  cases b <;> simp [boolToInt]

end ControllerLemmas

section ControllerClaims

variable {α : Type}

/-- C8: the correction latency stored by `updateLRs` is `0` for the minimum-phase,
state-variable and parallel structures; for phase-matched, mixed-phase and linear-phase it is
the latency of `prototypeCorrections[0]`, `mixedCorrections[0]`, `linearFilters[0]`
respectively, counted once for the stereo path (which always runs), once more when some active
band is routed to left or right and once more when some active band is routed to mid or side;
so with active bands on left or right and on mid or side at the same time it is exactly 3 times
the single latency, and for a non-negative single latency it never exceeds 3 times it. -/
theorem updateLRs_stores_latency [Field α] (c : Controller α) :
    ((updateLRs c).useLR = true ↔ ∃ i, i < c.bandNUM ∧ c.isActive i = true ∧
        (c.filterLRs i = lrType.left ∨ c.filterLRs i = lrType.right)) ∧
    ((updateLRs c).useMS = true ↔ ∃ i, i < c.bandNUM ∧ c.isActive i = true ∧
        (c.filterLRs i = lrType.mid ∨ c.filterLRs i = lrType.side)) ∧
    (c.currentFilterStructure = filterStructure.minimum ∨
      c.currentFilterStructure = filterStructure.svf ∨
      c.currentFilterStructure = filterStructure.parallel → (updateLRs c).latency = 0) ∧
    (c.currentFilterStructure = filterStructure.matched → (updateLRs c).latency =
      (c.prototypeCorrections 0).latency
        * (1 + boolToInt (updateLRs c).useLR + boolToInt (updateLRs c).useMS)) ∧
    (c.currentFilterStructure = filterStructure.mixed → (updateLRs c).latency =
      (c.mixedCorrections 0).latency
        * (1 + boolToInt (updateLRs c).useLR + boolToInt (updateLRs c).useMS)) ∧
    (c.currentFilterStructure = filterStructure.linear → (updateLRs c).latency =
      (c.linearFilters 0).latency
        * (1 + boolToInt (updateLRs c).useLR + boolToInt (updateLRs c).useMS)) ∧
    ((∃ i, i < c.bandNUM ∧ c.isActive i = true ∧
        (c.filterLRs i = lrType.left ∨ c.filterLRs i = lrType.right)) →
      (∃ i, i < c.bandNUM ∧ c.isActive i = true ∧
        (c.filterLRs i = lrType.mid ∨ c.filterLRs i = lrType.side)) →
      (updateLRs c).latency = 3 * singleLatency c) ∧
    (0 ≤ singleLatency c → (updateLRs c).latency ≤ 3 * singleLatency c) := by
  have hf := updateLRs_latency_formula c
  obtain ⟨hLR, hMS⟩ := updateLRs_flags c
  refine ⟨hLR, hMS, ?_, ?_, ?_, ?_, ?_, ?_⟩
  · intro h
    rw [hf]
    rcases h with h | h | h <;> simp [singleLatency, h]
  · intro h
    rw [hf]
    simp only [singleLatency, h]
    ring
  · intro h
    rw [hf]
    simp only [singleLatency, h]
    ring
  · intro h
    rw [hf]
    simp only [singleLatency, h]
    ring
  · intro h1 h2
    rw [hf, hLR.mpr h1, hMS.mpr h2]
    simp only [boolToInt, if_true]
    ring
  · intro h0
    rw [hf]
    have b1 := boolToInt_bounds (updateLRs c).useLR
    have b2 := boolToInt_bounds (updateLRs c).useMS
    nlinarith [mul_nonneg (sub_nonneg.mpr b1.2) h0, mul_nonneg (sub_nonneg.mpr b2.2) h0]

/-- Witness for C8: the scenario of the specification with the mixed-phase structure current:
bands on stereo, left, right, mid and side, single latency 1024, stored latency 3072. -/
theorem updateLRs_stores_latency_witness :
    (updateLRs (pendingFilterStructure (scenarioController filterStructure.mixed))).latency
      = 3 * 1024 :=
  (updateLRs_stores_latency
    (pendingFilterStructure (scenarioController filterStructure.mixed))).2.2.2.2.2.2.1
    ⟨1, by decide, rfl, Or.inl rfl⟩ ⟨3, by decide, rfl, Or.inl rfl⟩

/-- C9: `handleAsyncUpdate` reports to the host the lookahead delay in samples, plus the
sub-buffer latency when and only when zero-latency mode is off, plus the stored correction
latency. -/
theorem handleAsyncUpdate_reports (c : Controller α) :
    (handleAsyncUpdate c).processorLatencySamples
      = c.delaySamples + (if c.isZeroLatency = true then 0 else c.subBufferLatencySamples)
        + c.latency :=
  handleAsyncUpdate_eq c

/-- C10: let `process` apply structure `A`, by switching to it, or with a routing update
pending, or with the stored latency already the one `updateLRs` computes for `A`; then for every
other structure `B`, requesting `B` and running `process`, then requesting `A` again and running
`process`, with nothing else changed in between, leaves the stored correction latency, and hence
the latency reported by `handleAsyncUpdate`, equal to its value before the switch. -/
theorem structure_round_trip [LinearOrderedField α] (ops : FloatOps α) (c : Controller α)
    (A B : filterStructure) (hA : c.mFilterStructure = A)
    (hrun : c.currentFilterStructure ≠ A ∨ c.toUpdateLRs = true ∨
      c.latency = latencyOf A (latencyInputs c)) (hB : B ≠ A) :
    (process ops c).currentFilterStructure = A ∧
      (process ops (setFilterStructure (process ops c) B)).currentFilterStructure = B ∧
      (process ops (setFilterStructure
        (process ops (setFilterStructure (process ops c) B)) A)).currentFilterStructure = A ∧
      (process ops (setFilterStructure
        (process ops (setFilterStructure (process ops c) B)) A)).latency
        = (process ops c).latency ∧
      (handleAsyncUpdate (process ops (setFilterStructure
        (process ops (setFilterStructure (process ops c) B)) A))).processorLatencySamples
        = (handleAsyncUpdate (process ops c)).processorLatencySamples := by
  obtain ⟨a1, a2, _, a4, a5⟩ := process_latency_spec ops c
  obtain ⟨b1, b2, _, _, _⟩ := process_latency_spec ops (setFilterStructure (process ops c) B)
  obtain ⟨d1, d2, _, d4, _⟩ := process_latency_spec ops
    (setFilterStructure (process ops (setFilterStructure (process ops c) B)) A)
  have i1 : latencyInputs (process ops (setFilterStructure (process ops c) B))
      = latencyInputs c := b1.trans a1
  have i2 : latencyInputs (process ops (setFilterStructure
      (process ops (setFilterStructure (process ops c) B)) A)) = latencyInputs c :=
    d1.trans i1
  have l0 : (process ops c).latency = latencyOf A (latencyInputs c) := by
    by_cases hsw : c.mFilterStructure ≠ c.currentFilterStructure ∨ c.toUpdateLRs = true
    · rw [a4 hsw, hA]
    · rw [not_or, not_not, Bool.not_eq_true] at hsw
      rw [a5 hsw.1 hsw.2]
      rcases hrun with h | h | h
      · exact absurd (hsw.1.symm.trans hA) h
      · rw [hsw.2] at h
        exact absurd h (by decide)
      · exact h
  have hne : (setFilterStructure (process ops (setFilterStructure (process ops c) B))
      A).mFilterStructure ≠ (setFilterStructure (process ops (setFilterStructure
      (process ops c) B)) A).currentFilterStructure := by
    intro h
    exact hB (b2.symm.trans h.symm)
  have l2 : (process ops (setFilterStructure
      (process ops (setFilterStructure (process ops c) B)) A)).latency
      = latencyOf A (latencyInputs c) := (d4 (Or.inl hne)).trans (congrArg (latencyOf A) i1)
  have hl := l2.trans l0.symm
  refine ⟨a2.trans hA, b2, d2, hl, ?_⟩
  rw [handleAsyncUpdate_eq, handleAsyncUpdate_eq, hl]
  have e := i2.trans a1.symm
  have e1 := congrArg LatencyInputs.delaySamples e
  have e2 := congrArg LatencyInputs.isZeroLatency e
  have e3 := congrArg LatencyInputs.subBufferLatencySamples e
  simp only [latencyInputs] at e1 e2 e3
  rw [e1, e2, e3]

/-- Witness for C10: in the scenario, `process` first applies the mixed-phase structure
(latency 3072), then the minimum-phase structure is requested and applied, then again the
mixed-phase structure. -/
theorem structure_round_trip_witness :
    (process rationalOps (setFilterStructure (process rationalOps (setFilterStructure
        (process rationalOps (scenarioController filterStructure.mixed))
        filterStructure.minimum)) filterStructure.mixed)).latency
      = (process rationalOps (scenarioController filterStructure.mixed)).latency :=
  (structure_round_trip rationalOps (scenarioController filterStructure.mixed)
    filterStructure.mixed filterStructure.minimum rfl (Or.inl (by decide)) (by decide)).2.2.2.1

end ControllerClaims

section RoutingLemmas

variable {α : Type}

/-- One iteration of the band loop of `updateLRs` appends an active band to the list of its
requested routing group and to no other list, and copies its requested routing. -/
theorem updateLRsBand_lists (c : Controller α) (i : Nat) :
    (updateLRsBand c i).filterLRIndices = (fun g => c.filterLRIndices g
        ++ (if c.isActive i = true ∧ lrIndex (c.filterLRs i) = g then [i] else [])) ∧
      (updateLRsBand c i).currentFilterLRs = (fun j =>
        if j = i ∧ c.isActive i = true then c.filterLRs i else c.currentFilterLRs j) ∧
      (updateLRsBand c i).isActive = c.isActive ∧
      (updateLRsBand c i).filterLRs = c.filterLRs := by
  unfold updateLRsBand
  cases hA : c.isActive i
  · refine ⟨?_, ?_, rfl, rfl⟩
    · funext g; simp
    · funext j; simp
  · simp only [if_true, Function.update_same]
    cases hL : c.filterLRs i <;>
    · refine ⟨?_, ?_, rfl, rfl⟩
      · funext g
        by_cases hg : g = lrIndex (c.filterLRs i)
        · subst hg; simp [pushLRIndex, lrIndex, hL]
        · have hg2 : ¬ lrIndex (c.filterLRs i) = g := fun h => hg h.symm
          rw [hL] at hg hg2
          simp only [lrIndex] at hg hg2
          simp [pushLRIndex, lrIndex, Function.update, hg, hg2]
      · funext j
        by_cases hj : j = i
        · subst hj; simp [pushLRIndex, hL]
        · simp [pushLRIndex, Function.update, hj]

/-- The band loop of `updateLRs` over a list of band indices appends to each routing list the
active bands of the list that request its group, in order, and copies their routing. -/
theorem foldl_updateLRsBand_lists (l : List Nat) : ∀ c : Controller α,
    (l.foldl updateLRsBand c).filterLRIndices = (fun g => c.filterLRIndices g
        ++ l.filter (fun i => decide (c.isActive i = true ∧ lrIndex (c.filterLRs i) = g))) ∧
      (∀ j, (l.foldl updateLRsBand c).currentFilterLRs j =
        if j ∈ l ∧ c.isActive j = true then c.filterLRs j else c.currentFilterLRs j) ∧
      (l.foldl updateLRsBand c).isActive = c.isActive ∧
      (l.foldl updateLRsBand c).filterLRs = c.filterLRs := by
  induction l with
  | nil =>
    intro c
    refine ⟨?_, ?_, rfl, rfl⟩
    · funext g; simp
    · intro j; simp
  | cons i l ih =>
    intro c
    obtain ⟨s1, s2, s3, s4⟩ := updateLRsBand_lists c i
    obtain ⟨h1, h2, h3, h4⟩ := ih (updateLRsBand c i)
    rw [List.foldl_cons]
    refine ⟨?_, ?_, h3.trans s3, h4.trans s4⟩
    · rw [h1, s1, s3, s4]
      funext g
      by_cases hp : c.isActive i = true ∧ lrIndex (c.filterLRs i) = g
      · simp [List.filter_cons, hp]
      · simp [List.filter_cons, hp]
    · intro j
      rw [h2 j, s2, s3, s4]
      by_cases hj : j = i
      · subst hj
        by_cases hA : c.isActive j = true
        · simp [hA]
        · simp [hA]
      · simp [hj]

/-- After `updateLRs`, routing list `g` holds, in increasing order, the active bands below
`bandNUM` whose requested routing group has index `g`. -/
theorem updateLRs_lists [Field α] (c : Controller α) (g : Nat) :
    (updateLRs c).filterLRIndices g = (List.range c.bandNUM).filter
      (fun i => decide (c.isActive i = true ∧ lrIndex (c.filterLRs i) = g)) := by
  have h := (foldl_updateLRsBand_lists (List.range c.bandNUM)
    { c with useLR := false, useMS := false, filterLRIndices := fun _ => [] }).1
  have h2 : (updateLRs c).filterLRIndices = (updateLRsRouting c).filterLRIndices := by
    unfold updateLRs
    simp only []
    split_ifs <;> rfl
  rw [h2]
  unfold updateLRsRouting
  rw [h]
  simp

/-- After `updateLRs`, an active band below `bandNUM` has its requested routing as current
routing. -/
theorem updateLRs_currentFilterLRs [Field α] (c : Controller α) (i : Nat) (hi : i < c.bandNUM)
    (hA : c.isActive i = true) : (updateLRs c).currentFilterLRs i = c.filterLRs i := by
  have h := (foldl_updateLRsBand_lists (List.range c.bandNUM)
    { c with useLR := false, useMS := false, filterLRIndices := fun _ => [] }).2.1 i
  have h2 : (updateLRs c).currentFilterLRs = (updateLRsRouting c).currentFilterLRs := by
    unfold updateLRs
    simp only []
    split_ifs <;> rfl
  rw [h2]
  unfold updateLRsRouting
  rw [h]
  simp [hi, hA]

/-- The bands that `processDynamicLRMS` runs through their band filter are those of the
routing list of its group, in order. -/
theorem processedBands_processDynamicLRMS [LinearOrderedField α] (isBypassed : Bool)
    (c : Controller α) (r : Readings α) (lrIdx : Nat) :
    processedBands (processDynamicLRMS isBypassed c r lrIdx) = c.filterLRIndices lrIdx := by
  have key : ∀ (l : List Nat) (b : α),
      processedBands (l.flatMap (processDynamicBand isBypassed c b)) = l := by
    intro l b
    induction l with
    | nil => rfl
    | cons i l ih =>
      rw [List.flatMap_cons]
      unfold processedBands at ih ⊢
      rw [List.filterMap_append, ih]
      rfl
  unfold processDynamicLRMS
  unfold processedBands at key ⊢
  rw [List.filterMap_append, List.filterMap_append, key]
  split_ifs <;> simp

end RoutingLemmas

section RoutingClaims

variable {α : Type}

/-- C11: after `updateLRs`, a band index is in routing list `g` exactly when it is an active
band (below `bandNUM`) whose assigned routing group has index `g`; so every active band appears
exactly once in the list of its group, which is one of the five lists `0..4`, and in no other
list, and an inactive band appears in none; `useLR` is raised iff some active band is assigned
left or right, `useMS` iff some active band is assigned mid or side; and
`processDynamicLRMS (g, ...)` runs the band filters of exactly the bands of list `g`. -/
theorem updateLRs_routing [LinearOrderedField α] (c : Controller α) :
    (∀ i g, i ∈ (updateLRs c).filterLRIndices g ↔
        i < c.bandNUM ∧ c.isActive i = true ∧ lrIndex (c.filterLRs i) = g) ∧
    (∀ i, i < c.bandNUM → c.isActive i = true →
        lrIndex (c.filterLRs i) < 5 ∧
        (updateLRs c).currentFilterLRs i = c.filterLRs i ∧
        ((updateLRs c).filterLRIndices (lrIndex (c.filterLRs i))).count i = 1 ∧
        ∀ g, g ≠ lrIndex (c.filterLRs i) → ((updateLRs c).filterLRIndices g).count i = 0) ∧
    (∀ i, c.isActive i = false → ∀ g, i ∉ (updateLRs c).filterLRIndices g) ∧
    ((updateLRs c).useLR = true ↔ ∃ i, i < c.bandNUM ∧ c.isActive i = true ∧
        (c.filterLRs i = lrType.left ∨ c.filterLRs i = lrType.right)) ∧
    ((updateLRs c).useMS = true ↔ ∃ i, i < c.bandNUM ∧ c.isActive i = true ∧
        (c.filterLRs i = lrType.mid ∨ c.filterLRs i = lrType.side)) ∧
    (∀ (isBypassed : Bool) (r : Readings α) (g : Nat),
        processedBands (processDynamicLRMS isBypassed (updateLRs c) r g)
          = (updateLRs c).filterLRIndices g) := by
  have hmem : ∀ i g, i ∈ (updateLRs c).filterLRIndices g ↔
      i < c.bandNUM ∧ c.isActive i = true ∧ lrIndex (c.filterLRs i) = g := by
    intro i g
    rw [updateLRs_lists]
    simp [List.mem_filter]
  have hnodup : ∀ g, ((updateLRs c).filterLRIndices g).Nodup := by
    intro g
    rw [updateLRs_lists]
    exact (List.nodup_range c.bandNUM).filter _
  obtain ⟨hLR, hMS⟩ := updateLRs_flags c
  refine ⟨hmem, ?_, ?_, hLR, hMS, ?_⟩
  · intro i hi hA
    refine ⟨?_, updateLRs_currentFilterLRs c i hi hA, ?_, ?_⟩
    · cases c.filterLRs i <;> simp [lrIndex]
    · exact List.count_eq_one_of_mem (hnodup _) ((hmem i _).mpr ⟨hi, hA, rfl⟩)
    · intro g hg
      rw [List.count_eq_zero]
      intro hin
      exact hg ((hmem i g).mp hin).2.2.symm
  · intro i hA g hin
    rw [((hmem i g).mp hin).2.1] at hA
    exact absurd hA (by decide)
  · intro isBypassed r g
    exact processedBands_processDynamicLRMS isBypassed (updateLRs c) r g

/-- Witness for C11: in the scenario, band 1 is active and routed to left; after `updateLRs`
it is once in list 1 and the left group processes exactly band 1. -/
theorem updateLRs_routing_witness :
    ((updateLRs (scenarioController filterStructure.mixed)).filterLRIndices 1).count 1 = 1 ∧
      processedBands (processDynamicLRMS false
        (updateLRs (scenarioController filterStructure.mixed)) scenarioReadings 1) = [1] :=
  ⟨((updateLRs_routing (scenarioController filterStructure.mixed)).2.1 1
      (by decide) rfl).2.2.1,
    ((updateLRs_routing (scenarioController filterStructure.mixed)).2.2.2.2.2 false _ 1).trans
      (by decide)⟩

end RoutingClaims

section StageLemmas

variable {α : Type}

theorem keepsCorrections_refl (cs : Nat → Correction) : keepsCorrections cs cs :=
  fun _ => ⟨rfl, rfl, fun h => h⟩

theorem keepsCorrections_trans {cs ds es : Nat → Correction} (h1 : keepsCorrections cs ds)
    (h2 : keepsCorrections ds es) : keepsCorrections cs es :=
  fun j => ⟨(h2 j).1.trans (h1 j).1, (h2 j).2.1.trans (h1 j).2.1,
    fun h => (h2 j).2.2 ((h1 j).2.2 h)⟩

theorem keepsCorrections_setToUpdateAll (cs : Nat → Correction) :
    keepsCorrections cs (setToUpdateAll cs) :=
  fun _ => ⟨rfl, rfl, fun _ => rfl⟩

theorem keepsBank_refl (c : Controller α) : keepsBank c c :=
  ⟨rfl, rfl, keepsCorrections_refl _, keepsCorrections_refl _, keepsCorrections_refl _⟩

theorem keepsBank_trans {c d e : Controller α} (h1 : keepsBank c d) (h2 : keepsBank d e) :
    keepsBank c e :=
  ⟨h2.1.trans h1.1, h2.2.1.trans h1.2.1, keepsCorrections_trans h1.2.2.1 h2.2.2.1,
    keepsCorrections_trans h1.2.2.2.1 h2.2.2.2.1, keepsCorrections_trans h1.2.2.2.2 h2.2.2.2.2⟩

theorem keepsRouting_refl (c : Controller α) : keepsRouting c c :=
  ⟨rfl, rfl, rfl, rfl, rfl, rfl⟩

theorem keepsRouting_trans {c d e : Controller α} (h1 : keepsRouting c d)
    (h2 : keepsRouting d e) : keepsRouting c e :=
  ⟨h2.1.trans h1.1, h2.2.1.trans h1.2.1, h2.2.2.1.trans h1.2.2.1,
    h2.2.2.2.1.trans h1.2.2.2.1, h2.2.2.2.2.1.trans h1.2.2.2.2.1,
    h2.2.2.2.2.2.trans h1.2.2.2.2.2⟩

/-- The method `updateCorrections` marks correction filters for update and changes nothing
else of the bank, the routing or the dirty flags; the five filters of a current phase-matched,
mixed-phase or linear-phase structure are all marked afterwards. -/
theorem updateCorrections_keeps (c : Controller α) :
    keepsBank c (updateCorrections c) ∧ keepsRouting c (updateCorrections c) ∧
      (updateCorrections c).toUpdateDynamicON = c.toUpdateDynamicON ∧
      (updateCorrections c).toUpdateLRs = c.toUpdateLRs ∧
      (updateCorrections c).toUpdateBypass = c.toUpdateBypass ∧
      (updateCorrections c).toUpdateSolo = c.toUpdateSolo ∧
      (c.currentFilterStructure = filterStructure.matched →
        ∀ j, ((updateCorrections c).prototypeCorrections j).toUpdate = true) ∧
      (c.currentFilterStructure = filterStructure.mixed →
        ∀ j, ((updateCorrections c).mixedCorrections j).toUpdate = true) ∧
      (c.currentFilterStructure = filterStructure.linear →
        ∀ j, ((updateCorrections c).linearFilters j).toUpdate = true) := by
  unfold updateCorrections
  split_ifs with h1 h2 h3
  · refine ⟨⟨rfl, rfl, keepsCorrections_setToUpdateAll _, keepsCorrections_refl _,
      keepsCorrections_refl _⟩, keepsRouting_refl _, rfl, rfl, rfl, rfl, fun _ _ => rfl, ?_, ?_⟩
    · intro h; rw [h1] at h; exact absurd h (by decide)
    · intro h; rw [h1] at h; exact absurd h (by decide)
  · refine ⟨⟨rfl, rfl, keepsCorrections_refl _, keepsCorrections_setToUpdateAll _,
      keepsCorrections_refl _⟩, keepsRouting_refl _, rfl, rfl, rfl, rfl, ?_, fun _ _ => rfl, ?_⟩
    · intro h; exact absurd h h1
    · intro h; rw [h2] at h; exact absurd h (by decide)
  · refine ⟨⟨rfl, rfl, keepsCorrections_refl _, keepsCorrections_refl _,
      keepsCorrections_setToUpdateAll _⟩, keepsRouting_refl _, rfl, rfl, rfl, rfl, ?_, ?_,
      fun _ _ => rfl⟩
    · intro h; exact absurd h h1
    · intro h; exact absurd h h2
  · exact ⟨keepsBank_refl _, keepsRouting_refl _, rfl, rfl, rfl, rfl,
      fun h => absurd h h1, fun h => absurd h h2, fun h => absurd h h3⟩

/-- What `updateFilterStructure` does to band `i`: the implementation is IIR for the
minimum-phase, phase-matched and mixed-phase structures, SVF for state-variable, parallel for
parallel, and untouched for linear-phase. -/
theorem updateFilterStructure_filters (c : Controller α) (i : Nat) :
    (c.currentFilterStructure = filterStructure.minimum ∨
      c.currentFilterStructure = filterStructure.matched ∨
      c.currentFilterStructure = filterStructure.mixed →
        ((updateFilterStructure c).filters i).filterStructure = zlFilter.FilterStructure.iir) ∧
    (c.currentFilterStructure = filterStructure.svf →
        ((updateFilterStructure c).filters i).filterStructure = zlFilter.FilterStructure.svf) ∧
    (c.currentFilterStructure = filterStructure.parallel →
        ((updateFilterStructure c).filters i).filterStructure
          = zlFilter.FilterStructure.parallel) ∧
    (c.currentFilterStructure = filterStructure.linear →
        ((updateFilterStructure c).filters i).filterStructure
          = (c.filters i).filterStructure) := by
  unfold updateFilterStructure
  cases c.currentFilterStructure <;> simp only [] <;> split_ifs <;>
    simp [setFilterStructureAll]

/-- What `updateFilterStructure` does to the correction filters: the five filters of a
phase-matched, mixed-phase or linear-phase current structure are reset; no latency and no
update mark changes. -/
theorem updateFilterStructure_corrections (c : Controller α) (j : Nat) :
    (c.currentFilterStructure = filterStructure.matched →
        ((updateFilterStructure c).prototypeCorrections j).isReset = true) ∧
    (c.currentFilterStructure = filterStructure.mixed →
        ((updateFilterStructure c).mixedCorrections j).isReset = true) ∧
    (c.currentFilterStructure = filterStructure.linear →
        ((updateFilterStructure c).linearFilters j).isReset = true) := by
  unfold updateFilterStructure
  cases c.currentFilterStructure <;> simp [resetAll]

/-- The method `updateFilterStructure` changes neither the routing nor a dirty flag. -/
theorem updateFilterStructure_keeps (c : Controller α) :
    keepsRouting c (updateFilterStructure c) ∧
      (updateFilterStructure c).toUpdateBypass = c.toUpdateBypass ∧
      (updateFilterStructure c).toUpdateSolo = c.toUpdateSolo := by
  unfold updateFilterStructure
  cases c.currentFilterStructure <;> exact ⟨⟨rfl, rfl, rfl, rfl, rfl, rfl⟩, rfl, rfl⟩

theorem pendingDynamicON_keeps (c : Controller α) :
    keepsBank c (pendingDynamicON c) ∧ keepsRouting c (pendingDynamicON c) ∧
      (pendingDynamicON c).toUpdateDynamicON = false ∧
      (pendingDynamicON c).toUpdateLRs = c.toUpdateLRs ∧
      (pendingDynamicON c).toUpdateBypass = c.toUpdateBypass ∧
      (pendingDynamicON c).toUpdateSolo = c.toUpdateSolo := by
  unfold pendingDynamicON
  split_ifs with h
  · obtain ⟨L, hL⟩ := updateDynamicONs_eq { c with toUpdateDynamicON := false }
    rw [hL]
    exact ⟨keepsBank_refl _, keepsRouting_refl _, rfl, rfl, rfl, rfl⟩
  · exact ⟨keepsBank_refl _, keepsRouting_refl _, by simpa using h, rfl, rfl, rfl⟩

theorem updateLRs_keeps [Field α] (c : Controller α) :
    keepsBank c (updateLRs c) ∧
      (updateLRs c).toUpdateDynamicON = c.toUpdateDynamicON ∧
      (updateLRs c).toUpdateLRs = c.toUpdateLRs ∧
      (updateLRs c).toUpdateBypass = c.toUpdateBypass ∧
      (updateLRs c).toUpdateSolo = c.toUpdateSolo := by
  obtain ⟨F, G, h⟩ := updateLRsRouting_eq c
  unfold updateLRs
  simp only []
  rw [h]
  split_ifs <;> exact ⟨keepsBank_refl _, rfl, rfl, rfl, rfl⟩

theorem pendingLRs_keeps [Field α] (c : Controller α) :
    keepsBank c (pendingLRs c) ∧
      (pendingLRs c).toUpdateDynamicON = c.toUpdateDynamicON ∧
      (pendingLRs c).toUpdateLRs = false ∧
      (pendingLRs c).toUpdateBypass = c.toUpdateBypass ∧
      (pendingLRs c).toUpdateSolo = c.toUpdateSolo := by
  unfold pendingLRs
  split_ifs with h
  · obtain ⟨a1, a2, a3, a4, a5⟩ := updateLRs_keeps { c with toUpdateLRs := false }
    obtain ⟨b1, _, b2, b3, b4, b5, _⟩ :=
      updateCorrections_keeps (updateTrackersON (updateLRs { c with toUpdateLRs := false }))
    have t : keepsBank (updateLRs { c with toUpdateLRs := false })
        (updateTrackersON (updateLRs { c with toUpdateLRs := false })) := keepsBank_refl _
    exact ⟨keepsBank_trans (keepsBank_trans a1 t) b1, b2.trans a2, b3.trans a3, b4.trans a4,
      b5.trans a5⟩
  · exact ⟨keepsBank_refl _, rfl, by simpa using h, rfl, rfl⟩

/-- When `toUpdateLRs` is raised, lines 134-139 of `process` leave the routing lists, flags
and latency that `updateLRs` computes, and all five correction filters of a current
phase-matched, mixed-phase or linear-phase structure marked for update. -/
theorem pendingLRs_run [Field α] (c : Controller α) (h : c.toUpdateLRs = true) :
    (pendingLRs c).filterLRIndices = (updateLRs { c with toUpdateLRs := false }).filterLRIndices ∧
      (pendingLRs c).useLR = (updateLRs { c with toUpdateLRs := false }).useLR ∧
      (pendingLRs c).useMS = (updateLRs { c with toUpdateLRs := false }).useMS ∧
      (pendingLRs c).latency = (updateLRs { c with toUpdateLRs := false }).latency ∧
      (c.currentFilterStructure = filterStructure.matched →
        ∀ j, ((pendingLRs c).prototypeCorrections j).toUpdate = true) ∧
      (c.currentFilterStructure = filterStructure.mixed →
        ∀ j, ((pendingLRs c).mixedCorrections j).toUpdate = true) ∧
      (c.currentFilterStructure = filterStructure.linear →
        ∀ j, ((pendingLRs c).linearFilters j).toUpdate = true) := by
  obtain ⟨a1, _⟩ := updateLRs_keeps { c with toUpdateLRs := false }
  obtain ⟨_, b2, _, _, _, _, b7, b8, b9⟩ :=
    updateCorrections_keeps (updateTrackersON (updateLRs { c with toUpdateLRs := false }))
  have hs : (updateTrackersON (updateLRs { c with toUpdateLRs := false })).currentFilterStructure
      = c.currentFilterStructure := a1.2.1
  unfold pendingLRs
  rw [if_pos h]
  refine ⟨b2.1, b2.2.1, b2.2.2.1, b2.2.2.2.2.2, ?_, ?_, ?_⟩
  · intro hm; exact b7 (hs.trans hm)
  · intro hm; exact b8 (hs.trans hm)
  · intro hm; exact b9 (hs.trans hm)

theorem pendingBypass_keeps (c : Controller α) :
    keepsBank c (pendingBypass c) ∧ keepsRouting c (pendingBypass c) ∧
      (pendingBypass c).toUpdateDynamicON = c.toUpdateDynamicON ∧
      (pendingBypass c).toUpdateLRs = c.toUpdateLRs ∧
      (pendingBypass c).toUpdateBypass = false ∧
      (pendingBypass c).toUpdateSolo = c.toUpdateSolo := by
  unfold pendingBypass
  split_ifs with h
  · obtain ⟨b1, b2, b3, b4, b5, b6, _⟩ := updateCorrections_keeps { c with
      toUpdateBypass := false
      currentIsBypass := fun i => if i < c.bandNUM then c.isBypass i else c.currentIsBypass i }
    exact ⟨b1, b2, b3, b4, b5, b6⟩
  · exact ⟨keepsBank_refl _, keepsRouting_refl _, rfl, rfl, by simpa using h, rfl⟩

theorem pendingSgcON_keeps [One α] (c : Controller α) :
    keepsBank c (pendingSgcON c) ∧ keepsRouting c (pendingSgcON c) ∧
      (pendingSgcON c).toUpdateDynamicON = c.toUpdateDynamicON ∧
      (pendingSgcON c).toUpdateLRs = c.toUpdateLRs ∧
      (pendingSgcON c).toUpdateBypass = c.toUpdateBypass ∧
      (pendingSgcON c).toUpdateSolo = c.toUpdateSolo := by
  unfold pendingSgcON
  by_cases h : c.currentIsSgcON ≠ c.isSgcON
  · rw [if_pos h]
    cases c.isSgcON <;> exact ⟨keepsBank_refl _, keepsRouting_refl _, rfl, rfl, rfl, rfl⟩
  · rw [if_neg h]
    exact ⟨keepsBank_refl _, keepsRouting_refl _, rfl, rfl, rfl, rfl⟩

theorem pendingSgc_keeps [Mul α] [One α] (c : Controller α) :
    keepsBank c (pendingSgc c) ∧ keepsRouting c (pendingSgc c) ∧
      (pendingSgc c).toUpdateDynamicON = c.toUpdateDynamicON ∧
      (pendingSgc c).toUpdateLRs = c.toUpdateLRs ∧
      (pendingSgc c).toUpdateBypass = c.toUpdateBypass ∧
      (pendingSgc c).toUpdateSolo = c.toUpdateSolo := by
  unfold pendingSgc
  split_ifs <;> exact ⟨keepsBank_refl _, keepsRouting_refl _, rfl, rfl, rfl, rfl⟩

theorem pendingSolo_keeps [LinearOrderedField α] (ops : FloatOps α) (c : Controller α) :
    keepsBank c (pendingSolo ops c) ∧ keepsRouting c (pendingSolo ops c) ∧
      (pendingSolo ops c).toUpdateDynamicON = c.toUpdateDynamicON ∧
      (pendingSolo ops c).toUpdateLRs = c.toUpdateLRs ∧
      (pendingSolo ops c).toUpdateBypass = c.toUpdateBypass ∧
      (pendingSolo ops c).toUpdateSolo = false := by
  unfold pendingSolo updateSolo
  split_ifs with h1 h2
  · exact ⟨keepsBank_refl _, keepsRouting_refl _, rfl, rfl, rfl, rfl⟩
  · exact ⟨keepsBank_refl _, keepsRouting_refl _, rfl, rfl, rfl, rfl⟩
  · exact ⟨keepsBank_refl _, keepsRouting_refl _, rfl, rfl, rfl, by simpa using h1⟩

/-- Lines 140-166 of `process`, after the routing update: they keep the bank (marking
correction filters at most) and the routing, keep `toUpdateDynamicON` and `toUpdateLRs`, and
leave `toUpdateBypass` and `toUpdateSolo` cleared. -/
theorem process_tail_keeps [LinearOrderedField α] (ops : FloatOps α) (c : Controller α) :
    keepsBank c (pendingSolo ops (pendingSgc (pendingSgcON (pendingBypass c)))) ∧
      keepsRouting c (pendingSolo ops (pendingSgc (pendingSgcON (pendingBypass c)))) ∧
      (pendingSolo ops (pendingSgc (pendingSgcON (pendingBypass c)))).toUpdateDynamicON
        = c.toUpdateDynamicON ∧
      (pendingSolo ops (pendingSgc (pendingSgcON (pendingBypass c)))).toUpdateLRs
        = c.toUpdateLRs ∧
      (pendingSolo ops (pendingSgc (pendingSgcON (pendingBypass c)))).toUpdateBypass = false ∧
      (pendingSolo ops (pendingSgc (pendingSgcON (pendingBypass c)))).toUpdateSolo = false := by
  obtain ⟨a1, a2, a3, a4, a5, _⟩ := pendingBypass_keeps c
  obtain ⟨b1, b2, b3, b4, b5, _⟩ := pendingSgcON_keeps (pendingBypass c)
  obtain ⟨d1, d2, d3, d4, d5, _⟩ := pendingSgc_keeps (pendingSgcON (pendingBypass c))
  obtain ⟨e1, e2, e3, e4, e5, e6⟩ :=
    pendingSolo_keeps ops (pendingSgc (pendingSgcON (pendingBypass c)))
  exact ⟨keepsBank_trans (keepsBank_trans (keepsBank_trans a1 b1) d1) e1,
    keepsRouting_trans (keepsRouting_trans (keepsRouting_trans a2 b2) d2) e2,
    ((e3.trans d3).trans b3).trans a3, ((e4.trans d4).trans b4).trans a4,
    ((e5.trans d5).trans b5).trans a5, e6⟩

theorem newLatency_congr {c d : Controller α}
    (hs : d.currentFilterStructure = c.currentFilterStructure) (hLR : d.useLR = c.useLR)
    (hMS : d.useMS = c.useMS)
    (h1 : (d.prototypeCorrections 0).latency = (c.prototypeCorrections 0).latency)
    (h2 : (d.mixedCorrections 0).latency = (c.mixedCorrections 0).latency)
    (h3 : (d.linearFilters 0).latency = (c.linearFilters 0).latency) :
    newLatency d = newLatency c := by
  unfold newLatency
  rw [hs, hLR, hMS, h1, h2, h3]

/-- After `updateLRs` the stored latency is the `newLatency` of the state it leaves. -/
theorem updateLRs_latency_consistent [Field α] (c : Controller α) :
    (updateLRs c).latency = newLatency (updateLRs c) := by
  obtain ⟨h1, h2, h3⟩ := updateLRs_latency_eq c
  obtain ⟨hb, _⟩ := updateLRs_keeps c
  obtain ⟨F, G, h⟩ := updateLRsRouting_eq c
  rw [h1]
  apply newLatency_congr
  · rw [hb.2.1, h]
  · exact h2.symm
  · exact h3.symm
  · rw [(hb.2.2.1 0).1, h]
  · rw [(hb.2.2.2.1 0).1, h]
  · rw [(hb.2.2.2.2 0).1, h]

/-- The control section of `process` on a state whose requested structure differs from the
current one: the bank is the one `updateFilterStructure` leaves, with correction filters marked
at most; the routing and latency are those `updateLRs` computes on the state after line 133;
all five correction filters of the requested structure are marked for update. -/
theorem process_switch_chain [LinearOrderedField α] (ops : FloatOps α) (c : Controller α)
    (h : c.mFilterStructure ≠ c.currentFilterStructure) :
    keepsBank (updateFilterStructure { c with currentFilterStructure := c.mFilterStructure })
        (process ops c) ∧
      (process ops c).filterLRIndices = (updateLRs { pendingDynamicON
        (pendingFilterStructure c) with toUpdateLRs := false }).filterLRIndices ∧
      (process ops c).useLR = (updateLRs { pendingDynamicON
        (pendingFilterStructure c) with toUpdateLRs := false }).useLR ∧
      (process ops c).useMS = (updateLRs { pendingDynamicON
        (pendingFilterStructure c) with toUpdateLRs := false }).useMS ∧
      (process ops c).latency = (updateLRs { pendingDynamicON
        (pendingFilterStructure c) with toUpdateLRs := false }).latency ∧
      (c.mFilterStructure = filterStructure.matched →
        ∀ j, ((process ops c).prototypeCorrections j).toUpdate = true) ∧
      (c.mFilterStructure = filterStructure.mixed →
        ∀ j, ((process ops c).mixedCorrections j).toUpdate = true) ∧
      (c.mFilterStructure = filterStructure.linear →
        ∀ j, ((process ops c).linearFilters j).toUpdate = true) ∧
      newLatency (process ops c) = newLatency (updateLRs { pendingDynamicON
        (pendingFilterStructure c) with toUpdateLRs := false }) := by
  have h1 : pendingFilterStructure c = { updateFilterStructure
      { c with currentFilterStructure := c.mFilterStructure } with toUpdateLRs := true } := by
    unfold pendingFilterStructure
    rw [if_pos h]
  have k1 : keepsBank (updateFilterStructure
      { c with currentFilterStructure := c.mFilterStructure }) (pendingFilterStructure c) := by
    rw [h1]; exact keepsBank_refl _
  have s1 : (pendingFilterStructure c).currentFilterStructure = c.mFilterStructure :=
    (pendingFilterStructure_spec c).2.1
  have t1 : (pendingFilterStructure c).toUpdateLRs = true := by rw [h1]
  obtain ⟨k2, _, _, t2, _, _⟩ := pendingDynamicON_keeps (pendingFilterStructure c)
  have t2b : (pendingDynamicON (pendingFilterStructure c)).toUpdateLRs = true := t2.trans t1
  have s2 : (pendingDynamicON (pendingFilterStructure c)).currentFilterStructure
      = c.mFilterStructure := k2.2.1.trans s1
  obtain ⟨k3, _⟩ := pendingLRs_keeps (pendingDynamicON (pendingFilterStructure c))
  obtain ⟨r1, r2, r3, r4, r5, r6, r7⟩ :=
    pendingLRs_run (pendingDynamicON (pendingFilterStructure c)) t2b
  obtain ⟨k4, q4, _⟩ :=
    process_tail_keeps ops (pendingLRs (pendingDynamicON (pendingFilterStructure c)))
  have kall := keepsBank_trans (keepsBank_trans (keepsBank_trans k1 k2) k3) k4
  have ku : keepsBank (pendingDynamicON (pendingFilterStructure c))
      (updateLRs { pendingDynamicON (pendingFilterStructure c) with toUpdateLRs := false }) :=
    (updateLRs_keeps { pendingDynamicON (pendingFilterStructure c) with
      toUpdateLRs := false }).1
  have kb := keepsBank_trans (keepsBank_trans k1 k2) ku
  unfold Controller.process
  refine ⟨kall, q4.1.trans r1, q4.2.1.trans r2, q4.2.2.1.trans r3, q4.2.2.2.2.2.trans r4,
    ?_, ?_, ?_, ?_⟩
  · intro hm j; exact (k4.2.2.1 j).2.2 (r5 (s2.trans hm) j)
  · intro hm j; exact (k4.2.2.2.1 j).2.2 (r6 (s2.trans hm) j)
  · intro hm j; exact (k4.2.2.2.2 j).2.2 (r7 (s2.trans hm) j)
  · apply newLatency_congr
    · exact kall.2.1.trans kb.2.1.symm
    · exact q4.2.1.trans r2
    · exact q4.2.2.1.trans r3
    · exact (kall.2.2.1 0).1.trans (kb.2.2.1 0).1.symm
    · exact (kall.2.2.2.1 0).1.trans (kb.2.2.2.1 0).1.symm
    · exact (kall.2.2.2.2 0).1.trans (kb.2.2.2.2 0).1.symm

/-- Lines 147-165 of `process` leave the compensation switch current, and with compensation on
no compensation update pending. -/
theorem process_tail_sgc [LinearOrderedField α] (ops : FloatOps α) (c : Controller α) :
    (pendingSolo ops (pendingSgc (pendingSgcON c))).currentIsSgcON
        = (pendingSolo ops (pendingSgc (pendingSgcON c))).isSgcON ∧
      ((pendingSolo ops (pendingSgc (pendingSgcON c))).currentIsSgcON = true →
        (pendingSolo ops (pendingSgc (pendingSgcON c))).toUpdateSgc = false) := by
  have h5 : (pendingSgcON c).currentIsSgcON = (pendingSgcON c).isSgcON := by
    unfold pendingSgcON
    by_cases h : c.currentIsSgcON ≠ c.isSgcON
    · rw [if_pos h]
      cases c.isSgcON <;> rfl
    · rw [if_neg h]
      exact not_not.mp h
  have h6 : ∀ d : Controller α, (pendingSgc d).currentIsSgcON = d.currentIsSgcON ∧
      (pendingSgc d).isSgcON = d.isSgcON ∧
      ((pendingSgc d).currentIsSgcON = true → (pendingSgc d).toUpdateSgc = false) := by
    intro d
    unfold pendingSgc
    split_ifs with k1 k2
    · exact ⟨rfl, rfl, fun _ => rfl⟩
    · exact ⟨rfl, rfl, fun _ => by simpa using k2⟩
    · exact ⟨rfl, rfl, fun k => absurd k k1⟩
  have h7 : ∀ d : Controller α, (pendingSolo ops d).currentIsSgcON = d.currentIsSgcON ∧
      (pendingSolo ops d).isSgcON = d.isSgcON ∧
      (pendingSolo ops d).toUpdateSgc = d.toUpdateSgc := by
    intro d
    unfold pendingSolo updateSolo
    split_ifs <;> exact ⟨rfl, rfl, rfl⟩
  obtain ⟨a1, a2, a3⟩ := h6 (pendingSgcON c)
  obtain ⟨b1, b2, b3⟩ := h7 (pendingSgc (pendingSgcON c))
  refine ⟨?_, ?_⟩
  · rw [b1, b2, a1, a2]; exact h5
  · intro h
    rw [b3]
    exact a3 (b1 ▸ h)

end StageLemmas

section SwitchClaims

variable {α : Type}

/-- C12: when `process` observes a requested structure different from the current one, then
after its control section, that is before the first sub-buffer is processed, the
current structure is the requested one; every band's filter implementation is IIR for
minimum-phase,
phase-matched and mixed-phase, SVF for state-variable, parallel for parallel; all correction
filters of a phase-matched, mixed-phase or linear-phase structure have been reset and are
marked for update; the routing lists and flags are those of the active bands and their
requested groups; and the stored latency is the `newLatency` of the new state. -/
theorem process_applies_structure [LinearOrderedField α] (ops : FloatOps α) (c : Controller α)
    (h : c.mFilterStructure ≠ c.currentFilterStructure) :
    (process ops c).currentFilterStructure = c.mFilterStructure ∧
    (c.mFilterStructure = filterStructure.minimum ∨
      c.mFilterStructure = filterStructure.matched ∨
      c.mFilterStructure = filterStructure.mixed →
        ∀ i, ((process ops c).filters i).filterStructure = zlFilter.FilterStructure.iir) ∧
    (c.mFilterStructure = filterStructure.svf →
        ∀ i, ((process ops c).filters i).filterStructure = zlFilter.FilterStructure.svf) ∧
    (c.mFilterStructure = filterStructure.parallel →
        ∀ i, ((process ops c).filters i).filterStructure = zlFilter.FilterStructure.parallel) ∧
    (c.mFilterStructure = filterStructure.matched →
        ∀ j, ((process ops c).prototypeCorrections j).isReset = true ∧
          ((process ops c).prototypeCorrections j).toUpdate = true) ∧
    (c.mFilterStructure = filterStructure.mixed →
        ∀ j, ((process ops c).mixedCorrections j).isReset = true ∧
          ((process ops c).mixedCorrections j).toUpdate = true) ∧
    (c.mFilterStructure = filterStructure.linear →
        ∀ j, ((process ops c).linearFilters j).isReset = true ∧
          ((process ops c).linearFilters j).toUpdate = true) ∧
    (∀ g, (process ops c).filterLRIndices g = (List.range c.bandNUM).filter
        (fun i => decide (c.isActive i = true ∧ lrIndex (c.filterLRs i) = g))) ∧
    ((process ops c).useLR = true ↔ ∃ i, i < c.bandNUM ∧ c.isActive i = true ∧
        (c.filterLRs i = lrType.left ∨ c.filterLRs i = lrType.right)) ∧
    ((process ops c).useMS = true ↔ ∃ i, i < c.bandNUM ∧ c.isActive i = true ∧
        (c.filterLRs i = lrType.mid ∨ c.filterLRs i = lrType.side)) ∧
    (process ops c).latency = newLatency (process ops c) := by
  obtain ⟨kb, hl, hLR, hMS, hlat, u1, u2, u3, hnew⟩ := process_switch_chain ops c h
  have hin : latencyInputs { pendingDynamicON (pendingFilterStructure c) with
      toUpdateLRs := false } = latencyInputs c :=
    (pendingDynamicON_spec (pendingFilterStructure c)).1.1.trans
      (pendingFilterStructure_spec c).1
  have hn := congrArg LatencyInputs.bandNUM hin
  have ha := congrArg LatencyInputs.isActive hin
  have hf := congrArg LatencyInputs.filterLRs hin
  simp only [latencyInputs] at hn ha hf
  obtain ⟨fLR, fMS⟩ := updateLRs_flags { pendingDynamicON (pendingFilterStructure c) with
    toUpdateLRs := false }
  rw [hn, ha, hf] at fLR fMS
  refine ⟨(process_latency_spec ops c).2.1, ?_, ?_, ?_, ?_, ?_, ?_, ?_, ?_, ?_, ?_⟩
  · intro hm i
    rw [kb.1]
    exact (updateFilterStructure_filters
      { c with currentFilterStructure := c.mFilterStructure } i).1 hm
  · intro hm i
    rw [kb.1]
    exact (updateFilterStructure_filters
      { c with currentFilterStructure := c.mFilterStructure } i).2.1 hm
  · intro hm i
    rw [kb.1]
    exact (updateFilterStructure_filters
      { c with currentFilterStructure := c.mFilterStructure } i).2.2.1 hm
  · intro hm j
    refine ⟨?_, u1 hm j⟩
    rw [(kb.2.2.1 j).2.1]
    exact (updateFilterStructure_corrections
      { c with currentFilterStructure := c.mFilterStructure } j).1 hm
  · intro hm j
    refine ⟨?_, u2 hm j⟩
    rw [(kb.2.2.2.1 j).2.1]
    exact (updateFilterStructure_corrections
      { c with currentFilterStructure := c.mFilterStructure } j).2.1 hm
  · intro hm j
    refine ⟨?_, u3 hm j⟩
    rw [(kb.2.2.2.2 j).2.1]
    exact (updateFilterStructure_corrections
      { c with currentFilterStructure := c.mFilterStructure } j).2.2 hm
  · intro g
    rw [hl, updateLRs_lists, hn, ha, hf]
  · rw [hLR]; exact fLR
  · rw [hMS]; exact fMS
  · rw [hlat, hnew]
    exact updateLRs_latency_consistent _

/-- Witness for C12: in the scenario the mixed-phase structure is requested while the
minimum-phase structure is current; after the control section the structure is mixed-phase,
band 0 runs the IIR implementation, the first mixed correction filter is reset and marked, and
the left list holds band 1. -/
theorem process_applies_structure_witness :
    (process rationalOps (scenarioController filterStructure.mixed)).currentFilterStructure
        = filterStructure.mixed ∧
      ((process rationalOps (scenarioController filterStructure.mixed)).filters 0).filterStructure
        = zlFilter.FilterStructure.iir ∧
      ((process rationalOps (scenarioController filterStructure.mixed)).mixedCorrections 0).isReset
        = true ∧
      ((process rationalOps (scenarioController filterStructure.mixed)).mixedCorrections 0).toUpdate
        = true ∧
      (process rationalOps (scenarioController filterStructure.mixed)).filterLRIndices 1 = [1] :=
  ⟨(process_applies_structure rationalOps (scenarioController filterStructure.mixed)
      (by decide)).1,
    (process_applies_structure rationalOps (scenarioController filterStructure.mixed)
      (by decide)).2.1 (Or.inr (Or.inr rfl)) 0,
    ((process_applies_structure rationalOps (scenarioController filterStructure.mixed)
      (by decide)).2.2.2.2.2.1 rfl 0).1,
    ((process_applies_structure rationalOps (scenarioController filterStructure.mixed)
      (by decide)).2.2.2.2.2.1 rfl 0).2,
    ((process_applies_structure rationalOps (scenarioController filterStructure.mixed)
      (by decide)).2.2.2.2.2.2.2.1 1).trans (by decide)⟩

end SwitchClaims

section DynamicLemmas

variable {α : Type}

theorem round_neg_five : round (-5 : ℚ) = -5 := by
  have h : ((-5 : ℤ) : ℚ) = -5 := by norm_num
  rw [← h, round_intCast]

/-- The calls that the last loop of `processDynamic` adds for band `i`. -/
theorem updateMainAndHistogram_calls [LinearOrderedField α] (r : Readings α)
    (c : Controller α) (calls : List (Call α)) (i : Nat) :
    (updateMainAndHistogram r (c, calls) i).2 = calls ++
      (if c.isHistON i = true then
        histogramCalls r.roundToInt i (r.baseLine i - r.momentaryLoudness i) else []) := by
  unfold updateMainAndHistogram
  simp only []
  split_ifs <;> simp

/-- The calls of `processDynamic`: those made before the last loop, then the histogram pushes
of the learning bands among the dynamics-enabled ones. -/
theorem processDynamic_calls [LinearOrderedField α] (isBypassed : Bool) (c : Controller α)
    (r : Readings α) :
    (processDynamic isBypassed c r).2 =
      setAutoThresholds isBypassed c r
        ++ processDynamicLRMS isBypassed c r 0
        ++ (if c.useLR then
            [Call.lrMainSplit, Call.lrSideSplit] ++ processDynamicLRMS isBypassed c r 1
              ++ processDynamicLRMS isBypassed c r 2 ++ [Call.lrMainCombine]
          else [])
        ++ (if c.useMS then
            [Call.msMainSplit, Call.msSideSplit] ++ processDynamicLRMS isBypassed c r 3
              ++ processDynamicLRMS isBypassed c r 4 ++ [Call.msMainCombine]
          else [])
        ++ (if isBypassed = true then [] else
          c.dynamicONIndices.flatMap (fun i => if c.isHistON i = true then
            histogramCalls r.roundToInt i (r.baseLine i - r.momentaryLoudness i) else [])) := by
  have key : ∀ (l : List Nat) (s : Controller α) (calls : List (Call α)),
      (l.foldl (updateMainAndHistogram r) (s, calls)).2 = calls ++
          l.flatMap (fun i => if s.isHistON i = true then
            histogramCalls r.roundToInt i (r.baseLine i - r.momentaryLoudness i) else []) ∧
        (l.foldl (updateMainAndHistogram r) (s, calls)).1.isHistON = s.isHistON := by
    intro l
    induction l with
    | nil => intro s calls; simp
    | cons i l ih =>
      intro s calls
      rw [List.foldl_cons]
      have hs : updateMainAndHistogram r (s, calls) i
          = ((updateMainAndHistogram r (s, calls) i).1,
            (updateMainAndHistogram r (s, calls) i).2) := rfl
      have h1 : (updateMainAndHistogram r (s, calls) i).1.isHistON = s.isHistON := by
        unfold updateMainAndHistogram
        simp only []
        split_ifs <;> rfl
      rw [hs]
      obtain ⟨i1, i2⟩ := ih (updateMainAndHistogram r (s, calls) i).1
        (updateMainAndHistogram r (s, calls) i).2
      rw [i1, i2, h1, updateMainAndHistogram_calls]
      simp
  unfold processDynamic
  cases isBypassed
  · simp only [Bool.not_false, if_true]
    rw [(key _ _ _).1]
    simp
  · simp

/-- A list of calls that never runs band `i` in a normal variant leaves, under `applyBandCall`,
the band filter of `i` as it is, whatever the modulation. -/
theorem applyBandCalls_of_bypassed (modulation : Nat → α × α) (i : Nat)
    (calls : List (Call α)) :
    ∀ fs : Nat → DynamicFilter α, Call.filterProcess i false ∉ calls →
      Call.filterProcessParallelPost i false ∉ calls →
      applyBandCalls modulation fs calls i = fs i := by
  unfold applyBandCalls
  induction calls with
  | nil => intro fs _ _; rfl
  | cons x calls ih =>
    intro fs h1 h2
    rw [List.foldl_cons]
    rw [List.mem_cons, not_or] at h1 h2
    rw [ih _ h1.2 h2.2]
    cases x with
    | filterProcess j b =>
      cases b
      · have hj : j ≠ i := fun h => h1.1 (by rw [h])
        simp [applyBandCall, Function.update, Ne.symm hj]
      · rfl
    | filterProcessParallelPost j b =>
      cases b
      · have hj : j ≠ i := fun h => h2.1 (by rw [h])
        simp [applyBandCall, Function.update, Ne.symm hj]
      · rfl
    | _ => rfl

end DynamicLemmas

section DynamicClaims

variable {α : Type}

/-- C13 as the code has it: for a learning band `i` the last loop of `processDynamic` adds the
pushes of `histogramCalls` at `diff = baseline - momentary loudness`, and nothing for a band
that is not learning; a bucket is pushed if and only if `diff <= 100` (negative differences
included), the same bucket goes to both histograms, and it is `roundToInt diff` clamped to
`0..79`: the rounded value itself when that lies in `0..79`, `0` below and `79` above. -/
theorem histogram_push_rule [LinearOrderedField α] (r : Readings α) (c : Controller α)
    (calls : List (Call α)) (i : Nat) (diff : α) :
    (c.isHistON i = true → (updateMainAndHistogram r (c, calls) i).2 = calls ++
        histogramCalls r.roundToInt i (r.baseLine i - r.momentaryLoudness i)) ∧
    (c.isHistON i = false → (updateMainAndHistogram r (c, calls) i).2 = calls) ∧
    (histogramCalls r.roundToInt i diff ≠ [] ↔ diff ≤ 100) ∧
    (diff ≤ 100 → histogramCalls r.roundToInt i diff =
        [Call.histogramPush i (zlCompressor.jlimit 0 79 (r.roundToInt diff)).toNat,
          Call.subHistogramPush i (zlCompressor.jlimit 0 79 (r.roundToInt diff)).toNat]) ∧
    (0 ≤ r.roundToInt diff → r.roundToInt diff ≤ 79 →
        ((zlCompressor.jlimit 0 79 (r.roundToInt diff)).toNat : Int) = r.roundToInt diff) ∧
    (r.roundToInt diff < 0 → (zlCompressor.jlimit 0 79 (r.roundToInt diff)).toNat = 0) ∧
    (79 < r.roundToInt diff → (zlCompressor.jlimit 0 79 (r.roundToInt diff)).toNat = 79) := by
  have hc := updateMainAndHistogram_calls r c calls i
  refine ⟨?_, ?_, ?_, ?_, ?_, ?_, ?_⟩
  · intro h; rw [hc, if_pos h]
  · intro h; rw [hc, if_neg (by simp [h])]; simp
  · unfold histogramCalls
    split_ifs with h <;> simp [h]
  · intro h
    unfold histogramCalls
    rw [if_pos h]
  · intro h0 h1
    unfold zlCompressor.jlimit
    rw [if_neg (by omega), if_neg (by omega)]
    exact Int.toNat_of_nonneg h0
  · intro h
    unfold zlCompressor.jlimit
    rw [if_pos h]
    rfl
  · intro h
    unfold zlCompressor.jlimit
    rw [if_neg (by omega), if_pos h]
    rfl

/-- Witness for C13 (amended): a learning band with `diff = 30`. -/
theorem histogram_push_rule_witness :
    (updateMainAndHistogram scenarioReadings (learningController, []) 0).2
        = [] ++ histogramCalls scenarioReadings.roundToInt 0
          (scenarioReadings.baseLine 0 - scenarioReadings.momentaryLoudness 0) ∧
      histogramCalls scenarioReadings.roundToInt 0 (30 : ℚ) =
        [Call.histogramPush 0 (zlCompressor.jlimit 0 79 (scenarioReadings.roundToInt 30)).toNat,
          Call.subHistogramPush 0
            (zlCompressor.jlimit 0 79 (scenarioReadings.roundToInt 30)).toNat] :=
  ⟨(histogram_push_rule scenarioReadings learningController [] 0 30).1 rfl,
    (histogram_push_rule scenarioReadings learningController [] 0 30).2.2.2.1 (by norm_num)⟩

/-- Counterexample to C13 as stated: with baseline 0 dB and momentary loudness 5 dB the
difference is -5, outside `[0, 100)`, and `processDynamic` still pushes bucket 0 into both
histograms of the learning band 0. -/
theorem histogram_push_counterexample :
    loudReadings.baseLine 0 - loudReadings.momentaryLoudness 0 = -5 ∧
      ¬ ((0 : ℚ) ≤ -5 ∧ (-5 : ℚ) < 100) ∧
      (processDynamic false learningController loudReadings).2 =
        [Call.setThreshold 0 (-20), Call.setBaseLine 0 0, Call.filterProcess 0 false,
          Call.histogramPush 0 0, Call.subHistogramPush 0 0] := by
  refine ⟨by norm_num [loudReadings, scenarioReadings], by norm_num, ?_⟩
  simp [processDynamic, setAutoThresholds, processDynamicLRMS, processDynamicBand,
    updateMainAndHistogram, histogramCalls, learningController, scenarioController,
    loudReadings, scenarioReadings, zlCompressor.jlimit]
  norm_num [round_neg_five]

/-- C14: in `processDynamicLRMS` every band of the routing list is handed exactly one baseline:
`0` when the band is not relative; when it is relative and the tracker of its group is on, the
momentary loudness `L` of the group if `L > minusInfinityDB + 1` and the floor
`minusInfinityDB * 0.5` if `L <= minusInfinityDB + 1`. So, for `minusInfinityDB < -2`, every
baseline handed to a compressor is above `minusInfinityDB + 1`. -/
theorem baseline_handed [LinearOrderedField α] (isBypassed : Bool) (c : Controller α)
    (r : Readings α) (lrIdx : Nat) :
    (∀ i, i ∈ c.filterLRIndices lrIdx → Call.setBaseLine i
        (if c.dynRelatives i = true then groupBaseLine c r lrIdx else 0)
          ∈ processDynamicLRMS isBypassed c r lrIdx) ∧
    (∀ i x, Call.setBaseLine i x ∈ processDynamicLRMS isBypassed c r lrIdx →
        i ∈ c.filterLRIndices lrIdx ∧
        (c.dynRelatives i = false → x = 0) ∧
        (c.dynRelatives i = true → c.useTrackers lrIdx = true →
          r.minusInfinityDB + 1 < r.groupLoudness lrIdx → x = r.groupLoudness lrIdx) ∧
        (c.dynRelatives i = true → c.useTrackers lrIdx = true →
          r.groupLoudness lrIdx ≤ r.minusInfinityDB + 1 → x = r.minusInfinityDB * (1 / 2)) ∧
        (r.minusInfinityDB < -2 → r.minusInfinityDB + 1 < x)) := by
  have hmem : ∀ i x, Call.setBaseLine i x ∈ processDynamicLRMS isBypassed c r lrIdx ↔
      i ∈ c.filterLRIndices lrIdx ∧
        x = (if c.dynRelatives i = true then groupBaseLine c r lrIdx else 0) := by
    intro i x
    unfold processDynamicLRMS processDynamicBand
    simp only [List.mem_append, List.mem_flatMap, List.mem_cons, List.mem_singleton]
    constructor
    · rintro ((h | ⟨j, hj, h | h | h⟩) | h)
      · split_ifs at h <;> simp at h
      · cases h; exact ⟨hj, rfl⟩
      · cases h
      · simp at h
      · split_ifs at h <;> simp at h
    · rintro ⟨hi, hx⟩
      exact Or.inl (Or.inr ⟨i, hi, Or.inl (by rw [hx])⟩)
  refine ⟨fun i hi => (hmem i _).mpr ⟨hi, rfl⟩, ?_⟩
  intro i x hx
  obtain ⟨hi, hv⟩ := (hmem i x).mp hx
  refine ⟨hi, ?_, ?_, ?_, ?_⟩
  · intro h; rw [hv, if_neg (by simp [h])]
  · intro h1 h2 h3
    rw [hv, if_pos h1]
    unfold groupBaseLine
    rw [if_pos h2, if_neg (not_le.mpr h3)]
  · intro h1 h2 h3
    rw [hv, if_pos h1]
    unfold groupBaseLine
    rw [if_pos h2, if_pos h3]
  · intro hm
    rw [hv]
    unfold groupBaseLine
    split_ifs with h1 h2 h3
    · linarith
    · linarith [not_le.mp h3]
    · linarith
    · linarith

/-- Witness for C14: band 0 relative with its tracker on; a group loudness of -30 dB is handed
on as it is, and at silence (-240 dB) the floor -120 dB is handed on instead. -/
theorem baseline_handed_witness :
    Call.setBaseLine 0 (if relativeController.dynRelatives 0 = true then
        groupBaseLine relativeController scenarioReadings 0 else 0)
        ∈ processDynamicLRMS false relativeController scenarioReadings 0 ∧
      ((-120 : ℚ) = silentReadings.minusInfinityDB * (1 / 2)) :=
  ⟨(baseline_handed false relativeController scenarioReadings 0).1 0
      (by simp [relativeController, learningController]),
    ((baseline_handed false relativeController silentReadings 0).2 0 (-120)
      (by
        simp [processDynamicLRMS, processDynamicBand, groupBaseLine, relativeController,
          learningController, scenarioController, silentReadings, scenarioReadings]
        norm_num)).2.2.2.1 rfl rfl (by norm_num [silentReadings, scenarioReadings])⟩

/-- C15: for a band `i` whose bypass has been applied (`currentIsBypass[i]`), or when the whole
effect is bypassed (`isBypassed`), `processDynamicLRMS`, `processParallelPostLRMS` and the whole
of `processDynamic` run the band only through the bypassed variant, whatever the readings taken
from the sidechain; so, the bypassed variant making no gain change, the dynamic filter of the
band is left as it is whatever the modulation, and a gain and Q equal to those of the static
filter `bFilters[i]` stay equal to them. -/
theorem bypassed_band_unchanged [LinearOrderedField α] (isBypassed : Bool) (c : Controller α)
    (i : Nat) (hb : c.currentIsBypass i = true ∨ isBypassed = true) :
    (∀ (r : Readings α) (g : Nat) (b : Bool),
        Call.filterProcess i b ∈ processDynamicLRMS isBypassed c r g → b = true) ∧
    (∀ (r : Readings α) (g : Nat) (p b : Bool),
        Call.filterProcessParallelPost i b ∈ processParallelPostLRMS isBypassed c r g p →
          b = true) ∧
    (∀ (r : Readings α) (b : Bool),
        Call.filterProcess i b ∈ (processDynamic isBypassed c r).2 → b = true) ∧
    (∀ (r : Readings α) (g : Nat) (p : Bool) (modulation : Nat → α × α),
        applyBandCalls modulation c.filters (processDynamicLRMS isBypassed c r g) i
            = c.filters i ∧
          applyBandCalls modulation c.filters (processParallelPostLRMS isBypassed c r g p) i
            = c.filters i) ∧
    (∀ (r : Readings α) (modulation : Nat → α × α),
        applyBandCalls modulation c.filters (processDynamic isBypassed c r).2 i = c.filters i ∧
        ((c.filters i).mainFilter.gain = (c.bFilters i).gain →
          (c.filters i).mainFilter.q = (c.bFilters i).q →
          (applyBandCalls modulation c.filters
              (processDynamic isBypassed c r).2 i).mainFilter.gain = (c.bFilters i).gain ∧
            (applyBandCalls modulation c.filters
              (processDynamic isBypassed c r).2 i).mainFilter.q = (c.bFilters i).q)) := by
  have hv : (c.currentIsBypass i || isBypassed) = true := by
    rcases hb with h | h <;> simp [h]
  have hL : ∀ (r : Readings α) (g : Nat) (b : Bool),
      Call.filterProcess i b ∈ processDynamicLRMS isBypassed c r g → b = true := by
    intro r g b hin
    unfold processDynamicLRMS processDynamicBand at hin
    simp only [List.mem_append, List.mem_flatMap, List.mem_cons, List.mem_singleton] at hin
    rcases hin with (h | ⟨j, _, h | h | h⟩) | h
    · split_ifs at h <;> simp at h
    · cases h
    · cases h; exact hv
    · simp at h
    · split_ifs at h <;> simp at h
  have hLp : ∀ (r : Readings α) (g : Nat) (b : Bool),
      Call.filterProcessParallelPost i b ∉ processDynamicLRMS isBypassed c r g := by
    intro r g b hin
    unfold processDynamicLRMS processDynamicBand at hin
    simp only [List.mem_append, List.mem_flatMap, List.mem_cons, List.mem_singleton] at hin
    rcases hin with (h | ⟨j, _, h | h | h⟩) | h
    · split_ifs at h <;> simp at h
    · cases h
    · cases h
    · simp at h
    · split_ifs at h <;> simp at h
  have hP : ∀ (r : Readings α) (g : Nat) (p b : Bool),
      Call.filterProcessParallelPost i b ∈ processParallelPostLRMS isBypassed c r g p →
        b = true := by
    intro r g p b hin
    unfold processParallelPostLRMS at hin
    simp only [List.mem_flatMap] at hin
    obtain ⟨j, _, h⟩ := hin
    split_ifs at h
    · simp only [List.mem_singleton] at h
      cases h; exact hv
    · simp at h
  have hPf : ∀ (r : Readings α) (g : Nat) (p b : Bool),
      Call.filterProcess i b ∉ processParallelPostLRMS isBypassed c r g p := by
    intro r g p b hin
    unfold processParallelPostLRMS at hin
    simp only [List.mem_flatMap] at hin
    obtain ⟨j, _, h⟩ := hin
    split_ifs at h
    · simp only [List.mem_singleton] at h
      cases h
    · simp at h
  have hD : ∀ (r : Readings α) (b : Bool),
      (Call.filterProcess i b ∈ (processDynamic isBypassed c r).2 → b = true) ∧
        Call.filterProcessParallelPost i b ∉ (processDynamic isBypassed c r).2 := by
    intro r b
    rw [processDynamic_calls]
    have hT : ∀ x ∈ setAutoThresholds isBypassed c r, ∃ j y, x = Call.setThreshold j y := by
      intro x hx
      unfold setAutoThresholds at hx
      split_ifs at hx
      · simp only [List.mem_map] at hx
        obtain ⟨j, _, h⟩ := hx
        split_ifs at h
        · exact ⟨j, _, h.symm⟩
        · exact ⟨j, _, h.symm⟩
      · simp at hx
    have hH : ∀ x ∈ (if isBypassed = true then [] else
        c.dynamicONIndices.flatMap (fun i => if c.isHistON i = true then
          histogramCalls r.roundToInt i (r.baseLine i - r.momentaryLoudness i) else [])),
        ∃ j k, x = Call.histogramPush j k ∨ x = Call.subHistogramPush j k := by
      intro x hx
      split_ifs at hx
      · simp at hx
      · simp only [List.mem_flatMap] at hx
        obtain ⟨j, _, h⟩ := hx
        split_ifs at h
        · unfold histogramCalls at h
          split_ifs at h
          · simp only [List.mem_cons, List.mem_singleton, List.not_mem_nil, or_false] at h
            rcases h with h | h
            · exact ⟨j, _, Or.inl h⟩
            · exact ⟨j, _, Or.inr h⟩
          · simp at h
        · simp at h
    constructor
    · intro hin
      simp only [List.mem_append] at hin
      rcases hin with (((h | h) | h) | h) | h
      · obtain ⟨j, y, e⟩ := hT _ h; cases e
      · exact hL r 0 b h
      · split_ifs at h
        · simp only [List.mem_append, List.mem_cons, List.mem_singleton, List.not_mem_nil,
            or_false] at h
          rcases h with (((h | h) | h) | h) | h
          · cases h
          · cases h
          · exact hL r 1 b h
          · exact hL r 2 b h
          · cases h
        · simp at h
      · split_ifs at h
        · simp only [List.mem_append, List.mem_cons, List.mem_singleton, List.not_mem_nil,
            or_false] at h
          rcases h with (((h | h) | h) | h) | h
          · cases h
          · cases h
          · exact hL r 3 b h
          · exact hL r 4 b h
          · cases h
        · simp at h
      · obtain ⟨j, k, e | e⟩ := hH _ h <;> cases e
    · intro hin
      simp only [List.mem_append] at hin
      rcases hin with (((h | h) | h) | h) | h
      · obtain ⟨j, y, e⟩ := hT _ h; cases e
      · exact hLp r 0 b h
      · split_ifs at h
        · simp only [List.mem_append, List.mem_cons, List.mem_singleton, List.not_mem_nil,
            or_false] at h
          rcases h with (((h | h) | h) | h) | h
          · cases h
          · cases h
          · exact hLp r 1 b h
          · exact hLp r 2 b h
          · cases h
        · simp at h
      · split_ifs at h
        · simp only [List.mem_append, List.mem_cons, List.mem_singleton, List.not_mem_nil,
            or_false] at h
          rcases h with (((h | h) | h) | h) | h
          · cases h
          · cases h
          · exact hLp r 3 b h
          · exact hLp r 4 b h
          · cases h
        · simp at h
      · obtain ⟨j, k, e | e⟩ := hH _ h <;> cases e
  refine ⟨hL, hP, fun r b => (hD r b).1, ?_, ?_⟩
  · intro r g p modulation
    constructor
    · exact applyBandCalls_of_bypassed modulation i _ c.filters
        (fun h => absurd (hL r g false h) (by decide)) (hLp r g false)
    · exact applyBandCalls_of_bypassed modulation i _ c.filters (hPf r g p false)
        (fun h => absurd (hP r g p false h) (by decide))
  · intro r modulation
    have e : applyBandCalls modulation c.filters (processDynamic isBypassed c r).2 i
        = c.filters i :=
      applyBandCalls_of_bypassed modulation i _ c.filters
        (fun h => absurd ((hD r false).1 h) (by decide)) (hD r false).2
    refine ⟨e, fun h1 h2 => ?_⟩
    rw [e]
    exact ⟨h1, h2⟩

/-- Witness for C15: in the one-band state with the bypass of band 0 applied, the band filter
of band 0 is the same after `processDynamic`, for the modulation that would set gain -6 and
Q 2. -/
theorem bypassed_band_unchanged_witness :
    applyBandCalls (fun _ => ((-6 : ℚ), (2 : ℚ))) bypassedController.filters
        (processDynamic false bypassedController loudReadings).2 0
      = bypassedController.filters 0 :=
  ((bypassed_band_unchanged false bypassedController 0 (Or.inl rfl)).2.2.2.2 loudReadings
    (fun _ => ((-6 : ℚ), (2 : ℚ)))).1

end DynamicClaims

open zlFilter zlSplitter

section SoloClaims

variable {α : Type}

/-- C16 as the code has it: for the shelf, pass and tilt types (`highPass`, `lowShelf`,
`lowPass`, `highShelf`, `tiltShelf`) the Q returned by `getSoloFilterParas` lies in
`[0.025, 25]` for every frequency and Q; for `peak`, `notch`, `bandPass` and `bandShelf` the
input Q is returned unchanged, so for every type the returned Q lies in `[0.025, 25]` whenever
the input Q does. -/
theorem soloQ_range [LinearOrderedField α] (ops : FloatOps α) (c : Controller α)
    (fType : FilterType) (freq q : α) :
    (fType = FilterType.highPass ∨ fType = FilterType.lowShelf ∨ fType = FilterType.lowPass ∨
      fType = FilterType.highShelf ∨ fType = FilterType.tiltShelf →
        1 / 40 ≤ (getSoloFilterParas ops c fType freq q).2 ∧
          (getSoloFilterParas ops c fType freq q).2 ≤ 25) ∧
    (fType = FilterType.peak ∨ fType = FilterType.notch ∨ fType = FilterType.bandPass ∨
      fType = FilterType.bandShelf → (getSoloFilterParas ops c fType freq q).2 = q) ∧
    (1 / 40 ≤ q → q ≤ 25 → 1 / 40 ≤ (getSoloFilterParas ops c fType freq q).2 ∧
      (getSoloFilterParas ops c fType freq q).2 ≤ 25) := by
  have hclamp : ∀ x : α, 1 / 40 ≤ min (max x (1 / 40)) 25 ∧ min (max x (1 / 40)) 25 ≤ 25 :=
    fun x => ⟨le_min (le_max_right _ _) (by norm_num), min_le_right _ _⟩
  have h25 : (1 : α) / 40 ≤ 25 := by norm_num
  refine ⟨?_, ?_, ?_⟩
  · intro h
    rcases h with h | h | h | h | h <;> subst h <;> simp only [getSoloFilterParas] <;>
      first
        | exact hclamp _
        | exact ⟨le_refl _, h25⟩
  · intro h
    rcases h with h | h | h | h <;> subst h <;> rfl
  · intro h1 h2
    cases fType <;> simp only [getSoloFilterParas] <;>
      first
        | exact hclamp _
        | exact ⟨le_refl _, h25⟩
        | exact ⟨h1, h2⟩

/-- Witness for C16 (amended): a low shelf at 100 Hz with Q 100, outside the legal range, still
gets a solo Q in `[0.025, 25]`. -/
theorem soloQ_range_witness :
    1 / 40 ≤ (getSoloFilterParas rationalOps (scenarioController filterStructure.minimum)
        FilterType.lowShelf 100 100).2 ∧
      (getSoloFilterParas rationalOps (scenarioController filterStructure.minimum)
        FilterType.lowShelf 100 100).2 ≤ 25 :=
  (soloQ_range rationalOps (scenarioController filterStructure.minimum)
    FilterType.lowShelf 100 100).1 (Or.inr (Or.inl rfl))

/-- Counterexample to C16 as stated: for a peak filter with Q 100 the Q returned is 100, above
25. -/
theorem soloQ_counterexample :
    (getSoloFilterParas rationalOps (scenarioController filterStructure.minimum)
        FilterType.peak 1000 100).2 = 100 ∧ ¬ ((100 : ℚ) ≤ 25) :=
  ⟨rfl, by norm_num⟩

end SoloClaims

section LearningClaims

variable {α : Type}

/-- C17: `setLearningHist (idx, true)` resets the two histograms of band `idx`, the slow one
and the fast-decay one, and only then stores the flag; `setLearningHist (idx, false)` makes no
call on a histogram and stores the cleared flag; in both cases no histogram of another band is
touched, and the state changes in `isHistON[idx]` only. -/
theorem setLearningHist_effect [LinearOrderedField α] (c : Controller α) (idx : Nat) :
    (setLearningHist c idx true).1 = [Call.histogramReset idx,
        Call.subHistogramReset idx (25 / 2), Call.isHistONStore idx true] ∧
    (setLearningHist c idx false).1 = [Call.isHistONStore idx false] ∧
    (∀ b : Bool, (setLearningHist c idx b).2
        = { c with isHistON := Function.update c.isHistON idx b }) ∧
    (∀ b : Bool, (setLearningHist c idx b).2.isHistON idx = b) ∧
    (∀ (b : Bool) (j : Nat), j ≠ idx →
        (setLearningHist c idx b).2.isHistON j = c.isHistON j ∧
        Call.histogramReset j ∉ (setLearningHist c idx b).1 ∧
        (∀ x, Call.subHistogramReset j x ∉ (setLearningHist c idx b).1)) ∧
    (∀ (b : Bool) (j k : Nat), Call.histogramPush j k ∉ (setLearningHist c idx b).1 ∧
        Call.subHistogramPush j k ∉ (setLearningHist c idx b).1) := by
  refine ⟨rfl, rfl, fun _ => rfl, ?_, ?_, ?_⟩
  · intro b
    simp [setLearningHist]
  · intro b j hj
    refine ⟨?_, ?_, ?_⟩
    · simp [setLearningHist, Function.update, hj]
    · cases b <;> simp [setLearningHist, hj]
    · intro x
      cases b <;> simp [setLearningHist, hj]
  · intro b j k
    cases b <;> simp [setLearningHist]

/-- Witness for C17: enabling learning for band 0 of the scenario leaves the histograms and the
flag of band 1 alone. -/
theorem setLearningHist_effect_witness :
    (setLearningHist (scenarioController filterStructure.minimum) 0 true).2.isHistON 1
        = (scenarioController filterStructure.minimum).isHistON 1 ∧
      Call.histogramReset 1
        ∉ (setLearningHist (scenarioController filterStructure.minimum) 0 true).1 :=
  ⟨((setLearningHist_effect (scenarioController filterStructure.minimum) 0).2.2.2.2.1 true 1
      (by decide)).1,
    ((setLearningHist_effect (scenarioController filterStructure.minimum) 0).2.2.2.2.1 true 1
      (by decide)).2.1⟩

end LearningClaims

section IdealClaims

variable {α : Type}

/-- C18: after `updateMagnidue`, for every response point `i` with accumulated linear gain
`g`, the stored decibel value is `log10 g * 20` when `g` is strictly positive and exactly
`-480` when `g` is zero or negative; the logarithm is applied to proved positive gains only. -/
theorem updateMagnidue_dBs [LinearOrderedField α] (log10 : { g : α // 0 < g } → α)
    (designed : Nat) (accumulate : Nat → List α → List α) (f : zlFilter.Ideal α) (i : Nat)
    (g : α)
    (hg : (zlFilter.Ideal.updateMagnidue log10 designed accumulate f).gains[i]? = some g) :
    (∀ h : 0 < g, (zlFilter.Ideal.updateMagnidue log10 designed accumulate f).dBs[i]?
        = some (log10 ⟨g, h⟩ * 20)) ∧
    (g ≤ 0 → (zlFilter.Ideal.updateMagnidue log10 designed accumulate f).dBs[i]?
        = some (-480)) := by
  unfold zlFilter.Ideal.updateMagnidue at hg ⊢
  simp only [] at hg ⊢
  generalize (List.range (if f.toUpdatePara = true then
      { f with toUpdatePara := false, filterNum := designed } else f).filterNum).foldl
      (fun g i => accumulate i g) ((if f.toUpdatePara = true then
      { f with toUpdatePara := false, filterNum := designed } else f).gains.map
        (fun _ => (1 : α))) = gains1 at hg ⊢
  have hi : i < gains1.length := by
    by_contra hcon
    rw [List.getElem?_eq_none (not_lt.mp hcon)] at hg
    exact absurd hg (by simp)
  rw [List.getElem?_append_left (by simpa using hi), List.getElem?_map, hg]
  constructor
  · intro h
    simp [h]
  · intro h
    simp [not_lt.mpr h]

/-- Witness for C18: one section that scales every gain by 0 gives the floor -480 at point 0
of a two-point response. -/
theorem updateMagnidue_dBs_witness :
    (zlFilter.Ideal.updateMagnidue (fun _ : { g : ℚ // 0 < g } => (0 : ℚ)) 1
        (fun _ gs => gs.map (fun x => x * 0)) twoPointIdeal).dBs[0]? = some (-480 : ℚ) :=
  (updateMagnidue_dBs (fun _ : { g : ℚ // 0 < g } => (0 : ℚ)) 1
    (fun _ gs => gs.map (fun x => x * 0)) twoPointIdeal 0 0
    (by simp [zlFilter.Ideal.updateMagnidue, twoPointIdeal, List.range_succ])).2 (le_refl _)

end IdealClaims

section SplitterClaims

variable {α : Type}

/-- C19: for every 2-channel buffer, splitting it into left and right views, or into mid and
side views, and combining the views again with nothing done to them in between gives back the
buffer. -/
theorem split_combine_roundtrip [LinearOrderedField α] (buffer : List (α × α)) :
    lrCombine (lrSplit buffer) = buffer ∧ msCombine (msSplit buffer) = buffer := by
  constructor
  · unfold lrCombine lrSplit
    induction buffer with
    | nil => rfl
    | cons x xs ih => simp only [List.map_cons, List.zip_cons_cons]; rw [ih]
  · unfold msCombine msSplit
    induction buffer with
    | nil => rfl
    | cons x xs ih =>
      simp only [List.map_cons, List.zip_cons_cons] at ih ⊢
      rw [ih]
      congr 1
      ext <;> simp <;> ring

end SplitterClaims

section IdleClaims

variable {α : Type}

/-- C20: a call of `process` on a state in which the requested structure is the current one,
none of `toUpdateDynamicON`, `toUpdateLRs`, `toUpdateBypass`, `toUpdateSolo` is raised, the
compensation switch is unchanged and no compensation update can be consumed (`toUpdateSgc` is
clear or compensation is off) runs no update method and changes nothing but
`currentIsEffectON`: correction filters, routing lists, latency and compensation gains are as
before. After every call of `process` the four flags it consumes are clear; hence a second
call with no request in between runs no update method and changes nothing at all. -/
theorem process_idle [LinearOrderedField α] (ops : FloatOps α) (c : Controller α) :
    (c.mFilterStructure = c.currentFilterStructure → c.toUpdateDynamicON = false →
      c.toUpdateLRs = false → c.toUpdateBypass = false → c.toUpdateSolo = false →
      c.currentIsSgcON = c.isSgcON → (c.toUpdateSgc = false ∨ c.currentIsSgcON = false) →
        process ops c = { c with currentIsEffectON := c.isEffectON } ∧
        processUpdateCalls c = [] ∧
        (process ops c).prototypeCorrections = c.prototypeCorrections ∧
        (process ops c).mixedCorrections = c.mixedCorrections ∧
        (process ops c).linearFilters = c.linearFilters ∧
        (process ops c).filterLRIndices = c.filterLRIndices ∧
        (process ops c).latency = c.latency ∧
        (process ops c).compensationGains = c.compensationGains) ∧
    ((process ops c).toUpdateDynamicON = false ∧ (process ops c).toUpdateLRs = false ∧
      (process ops c).toUpdateBypass = false ∧ (process ops c).toUpdateSolo = false) ∧
    (process ops (process ops c) = process ops c ∧ processUpdateCalls (process ops c) = []) := by
  have part1 : ∀ d : Controller α, d.mFilterStructure = d.currentFilterStructure →
      d.toUpdateDynamicON = false → d.toUpdateLRs = false → d.toUpdateBypass = false →
      d.toUpdateSolo = false → d.currentIsSgcON = d.isSgcON →
      (d.toUpdateSgc = false ∨ d.currentIsSgcON = false) →
        process ops d = { d with currentIsEffectON := d.isEffectON } ∧
        processUpdateCalls d = [] := by
    intro c h1 h2 h3 h4 h5 h6 h7
    have e1 : pendingFilterStructure c = c := by
      unfold pendingFilterStructure
      rw [if_neg (not_not.mpr h1)]
    have e2 : pendingDynamicON c = c := by
      unfold pendingDynamicON
      rw [if_neg (by simp [h2])]
    have e3 : pendingLRs c = c := by
      unfold pendingLRs
      rw [if_neg (by simp [h3])]
    have e4 : pendingBypass c = c := by
      unfold pendingBypass
      rw [if_neg (by simp [h4])]
    have e5 : pendingSgcON c = c := by
      unfold pendingSgcON
      rw [if_neg (not_not.mpr h6)]
    have e6 : pendingSgc c = c := by
      unfold pendingSgc
      rcases h7 with h | h
      · simp [h]
      · simp [h]
    have e7 : pendingSolo ops c = c := by
      unfold pendingSolo
      rw [if_neg (by simp [h5])]
    constructor
    · unfold Controller.process
      simp only [e1, e2, e3, e4, e5, e6, e7]
    · unfold processUpdateCalls
      simp only [e1, e2, e3, e4, e5, e6]
      rcases h7 with h | h <;> simp [h1, h2, h3, h4, h5, h]
  have part2 : (process ops c).toUpdateDynamicON = false ∧ (process ops c).toUpdateLRs = false ∧
      (process ops c).toUpdateBypass = false ∧ (process ops c).toUpdateSolo = false := by
    obtain ⟨_, _, a3, _, _, _⟩ := pendingDynamicON_keeps (pendingFilterStructure c)
    obtain ⟨_, b2, b3, _, _⟩ := pendingLRs_keeps (pendingDynamicON (pendingFilterStructure c))
    obtain ⟨_, _, t3, t4, t5, t6⟩ :=
      process_tail_keeps ops (pendingLRs (pendingDynamicON (pendingFilterStructure c)))
    unfold Controller.process
    exact ⟨(t3.trans b2).trans a3, t4.trans b3, t5, t6⟩
  refine ⟨?_, part2, ?_⟩
  · intro h1 h2 h3 h4 h5 h6 h7
    obtain ⟨hp, hc⟩ := part1 c h1 h2 h3 h4 h5 h6 h7
    refine ⟨hp, hc, ?_, ?_, ?_, ?_, ?_, ?_⟩
    all_goals rw [hp]
  · obtain ⟨_, s2, s3, _, _⟩ := process_latency_spec ops c
    obtain ⟨g1, g2⟩ := process_tail_sgc ops
      (pendingBypass (pendingLRs (pendingDynamicON (pendingFilterStructure c))))
    have q1 : (process ops c).currentIsSgcON = (process ops c).isSgcON := by
      unfold Controller.process; exact g1
    have q2 : (process ops c).toUpdateSgc = false ∨ (process ops c).currentIsSgcON = false := by
      unfold Controller.process
      rcases Bool.eq_false_or_eq_true (pendingSolo ops (pendingSgc (pendingSgcON
        (pendingBypass (pendingLRs (pendingDynamicON
          (pendingFilterStructure c))))))).currentIsSgcON with hq | hq
      · exact Or.inl (g2 hq)
      · exact Or.inr hq
    obtain ⟨hp, hc⟩ := part1 (process ops c) (s3.trans s2.symm) part2.1 part2.2.1 part2.2.2.1
      part2.2.2.2 q1 q2
    exact ⟨hp.trans rfl, hc⟩

/-- Witness for C20: the one-band steady state has nothing pending; `process` leaves its
routing list 0 and its latency as they are. -/
theorem process_idle_witness :
    (process rationalOps learningController).filterLRIndices = learningController.filterLRIndices ∧
      (process rationalOps learningController).latency = learningController.latency :=
  ⟨((process_idle rationalOps learningController).1 rfl rfl rfl rfl rfl rfl
      (Or.inl rfl)).2.2.2.2.2.1,
    ((process_idle rationalOps learningController).1 rfl rfl rfl rfl rfl rfl
      (Or.inl rfl)).2.2.2.2.2.2.1⟩

end IdleClaims

open zlEqMatch

section ReductionClaims

variable {α : Type} [LinearOrderedField α]

/-- C24: with current coefficients, a ratio of at least 1 and a non-negative bound, `eval`
never returns more than its input and `process` never returns a positive value: the computer
only reduces the level. A knee half-width that is not negative is a special case; the proof
does not use its sign. -/
theorem eval_le_input (k : KneeComputer α) (hR : 1 ≤ k.ratio) (hB : 0 ≤ k.bound) (x : α) :
    eval (interpolate k) x ≤ x ∧ KneeComputer.process (interpolate k) x ≤ 0 := by
  have hu := unclamped_le_self k hR x
  have h : eval (interpolate k) x ≤ x := by
    rw [eval_interpolate_eq_max k hR hB x]
    exact max_le (by linarith) hu
  exact ⟨h, by unfold KneeComputer.process; linarith⟩

/-- Witness for C24: threshold -20, ratio 4, knee half-width 6, bound 12, input -14. -/
theorem eval_le_input_witness :
    (0 : ℚ) ≤ (scenario (12 : ℚ)).kneeW ∧
      eval (interpolate (scenario (12 : ℚ))) (-14) ≤ -14 ∧
      KneeComputer.process (interpolate (scenario (12 : ℚ))) (-14) ≤ 0 :=
  ⟨by norm_num [scenario],
    eval_le_input (scenario (12 : ℚ)) (by norm_num [scenario]) (by norm_num [scenario]) (-14)⟩

end ReductionClaims

section SoloStateClaims

variable {α : Type}

/-- C23: `updateSolo` with solo disabled raises the rest flag of the solo filter and leaves
its frequency and Q, the remembered band index and the remembered side flag as they are; with
solo enabled it copies the requested band index and side flag and stores the frequency and Q
that `getSoloFilterParas` returns for the base filter of the band (main) or for the side
filter of the band (side). Lines 162-165 of `process` reach the first case when a solo update
is pending and solo is no longer requested. -/
theorem updateSolo_effect [LinearOrderedField α] (ops : FloatOps α) (c : Controller α) :
    (c.currentUseSolo = false →
      (updateSolo ops c).soloFilter.toRest = true ∧
        (updateSolo ops c).soloFilter.freq = c.soloFilter.freq ∧
        (updateSolo ops c).soloFilter.q = c.soloFilter.q ∧
        (updateSolo ops c).currentSoloIdx = c.currentSoloIdx ∧
        (updateSolo ops c).currentSoloSide = c.currentSoloSide) ∧
      (c.currentUseSolo = true →
        (updateSolo ops c).currentSoloIdx = c.soloIdx ∧
          (updateSolo ops c).currentSoloSide = c.soloSide ∧
          ((updateSolo ops c).soloFilter.freq, (updateSolo ops c).soloFilter.q)
            = (if c.soloSide = false then
                getSoloFilterParas ops c (c.bFilters c.soloIdx).filterType
                  (c.bFilters c.soloIdx).freq (c.bFilters c.soloIdx).q
              else
                getSoloFilterParas ops c (c.filters c.soloIdx).sideFilter.filterType
                  (c.filters c.soloIdx).sideFilter.freq (c.filters c.soloIdx).sideFilter.q)) ∧
      (c.toUpdateSolo = true → c.useSolo = false →
        (pendingSolo ops c).currentUseSolo = false ∧
          (pendingSolo ops c).soloFilter.toRest = true ∧
          (pendingSolo ops c).soloFilter.freq = c.soloFilter.freq ∧
          (pendingSolo ops c).soloFilter.q = c.soloFilter.q ∧
          (pendingSolo ops c).currentSoloIdx = c.currentSoloIdx ∧
          (pendingSolo ops c).currentSoloSide = c.currentSoloSide) := by
  refine ⟨?_, ?_, ?_⟩
  · intro h
    unfold updateSolo
    rw [h]
    exact ⟨rfl, rfl, rfl, rfl, rfl⟩
  · intro h
    unfold updateSolo
    rw [h]
    refine ⟨rfl, rfl, ?_⟩
    rcases Bool.eq_false_or_eq_true c.soloSide with hs | hs
    · simp only [hs]
      rfl
    · simp only [hs]
      rfl
  · intro h1 h2
    unfold pendingSolo updateSolo
    rw [h1, h2]
    exact ⟨rfl, rfl, rfl, rfl, rfl, rfl⟩

/-- Witness for C23: with solo of the side filter of band 2 current, `updateSolo` remembers
band 2; with solo off it raises the rest flag of the solo filter. -/
theorem updateSolo_effect_witness :
    (updateSolo rationalOps soloController).currentSoloIdx = 2 ∧
      (updateSolo rationalOps learningController).soloFilter.toRest = true :=
  ⟨((updateSolo_effect rationalOps soloController).2.1 rfl).1,
    ((updateSolo_effect rationalOps learningController).1 rfl).1⟩

end SoloStateClaims

section SubBufferClaims

variable {α : Type}

/-- C22: in the linear-phase structure `processSubBufferOnOff` runs `processLinear` and then
the output gain, nothing else; in every other structure it runs the static pre-gain, the
per-band dynamic processing, the parallel post-mix exactly when the structure is parallel, the
static post-gain, the phase-matched correction exactly when the structure is phase-matched,
the mixed-phase correction exactly when the structure is mixed-phase, in this order; the
output gain is the last stage in every structure. -/
theorem processSubBufferOnOff_order (isBypassed : Bool) (c : Controller α) :
    (c.currentFilterStructure = filterStructure.linear →
      processSubBufferOnOff isBypassed c
        = [SubBufferStage.processLinear isBypassed,
            SubBufferStage.outputGainProcess isBypassed]) ∧
      (c.currentFilterStructure ≠ filterStructure.linear →
        processSubBufferOnOff isBypassed c
          = [SubBufferStage.autoGainProcessPre, SubBufferStage.processDynamic isBypassed]
            ++ (if c.currentFilterStructure = filterStructure.parallel then
                [SubBufferStage.processParallelPost isBypassed] else [])
            ++ [SubBufferStage.autoGainProcessPost isBypassed]
            ++ (if c.currentFilterStructure = filterStructure.matched then
                [SubBufferStage.processPrototypeCorrection isBypassed] else [])
            ++ (if c.currentFilterStructure = filterStructure.mixed then
                [SubBufferStage.processMixedCorrection isBypassed] else [])
            ++ [SubBufferStage.outputGainProcess isBypassed]) ∧
      (processSubBufferOnOff isBypassed c).getLast?
        = some (SubBufferStage.outputGainProcess isBypassed) ∧
      (∀ b, SubBufferStage.processLinear b ∈ processSubBufferOnOff isBypassed c ↔
        c.currentFilterStructure = filterStructure.linear ∧ b = isBypassed) ∧
      (∀ b, SubBufferStage.processParallelPost b ∈ processSubBufferOnOff isBypassed c ↔
        c.currentFilterStructure = filterStructure.parallel ∧ b = isBypassed) ∧
      (∀ b, SubBufferStage.processPrototypeCorrection b ∈ processSubBufferOnOff isBypassed c ↔
        c.currentFilterStructure = filterStructure.matched ∧ b = isBypassed) ∧
      (∀ b, SubBufferStage.processMixedCorrection b ∈ processSubBufferOnOff isBypassed c ↔
        c.currentFilterStructure = filterStructure.mixed ∧ b = isBypassed) := by
  unfold processSubBufferOnOff
  cases c.currentFilterStructure <;> simp

/-- Witness for C22: with the phase-matched structure current the stages are the pre-gain, the
dynamic processing, the post-gain, the phase-matched correction and the output gain. -/
theorem processSubBufferOnOff_order_witness :
    processSubBufferOnOff false matchedController
      = [SubBufferStage.autoGainProcessPre, SubBufferStage.processDynamic false,
          SubBufferStage.autoGainProcessPost false,
          SubBufferStage.processPrototypeCorrection false,
          SubBufferStage.outputGainProcess false] :=
  ((processSubBufferOnOff_order false matchedController).2.1 (by decide)).trans rfl

end SubBufferClaims

section SoloRequestClaims

variable {α : Type}

/-- C29: `clearSolo (idx, isSide)` returns the state unchanged when `idx` or `isSide` differs
from the requested solo band or side flag; when both match it clears `useSolo` and raises
`toUpdateSolo`, and writes nothing else. After `setSolo (i, s)`, a `clearSolo (idx, isSide)`
with a different pair leaves the request for band `i` on side `s` in place. -/
theorem clearSolo_effect (c : Controller α) (idx : Nat) (isSide : Bool) :
    (idx ≠ c.soloIdx ∨ isSide ≠ c.soloSide → clearSolo c idx isSide = c) ∧
      (idx = c.soloIdx → isSide = c.soloSide →
        clearSolo c idx isSide = { c with useSolo := false, toUpdateSolo := true }) ∧
      (∀ i s, idx ≠ i ∨ isSide ≠ s →
        clearSolo (setSolo c i s) idx isSide = setSolo c i s ∧
          (clearSolo (setSolo c i s) idx isSide).useSolo = true ∧
          (clearSolo (setSolo c i s) idx isSide).toUpdateSolo = true ∧
          (clearSolo (setSolo c i s) idx isSide).soloIdx = i ∧
          (clearSolo (setSolo c i s) idx isSide).soloSide = s) := by
  have key : ∀ d : Controller α, idx ≠ d.soloIdx ∨ isSide ≠ d.soloSide →
      clearSolo d idx isSide = d := by
    intro d h
    unfold clearSolo
    rw [if_neg]
    rintro ⟨h1, h2⟩
    rcases h with h | h
    · exact h h1
    · exact h h2
  refine ⟨key c, ?_, ?_⟩
  · intro h1 h2
    unfold clearSolo
    rw [if_pos ⟨h1, h2⟩]
  · intro i s h
    have e := key (setSolo c i s) h
    rw [e]
    exact ⟨rfl, rfl, rfl, rfl, rfl⟩

/-- Witness for C29: after `setSolo (2, true)`, `clearSolo (2, false)` differs in the side
flag and leaves the side filter of band 2 requested; the same state with solo of band 2, side,
requested is unchanged by `clearSolo (5, true)`. -/
theorem clearSolo_effect_witness :
    (clearSolo (setSolo learningController 2 true) 2 false).useSolo = true ∧
      clearSolo soloController 5 true = soloController :=
  ⟨(((clearSolo_effect learningController 2 false).2.2 2 true (Or.inr (by decide))).2).1,
    (clearSolo_effect soloController 5 true).1 (Or.inl (by decide))⟩

end SoloRequestClaims

section ThresholdLemmas

variable {α : Type}

/-- The list that `updateDynamicONs` builds: the bands below `bandNUM` whose dynamic filter is
switched on, in increasing order. -/
theorem updateDynamicONs_indices (c : Controller α) :
    (updateDynamicONs c).dynamicONIndices
      = (List.range c.bandNUM).filter (fun i => (c.filters i).dynamicON) := by
  unfold updateDynamicONs
  have key : ∀ (l : List Nat) (s : Controller α),
      (l.foldl (fun s i => if (s.filters i).dynamicON then
        { s with dynamicONIndices := s.dynamicONIndices ++ [i] } else s) s).dynamicONIndices
        = s.dynamicONIndices ++ l.filter (fun i => (s.filters i).dynamicON) ∧
      (l.foldl (fun s i => if (s.filters i).dynamicON then
        { s with dynamicONIndices := s.dynamicONIndices ++ [i] } else s) s).filters
        = s.filters := by
    intro l
    induction l with
    | nil => intro s; simp
    | cons i l ih =>
      intro s
      rw [List.foldl_cons]
      by_cases h : (s.filters i).dynamicON = true
      · rw [if_pos h]
        obtain ⟨i1, i2⟩ := ih { s with dynamicONIndices := s.dynamicONIndices ++ [i] }
        rw [i1, i2]
        simp [List.filter_cons, h]
      · rw [if_neg h]
        obtain ⟨i1, i2⟩ := ih s
        rw [i1, i2]
        simp [List.filter_cons, h]
  exact ((key (List.range c.bandNUM) { c with dynamicONIndices := [] }).1).trans (by simp)

theorem thresholdsSet_append (l1 l2 : List (Call α)) :
    thresholdsSet (l1 ++ l2) = thresholdsSet l1 ++ thresholdsSet l2 := by
  unfold thresholdsSet
  exact List.filterMap_append _ _ _

theorem thresholdsSet_eq_nil (l : List (Call α))
    (h : ∀ i v, Call.setThreshold i v ∉ l) : thresholdsSet l = [] := by
  unfold thresholdsSet
  rw [List.filterMap_eq_nil_iff]
  intro x hx
  cases x with
  | setThreshold i v => exact absurd hx (h i v)
  | _ => rfl

theorem thresholdsSet_setAutoThresholds [LinearOrderedField α] (c : Controller α)
    (r : Readings α) :
    thresholdsSet (setAutoThresholds false c r)
      = c.dynamicONIndices.map (fun i => (i,
          if c.isHistON i = true then
            c.currentThreshold i + 40 + r.snapToLegalValue (-(r.percentile i))
          else c.currentThreshold i)) := by
  unfold setAutoThresholds thresholdsSet
  simp only [Bool.not_false, if_true]
  induction c.dynamicONIndices with
  | nil => rfl
  | cons i l ih =>
    rw [List.map_cons, List.map_cons, List.filterMap_cons, ih]
    split_ifs <;> rfl

/-- The method `processDynamicLRMS` hands no threshold to a knee computer. -/
theorem setThreshold_not_mem_processDynamicLRMS [LinearOrderedField α] (isBypassed : Bool)
    (c : Controller α) (r : Readings α) (lrIdx i : Nat) (v : α) :
    Call.setThreshold i v ∉ processDynamicLRMS isBypassed c r lrIdx := by
  unfold processDynamicLRMS processDynamicBand
  simp only [List.mem_append, List.mem_flatMap, not_or]
  refine ⟨⟨?_, ?_⟩, ?_⟩
  · split_ifs <;> simp
  · simp
  · split_ifs <;> simp

/-- The calls of `processDynamic` start with those of lines 303-316, and no later call sets a
threshold. -/
theorem processDynamic_split [LinearOrderedField α] (isBypassed : Bool) (c : Controller α)
    (r : Readings α) :
    ∃ rest, (processDynamic isBypassed c r).2 = setAutoThresholds isBypassed c r ++ rest ∧
      ∀ i v, Call.setThreshold i v ∉ rest := by
  rw [processDynamic_calls]
  simp only [List.append_assoc]
  refine ⟨_, rfl, ?_⟩
  intro i v
  have h := setThreshold_not_mem_processDynamicLRMS isBypassed c r
  simp only [List.mem_append, not_or]
  refine ⟨h 0 i v, ?_, ?_, ?_⟩
  · split_ifs
    · simp [h 1 i v, h 2 i v]
    · simp
  · split_ifs
    · simp [h 3 i v, h 4 i v]
    · simp
  · split_ifs
    · simp
    · simp only [List.mem_flatMap, not_exists, not_and]
      intro j _
      unfold histogramCalls
      split_ifs <;> simp

end ThresholdLemmas

section ThresholdClaims

variable {α : Type}

/-- C21: with the effect not bypassed, `processDynamic` hands exactly one threshold to the knee
computer of each dynamics-enabled band, in the order of `dynamicONIndices`: the configured
threshold `currentThreshold[i]` when learning is off, and
`currentThreshold[i] + 40 + snapToLegalValue (-p50)` when learning is on, `p50` being the
reading `subHistograms[i].getPercentile (0.5)`; no other band receives a threshold, and with
the effect bypassed none is set. The dynamics-enabled bands are those that `updateDynamicONs`
lists: the bands below `bandNUM` whose dynamic filter is on. -/
theorem processDynamic_thresholds [LinearOrderedField α] (c : Controller α) (r : Readings α) :
    thresholdsSet (processDynamic false c r).2
        = c.dynamicONIndices.map (fun i => (i,
            if c.isHistON i = true then
              c.currentThreshold i + 40 + r.snapToLegalValue (-(r.percentile i))
            else c.currentThreshold i)) ∧
      (∀ i, i ∈ c.dynamicONIndices → c.isHistON i = false →
        Call.setThreshold i (c.currentThreshold i) ∈ (processDynamic false c r).2) ∧
      (∀ i, i ∈ c.dynamicONIndices → c.isHistON i = true →
        Call.setThreshold i
          (c.currentThreshold i + 40 + r.snapToLegalValue (-(r.percentile i)))
          ∈ (processDynamic false c r).2) ∧
      (∀ i v, Call.setThreshold i v ∈ (processDynamic false c r).2 → i ∈ c.dynamicONIndices) ∧
      thresholdsSet (processDynamic true c r).2 = [] ∧
      (∀ i, i ∈ (updateDynamicONs c).dynamicONIndices ↔
        i < c.bandNUM ∧ (c.filters i).dynamicON = true) := by
  obtain ⟨rest, h1, h2⟩ := processDynamic_split false c r
  obtain ⟨rest', h3, h4⟩ := processDynamic_split true c r
  have e : thresholdsSet (processDynamic false c r).2
        = c.dynamicONIndices.map (fun i => (i,
            if c.isHistON i = true then
              c.currentThreshold i + 40 + r.snapToLegalValue (-(r.percentile i))
            else c.currentThreshold i)) := by
    rw [h1, thresholdsSet_append, thresholdsSet_eq_nil rest h2, List.append_nil,
      thresholdsSet_setAutoThresholds]
  have m : ∀ i v, Call.setThreshold i v ∈ (processDynamic false c r).2 ↔
      (i, v) ∈ thresholdsSet (processDynamic false c r).2 := by
    intro i v
    unfold thresholdsSet
    rw [List.mem_filterMap]
    constructor
    · intro h
      exact ⟨_, h, rfl⟩
    · rintro ⟨x, hx, hv⟩
      cases x <;> simp at hv
      obtain ⟨rfl, rfl⟩ := hv
      exact hx
  refine ⟨e, ?_, ?_, ?_, ?_, ?_⟩
  · intro i hi hh
    rw [m, e, List.mem_map]
    exact ⟨i, hi, by simp [hh]⟩
  · intro i hi hh
    rw [m, e, List.mem_map]
    exact ⟨i, hi, by simp [hh]⟩
  · intro i v h
    rw [m, e, List.mem_map] at h
    obtain ⟨j, hj, hjv⟩ := h
    simp only [Prod.mk.injEq] at hjv
    rw [← hjv.1]
    exact hj
  · rw [h3, thresholdsSet_append, thresholdsSet_eq_nil rest' h4, List.append_nil]
    rfl
  · intro i
    rw [updateDynamicONs_indices]
    simp [List.mem_filter]

/-- Witness for C21: band 0 is learning with configured threshold -20 and median bucket 40; the
threshold handed over is `-20 + 40 + (-40)`. -/
theorem processDynamic_thresholds_witness :
    Call.setThreshold 0 (-20 + 40 + (-40 : ℚ))
      ∈ (processDynamic false learningController scenarioReadings).2 :=
  (processDynamic_thresholds learningController scenarioReadings).2.2.1 0 (by decide) rfl

/-- Every bucket that `processDynamic` pushes comes from the last loop: it is the clamped,
rounded difference of a learning band whose difference is at most 100. -/
theorem bucketsPushed_subset [LinearOrderedField α] (isBypassed : Bool) (c : Controller α)
    (r : Readings α) (idx : Nat)
    (h : idx ∈ bucketsPushed (processDynamic isBypassed c r).2) :
    ∃ i, c.isHistON i = true ∧ r.baseLine i - r.momentaryLoudness i ≤ 100 ∧
      idx = (zlCompressor.jlimit 0 79
        (r.roundToInt (r.baseLine i - r.momentaryLoudness i))).toNat := by
  unfold bucketsPushed at h
  rw [List.mem_filterMap] at h
  obtain ⟨x, hx, hv⟩ := h
  rw [processDynamic_calls] at hx
  simp only [List.mem_append] at hx
  have lrms : ∀ lrIdx, x ∈ processDynamicLRMS isBypassed c r lrIdx → False := by
    intro lrIdx hm
    unfold processDynamicLRMS processDynamicBand at hm
    simp only [List.mem_append, List.mem_flatMap] at hm
    rcases hm with (hm | ⟨j, _, hm⟩) | hm
    · split_ifs at hm <;> simp at hm
      subst hm; simp at hv
    · simp at hm
      rcases hm with hm | hm <;> subst hm <;> simp at hv
    · split_ifs at hm <;> simp at hm
      subst hm; simp at hv
  rcases hx with (((hx | hx) | hx) | hx) | hx
  · unfold setAutoThresholds at hx
    split_ifs at hx
    · rw [List.mem_map] at hx
      obtain ⟨j, _, hj⟩ := hx
      split_ifs at hj <;> subst hj <;> simp at hv
    · simp at hx
  · exact absurd hx (lrms 0)
  · split_ifs at hx
    · simp only [List.mem_append, List.mem_cons, List.mem_singleton, List.not_mem_nil,
        or_false] at hx
      rcases hx with ((hx | hx) | hx) | hx
      · rcases hx with hx | hx <;> subst hx <;> simp at hv
      · exact absurd hx (lrms 1)
      · exact absurd hx (lrms 2)
      · subst hx; simp at hv
    · simp at hx
  · split_ifs at hx
    · simp only [List.mem_append, List.mem_cons, List.mem_singleton, List.not_mem_nil,
        or_false] at hx
      rcases hx with ((hx | hx) | hx) | hx
      · rcases hx with hx | hx <;> subst hx <;> simp at hv
      · exact absurd hx (lrms 3)
      · exact absurd hx (lrms 4)
      · subst hx; simp at hv
    · simp at hx
  · split_ifs at hx
    · simp at hx
    · rw [List.mem_flatMap] at hx
      obtain ⟨i, _, hi⟩ := hx
      split_ifs at hi with hon
      · unfold histogramCalls at hi
        split_ifs at hi with hd
        · refine ⟨i, hon, hd, ?_⟩
          simp at hi
          rcases hi with hi | hi <;> subst hi <;> simp at hv <;> exact hv.symm
        · simp at hi
      · simp at hi

/-- The clamp `jlimit (0, 79, n)` of an `int` lies in `0..79`. -/
theorem jlimit_bucket (n : Int) :
    0 ≤ zlCompressor.jlimit 0 79 n ∧ zlCompressor.jlimit 0 79 n ≤ 79 := by
  unfold zlCompressor.jlimit
  split_ifs <;> omega

/-- C28: the `int` value `histIdx = jlimit (0, 79, roundToInt (diff))` lies in `0..79` for
every `diff`, so that its conversion to `size_t` keeps it; every bucket index that
`histogramCalls` pushes is this value, and every bucket index that `processDynamic` pushes
into a histogram or a fast-decay histogram is at most 79. -/
theorem pushed_bucket_in_range [LinearOrderedField α] (isBypassed : Bool) (c : Controller α)
    (r : Readings α) :
    (∀ diff : α, 0 ≤ zlCompressor.jlimit 0 79 (r.roundToInt diff) ∧
        zlCompressor.jlimit 0 79 (r.roundToInt diff) ≤ 79) ∧
      (∀ (i : Nat) (diff : α), ∀ idx ∈ bucketsPushed (histogramCalls r.roundToInt i diff),
        (idx : Int) = zlCompressor.jlimit 0 79 (r.roundToInt diff) ∧ idx ≤ 79) ∧
      (∀ idx ∈ bucketsPushed (processDynamic isBypassed c r).2, idx ≤ 79) ∧
      (∀ i idx, Call.histogramPush i idx ∈ (processDynamic isBypassed c r).2 → idx ≤ 79) ∧
      (∀ i idx, Call.subHistogramPush i idx ∈ (processDynamic isBypassed c r).2 →
        idx ≤ 79) := by
  have hb : ∀ n : Int, (zlCompressor.jlimit 0 79 n).toNat ≤ 79 := by
    intro n
    have := jlimit_bucket n
    omega
  have hall : ∀ idx ∈ bucketsPushed (processDynamic isBypassed c r).2, idx ≤ 79 := by
    intro idx h
    obtain ⟨i, _, _, e⟩ := bucketsPushed_subset isBypassed c r idx h
    rw [e]
    exact hb _
  refine ⟨fun diff => jlimit_bucket _, ?_, hall, ?_, ?_⟩
  · intro i diff idx h
    unfold histogramCalls bucketsPushed at h
    split_ifs at h
    · simp at h
      subst h
      have := jlimit_bucket (r.roundToInt diff)
      refine ⟨Int.toNat_of_nonneg this.1, hb _⟩
    · simp at h
  · intro i idx h
    apply hall
    unfold bucketsPushed
    rw [List.mem_filterMap]
    exact ⟨_, h, rfl⟩
  · intro i idx h
    apply hall
    unfold bucketsPushed
    rw [List.mem_filterMap]
    exact ⟨_, h, rfl⟩

/-- Witness for C28: with baseline 0 dB and momentary loudness -30 dB the learning band 0
pushes bucket 30. -/
theorem pushed_bucket_in_range_witness :
    Call.histogramPush 0 30 ∈ (processDynamic false learningController scenarioReadings).2 ∧
      30 ≤ 79 :=
  have h : Call.histogramPush 0 30
      ∈ (processDynamic false learningController scenarioReadings).2 := by
    simp [processDynamic, setAutoThresholds, processDynamicLRMS, processDynamicBand,
      updateMainAndHistogram, histogramCalls, learningController, scenarioController,
      scenarioReadings, zlCompressor.jlimit]
    norm_num
  ⟨h, (pushed_bucket_in_range false learningController scenarioReadings).2.2.2.1 0 30 h⟩

end ThresholdClaims

section CompensationClaims

variable {α : Type}

/-- The loop of `currentSgc`, started from any value: that value times the product of the
gains of the bands of the list that are not bypassed. -/
theorem foldl_sgc_eq [CommMonoid α] (bypass : Nat → Bool) (g : Nat → α) (l : List Nat) :
    ∀ a : α, l.foldl (fun acc i => if !bypass i then acc * g i else acc) a
      = a * ((l.filter (fun i => !bypass i)).map g).prod := by
  induction l with
  | nil => intro a; simp
  | cons i l ih =>
    intro a
    rw [List.foldl_cons, ih]
    cases h : bypass i <;> simp [List.filter_cons, h, mul_assoc]

/-- C26: `updateSgcValues` sets the compensation gain of each of the five groups to the
product of `compensations[i].getGain ()` over the bands of the routing list of the group that
are not bypassed; a group whose list is empty, or holds bypassed bands only, gets exactly 1.
Lines 157-161 of `process` run it when compensation is on and an update is pending. -/
theorem updateSgcValues_product [LinearOrderedField α] (c : Controller α) :
    (∀ lr, lr < 5 → (updateSgcValues c).compensationGains lr
        = (((c.filterLRIndices lr).filter (fun i => !c.currentIsBypass i)).map
            c.compensations).prod) ∧
      (∀ lr, lr < 5 → c.filterLRIndices lr = [] →
        (updateSgcValues c).compensationGains lr = 1) ∧
      (∀ lr, lr < 5 → (∀ i ∈ c.filterLRIndices lr, c.currentIsBypass i = true) →
        (updateSgcValues c).compensationGains lr = 1) ∧
      (c.currentIsSgcON = true → c.toUpdateSgc = true → ∀ lr, lr < 5 →
        (pendingSgc c).compensationGains lr
          = (((c.filterLRIndices lr).filter (fun i => !c.currentIsBypass i)).map
              c.compensations).prod) := by
  have key : ∀ lr, lr < 5 → (updateSgcValues c).compensationGains lr
      = (((c.filterLRIndices lr).filter (fun i => !c.currentIsBypass i)).map
          c.compensations).prod := by
    intro lr hlr
    unfold updateSgcValues currentSgc
    simp only [hlr, if_true]
    rw [foldl_sgc_eq, one_mul]
  refine ⟨key, ?_, ?_, ?_⟩
  · intro lr hlr he
    rw [key lr hlr, he]
    rfl
  · intro lr hlr hb
    rw [key lr hlr]
    have : (c.filterLRIndices lr).filter (fun i => !c.currentIsBypass i) = [] := by
      rw [List.filter_eq_nil_iff]
      intro i hi
      simp [hb i hi]
    rw [this]
    rfl
  · intro h1 h2 lr hlr
    unfold pendingSgc
    rw [if_pos h1, if_pos h2]
    exact key lr hlr

/-- Witness for C26: the stereo list holds bands 0, 1, 2 with gains 2, 3, 4 and band 1 is
bypassed, so the stereo compensation gain is 2 * 4; the list of the left group is empty and
its gain is 1. -/
theorem updateSgcValues_product_witness :
    (updateSgcValues compensatedController).compensationGains 0 = 8 ∧
      (updateSgcValues compensatedController).compensationGains 1 = 1 :=
  ⟨((updateSgcValues_product compensatedController).1 0 (by decide)).trans
      (by norm_num [compensatedController, List.filter_cons]),
    (updateSgcValues_product compensatedController).2.1 1 (by decide) rfl⟩

end CompensationClaims

section TrackerLemmas

variable {α : Type}

theorem sameTrackerState_refl (c : Controller α) : sameTrackerState c c :=
  ⟨rfl, rfl, rfl⟩

theorem sameTrackerState_trans {c d e : Controller α} (h1 : sameTrackerState c d)
    (h2 : sameTrackerState d e) : sameTrackerState c e :=
  ⟨h2.1.trans h1.1, h2.2.1.trans h1.2.1, h2.2.2.trans h1.2.2⟩

/-- The tracker invariant is a property of the tracker flags, the routing lists and the
relative flags alone. -/
theorem trackerInvariant_of_same {c d : Controller α} (h : sameTrackerState c d)
    (hc : trackerInvariant c) : trackerInvariant d := by
  intro g hg
  rw [h.1, h.2.1, h.2.2]
  exact hc g hg

/-- The method `updateTrackersON` establishes the tracker invariant. -/
theorem trackerInvariant_updateTrackersON (c : Controller α) :
    trackerInvariant (updateTrackersON c) := by
  intro g hg
  unfold updateTrackersON
  simp only [hg, if_true, List.any_eq_true]

theorem updateCorrections_tracker (c : Controller α) :
    sameTrackerState c (updateCorrections c) := by
  unfold updateCorrections
  split_ifs <;> exact ⟨rfl, rfl, rfl⟩

theorem pendingFilterStructure_tracker (c : Controller α) :
    sameTrackerState c (pendingFilterStructure c) := by
  unfold pendingFilterStructure updateFilterStructure
  split_ifs
  · simp only []
    cases c.mFilterStructure <;> exact ⟨rfl, rfl, rfl⟩
  · exact ⟨rfl, rfl, rfl⟩

theorem pendingDynamicON_tracker (c : Controller α) :
    sameTrackerState c (pendingDynamicON c) := by
  unfold pendingDynamicON
  split_ifs
  · obtain ⟨L, hL⟩ := updateDynamicONs_eq { c with toUpdateDynamicON := false }
    rw [hL]
    exact ⟨rfl, rfl, rfl⟩
  · exact ⟨rfl, rfl, rfl⟩

/-- Lines 134-139 of `process`: a pending routing update ends with the tracker invariant
established; without one the state is returned as it is. -/
theorem pendingLRs_tracker [Field α] (c : Controller α) :
    (c.toUpdateLRs = true → trackerInvariant (pendingLRs c)) ∧
      (c.toUpdateLRs = false → pendingLRs c = c) := by
  unfold pendingLRs
  constructor
  · intro h
    rw [if_pos h]
    have t := trackerInvariant_of_same
      (updateCorrections_tracker (updateTrackersON (updateLRs { c with toUpdateLRs := false })))
      (trackerInvariant_updateTrackersON _)
    exact trackerInvariant_of_same ⟨rfl, rfl, rfl⟩ t
  · intro h
    rw [if_neg (by simp [h])]

theorem pendingBypass_tracker (c : Controller α) : sameTrackerState c (pendingBypass c) := by
  unfold pendingBypass
  split_ifs
  · obtain ⟨b1, b2, b3⟩ := updateCorrections_tracker { c with
      toUpdateBypass := false
      currentIsBypass := fun i => if i < c.bandNUM then c.isBypass i else c.currentIsBypass i }
    exact ⟨b1, b2, b3⟩
  · exact ⟨rfl, rfl, rfl⟩

theorem pendingSgcON_tracker [One α] (c : Controller α) :
    sameTrackerState c (pendingSgcON c) := by
  unfold pendingSgcON
  by_cases h : c.currentIsSgcON ≠ c.isSgcON
  · rw [if_pos h]
    cases c.isSgcON <;> exact ⟨rfl, rfl, rfl⟩
  · rw [if_neg h]
    exact ⟨rfl, rfl, rfl⟩

theorem pendingSgc_tracker [Mul α] [One α] (c : Controller α) :
    sameTrackerState c (pendingSgc c) := by
  unfold pendingSgc
  split_ifs <;> exact ⟨rfl, rfl, rfl⟩

theorem pendingSolo_tracker [LinearOrderedField α] (ops : FloatOps α) (c : Controller α) :
    sameTrackerState c (pendingSolo ops c) := by
  unfold pendingSolo updateSolo
  split_ifs <;> exact ⟨rfl, rfl, rfl⟩

/-- The control section of `process` either recomputes the routing and ends with the
tracker invariant established, or keeps the tracker flags, the routing lists and the relative
flags. -/
theorem process_tracker [LinearOrderedField α] (ops : FloatOps α) (c : Controller α) :
    (c.mFilterStructure ≠ c.currentFilterStructure ∨ c.toUpdateLRs = true →
        trackerInvariant (process ops c)) ∧
      (c.mFilterStructure = c.currentFilterStructure → c.toUpdateLRs = false →
        sameTrackerState c (process ops c)) := by
  obtain ⟨_, _, _, _, a5, a6⟩ := pendingFilterStructure_spec c
  obtain ⟨_, b5⟩ := pendingDynamicON_spec (pendingFilterStructure c)
  obtain ⟨d1, d2⟩ := pendingLRs_tracker (pendingDynamicON (pendingFilterStructure c))
  have front := sameTrackerState_trans (pendingFilterStructure_tracker c)
    (pendingDynamicON_tracker (pendingFilterStructure c))
  have tail := sameTrackerState_trans (sameTrackerState_trans (sameTrackerState_trans
    (pendingBypass_tracker (pendingLRs (pendingDynamicON (pendingFilterStructure c))))
    (pendingSgcON_tracker _)) (pendingSgc_tracker _)) (pendingSolo_tracker ops _)
  have last : sameTrackerState
      (pendingSolo ops (pendingSgc (pendingSgcON (pendingBypass (pendingLRs
        (pendingDynamicON (pendingFilterStructure c))))))) (process ops c) := ⟨rfl, rfl, rfl⟩
  constructor
  · intro h
    exact trackerInvariant_of_same (sameTrackerState_trans tail last) (d1 (b5.trans (a5 h)))
  · intro h1 h2
    have e := d2 (b5.trans (by rw [a6 h1]; exact h2))
    have mid : sameTrackerState (pendingDynamicON (pendingFilterStructure c))
        (pendingLRs (pendingDynamicON (pendingFilterStructure c))) := by
      rw [e]
      exact sameTrackerState_refl _
    exact sameTrackerState_trans (sameTrackerState_trans front mid)
      (sameTrackerState_trans tail last)

end TrackerLemmas

section TrackerClaims

variable {α : Type}

/-- C27: `updateTrackersON` leaves, for each of the five routing groups, the tracker flag of
the group true exactly when some band of the routing list of the group is flagged relative;
so does `setRelative`, which ends with it; the control section of `process` establishes this
whenever it recomputes the routing and keeps it otherwise. In a state where it holds,
`processDynamicLRMS` for a group with a relative band first runs the tracker of the group and
hands that band the baseline read from it (the momentary loudness, or `minusInfinityDB * 0.5`
at silence), and for a group without a relative band it does not run the tracker. -/
theorem tracker_invariant [LinearOrderedField α] (ops : FloatOps α) (c : Controller α) :
    trackerInvariant (updateTrackersON c) ∧
      (∀ idx isRelative, trackerInvariant (setRelative c idx isRelative)) ∧
      (c.mFilterStructure ≠ c.currentFilterStructure ∨ c.toUpdateLRs = true →
        trackerInvariant (process ops c)) ∧
      (trackerInvariant c → trackerInvariant (process ops c)) ∧
      (trackerInvariant c → ∀ (isBypassed : Bool) (r : Readings α) (g : Nat), g < 5 →
        (∀ i ∈ c.filterLRIndices g, c.dynRelatives i = true →
          (∃ rest, processDynamicLRMS isBypassed c r g = Call.trackerProcess g :: rest) ∧
            Call.setBaseLine i
              (if r.groupLoudness g ≤ r.minusInfinityDB + 1 then r.minusInfinityDB * (1 / 2)
                else r.groupLoudness g) ∈ processDynamicLRMS isBypassed c r g) ∧
          ((∀ i ∈ c.filterLRIndices g, c.dynRelatives i = false) →
            Call.trackerProcess g ∉ processDynamicLRMS isBypassed c r g)) := by
  obtain ⟨p1, p2⟩ := process_tracker ops c
  refine ⟨trackerInvariant_updateTrackersON c, ?_, p1, ?_, ?_⟩
  · intro idx isRelative
    exact trackerInvariant_updateTrackersON _
  · intro hc
    by_cases h : c.mFilterStructure ≠ c.currentFilterStructure ∨ c.toUpdateLRs = true
    · exact p1 h
    · rw [not_or, not_not, Bool.not_eq_true] at h
      exact trackerInvariant_of_same (p2 h.1 h.2) hc
  · intro hc isBypassed r g hg
    constructor
    · intro i hi hrel
      have hon : c.useTrackers g = true := (hc g hg).mpr ⟨i, hi, hrel⟩
      unfold processDynamicLRMS groupBaseLine processDynamicBand
      simp only [hon, if_true]
      refine ⟨⟨_, rfl⟩, ?_⟩
      simp only [List.mem_append, List.mem_flatMap, List.singleton_append, List.mem_cons]
      left
      right
      exact ⟨i, hi, by simp [hrel]⟩
    · intro hnone
      have hoff : c.useTrackers g = false := by
        rw [← Bool.not_eq_true]
        intro hon
        obtain ⟨i, hi, hrel⟩ := (hc g hg).mp hon
        rw [hnone i hi] at hrel
        exact absurd hrel (by decide)
      unfold processDynamicLRMS processDynamicBand
      simp [hoff]

/-- Witness for C27: in the one-band state with band 0 relative and the stereo tracker on, the
invariant holds and band 0 receives the group loudness -30 dB as its baseline. -/
theorem tracker_invariant_witness :
    trackerInvariant relativeController ∧
      Call.setBaseLine 0 (-30 : ℚ)
        ∈ processDynamicLRMS false relativeController scenarioReadings 0 := by
  have hinv : trackerInvariant relativeController := by
    unfold trackerInvariant
    decide
  have h := ((tracker_invariant rationalOps relativeController).2.2.2.2 hinv false
    scenarioReadings 0 (by decide)).1 0 (by decide) rfl
  have e : (if scenarioReadings.groupLoudness 0 ≤ scenarioReadings.minusInfinityDB + 1 then
      scenarioReadings.minusInfinityDB * (1 / 2) else scenarioReadings.groupLoudness 0)
      = (-30 : ℚ) := by
    norm_num [scenarioReadings]
  rw [e] at h
  exact ⟨hinv, h.2⟩

end TrackerClaims

section ChunkLemmas

/-- The number of sub-buffers still to come when the loop stands at `start`. -/
theorem chunkCount_step {S N start : Nat} (hS : 1 ≤ S) (h : start < N) :
    (N - start + S - 1) / S = (N - (start + S) + S - 1) / S + 1 := by
  rcases Nat.lt_or_ge N (start + S) with h1 | h1
  · have e1 : (N - (start + S) + S - 1) / S = 0 := Nat.div_eq_of_lt (by omega)
    have e2 : (N - start + S - 1) / S = 1 :=
      Nat.div_eq_of_lt_le (by omega) (by omega)
    rw [e1, e2]
  · have e : N - start + S - 1 = (N - (start + S) + S - 1) + S := by omega
    rw [e, Nat.add_div_right _ (by omega)]

/-- Once the loop stands at or past `N`, no sub-buffer is left. -/
theorem chunkCount_done {S N start : Nat} (hS : 1 ≤ S) (h : N ≤ start) :
    (N - start + S - 1) / S = 0 := Nat.div_eq_of_lt (by omega)

/-- With a positive sub-buffer size, no `int` overflow and enough iterations, the loop started
at `start` returns the sub-buffers that begin at `start`, `start + S`, ... below `N`. -/
theorem chunkLoop_eq {S N : Nat} (hS : 1 ≤ S) (hN : N + S ≤ 2 ^ 31) :
    ∀ fuel start, (N - start + S - 1) / S < fuel →
      chunkLoop S N fuel start
        = some ((List.range' start ((N - start + S - 1) / S) S).map
            (fun s => (s, min S (N - s)))) := by
  intro fuel
  induction fuel with
  | zero => intro start h; exact absurd h (Nat.not_lt_zero _)
  | succ fuel ih =>
    intro start h
    unfold chunkLoop
    by_cases hlt : start < N
    · rw [if_pos hlt]
      simp only []
      rw [if_pos (by omega)]
      have hc := chunkCount_step hS hlt
      rw [ih (start + S) (by omega), hc, List.range'_succ]
      rfl
    · rw [if_neg hlt, chunkCount_done hS (by omega)]
      rfl

/-- The stepped range `a, a + S, ...` of length `n` lists `a + k * S` for `k` below `n`. -/
theorem steppedRange_eq_map (S : Nat) : ∀ n a,
    List.range' a n S = (List.range n).map (fun k => a + k * S) := by
  intro n
  induction n with
  | zero => intro a; rfl
  | succ n ih =>
    intro a
    rw [List.range'_succ, ih, List.range_succ_eq_map, List.map_cons, List.map_map]
    congr 1
    · simp
    · apply List.map_congr_left
      intro k _
      simp only [Function.comp, Nat.succ_eq_add_one]
      ring

/-- Started at or past `N`, the loop makes no call. -/
theorem chunkLoop_done {S N : Nat} : ∀ fuel start rest, N ≤ start →
    chunkLoop S N fuel start = some rest → rest = [] := by
  intro fuel start rest h hr
  cases fuel with
  | zero => simp [chunkLoop] at hr
  | succ fuel =>
    unfold chunkLoop at hr
    rw [if_neg (by omega)] at hr
    exact (Option.some.inj hr).symm

/-- Whatever the loop returns covers the samples from `start` up to `N`, each once and in
order. -/
theorem chunkSamples_chunkLoop {S N : Nat} :
    ∀ fuel start chunks, start ≤ N → chunkLoop S N fuel start = some chunks →
      chunkSamples chunks = List.range' start (N - start) := by
  intro fuel
  induction fuel with
  | zero => intro start chunks _ h; simp [chunkLoop] at h
  | succ fuel ih =>
    intro start chunks hle h
    unfold chunkLoop at h
    by_cases hlt : start < N
    · rw [if_pos hlt] at h
      simp only [] at h
      by_cases hov : start + S < 2 ^ 31
      · rw [if_pos hov] at h
        rw [Option.map_eq_some'] at h
        obtain ⟨rest, hrest, hch⟩ := h
        subst hch
        unfold chunkSamples
        rw [List.flatMap_cons]
        rcases Nat.lt_or_ge N (start + S) with h1 | h1
        · have e := chunkLoop_done fuel (start + S) rest (by omega) hrest
          subst e
          rw [Nat.min_eq_right (by omega)]
          simp
        · have e := ih (start + S) rest h1 hrest
          unfold chunkSamples at e
          rw [e, Nat.min_eq_left (by omega)]
          simp only []
          rw [List.range'_append_1]
          congr 1
          omega
      · rw [if_neg hov] at h
        exact absurd h (by simp)
    · rw [if_neg hlt] at h
      have e := (Option.some.inj h).symm
      subst e
      have : N - start = 0 := by omega
      rw [this]
      rfl

/-- The count `(N + S - 1) / S` is the least `q` with `N <= q * S`. -/
theorem chunkCount_bounds {S N : Nat} (hS : 1 ≤ S) :
    N ≤ (N + S - 1) / S * S ∧ ∀ k, k < (N + S - 1) / S → k * S < N := by
  have h1 : (N + S - 1) / S * S ≤ N + S - 1 := Nat.div_mul_le_self _ _
  have h2 : N + S - 1 < ((N + S - 1) / S + 1) * S := by
    rw [Nat.mul_comm]
    exact Nat.lt_mul_div_succ _ (by omega)
  constructor
  · rw [Nat.add_mul, Nat.one_mul] at h2
    omega
  · intro k hk
    have h3 : (k + 1) * S ≤ (N + S - 1) / S * S := Nat.mul_le_mul_right S hk
    rw [Nat.add_mul, Nat.one_mul] at h3
    omega

/-- The count `(N + S - 1) / S` is the ceiling of the quotient `N / S`. -/
theorem chunkCount_eq_ceil {S N : Nat} (hS : 1 ≤ S) :
    (N + S - 1) / S = ⌈(N : ℚ) / S⌉₊ := by
  obtain ⟨h1, h2⟩ := chunkCount_bounds (N := N) hS
  have hS0 : (0 : ℚ) < S := by exact_mod_cast hS
  apply le_antisymm
  · rcases Nat.eq_zero_or_pos ((N + S - 1) / S) with h0 | h0
    · rw [h0]; exact Nat.zero_le _
    · have hk := h2 ((N + S - 1) / S - 1) (by omega)
      have : (N + S - 1) / S - 1 < ⌈(N : ℚ) / S⌉₊ := by
        rw [Nat.lt_ceil, lt_div_iff₀ hS0]
        exact_mod_cast hk
      omega
  · rw [Nat.ceil_le, div_le_iff₀ hS0]
    exact_mod_cast h1

end ChunkLemmas

section ChunkClaims

/-- C25: for a sub-buffer size `S >= 1` and a buffer of `N >= 0` samples, with `N + S` within
the range of the `int` loop counter, the zero-latency chunking loop of `process` ends: given
more than `ceil (N / S)` iterations it returns, and the calls of `processSubBuffer` it made
are on the ranges `[k * S, min ((k + 1) * S, N))` for `k = 0, 1, ..., ceil (N / S) - 1`, in
order. Each range holds between 1 and `S` samples, there are `ceil (N / S)` of them, and
put end to end they are the samples `0, 1, ..., N - 1`, each once. -/
theorem chunkLoop_covers (S N : Nat) (hS : 1 ≤ S) (hN : N + S ≤ 2 ^ 31) :
    ∃ chunks,
      (∀ fuel, (N + S - 1) / S < fuel → chunkLoop S N fuel 0 = some chunks) ∧
        chunks = (List.range ((N + S - 1) / S)).map (fun k => (k * S, min S (N - k * S))) ∧
        chunks.length = (N + S - 1) / S ∧
        (N + S - 1) / S = ⌈(N : ℚ) / S⌉₊ ∧
        (∀ ch ∈ chunks, 1 ≤ ch.2 ∧ ch.2 ≤ S ∧ ch.1 + ch.2 = min (ch.1 + S) N) ∧
        chunkSamples chunks = List.range N := by
  have hrun : ∀ fuel, (N + S - 1) / S < fuel → chunkLoop S N fuel 0
      = some ((List.range ((N + S - 1) / S)).map (fun k => (k * S, min S (N - k * S)))) := by
    intro fuel hf
    have h := chunkLoop_eq hS hN fuel 0 (by simpa using hf)
    rw [h, steppedRange_eq_map, List.map_map]
    simp [Function.comp]
  refine ⟨_, hrun, rfl, by simp, chunkCount_eq_ceil hS, ?_, ?_⟩
  · intro ch hch
    rw [List.mem_map] at hch
    obtain ⟨k, hk, rfl⟩ := hch
    rw [List.mem_range] at hk
    have := (chunkCount_bounds (N := N) hS).2 k hk
    simp only []
    omega
  · have h := chunkSamples_chunkLoop ((N + S - 1) / S + 1) 0 _ (Nat.zero_le N)
      (hrun _ (Nat.lt_succ_self _))
    rw [h, List.range_eq_range']
    rfl

/-- Witness for C25: 10 samples in sub-buffers of 4 give the ranges `[0, 4)`, `[4, 8)` and
`[8, 10)`. -/
theorem chunkLoop_covers_witness :
    ∃ chunks, chunkLoop 4 10 4 0 = some chunks ∧ chunks = [(0, 4), (4, 4), (8, 2)] ∧
      chunkSamples chunks = List.range 10 :=
  match chunkLoop_covers 4 10 (by decide) (by decide) with
  | ⟨chunks, h1, h2, _, _, _, h6⟩ => ⟨chunks, h1 4 (by decide), h2.trans (by decide), h6⟩

end ChunkClaims

section SmoothLemmas

variable {α : Type} [LinearOrderedField α]

/-- The kernel before scaling: tap `j` holds `tempSlope * d + 1`, where `d` is the distance of
`j` from the centre tap 5; no tap keeps its previous content. -/
theorem rawKernel_eq (a : EqMatchAnalyzer α) (j : Nat) (hj : j < 11) :
    rawKernel a j = tempSlope a.smooth * (((if j ≤ 5 then 5 - j else j - 5 : Nat)) : α) + 1 := by
  unfold rawKernel
  have h5 : smoothSize / 2 = 5 := rfl
  have hr : List.range' 1 5 = [1, 2, 3, 4, 5] := rfl
  rw [h5, hr]
  simp only [List.foldl_cons, List.foldl_nil]
  interval_cases j <;> simp [Function.update]

/-- The sum of the taps before scaling. -/
theorem kernelSum_rawKernel (a : EqMatchAnalyzer α) :
    kernelSum (rawKernel a) = 11 + 30 * tempSlope a.smooth := by
  unfold kernelSum
  have hr : List.range smoothSize = [0, 1, 2, 3, 4, 5, 6, 7, 8, 9, 10] := rfl
  rw [hr]
  simp only [List.map_cons, List.map_nil, List.sum_cons, List.sum_nil]
  rw [rawKernel_eq a 0 (by norm_num), rawKernel_eq a 1 (by norm_num),
    rawKernel_eq a 2 (by norm_num), rawKernel_eq a 3 (by norm_num),
    rawKernel_eq a 4 (by norm_num), rawKernel_eq a 5 (by norm_num),
    rawKernel_eq a 6 (by norm_num), rawKernel_eq a 7 (by norm_num),
    rawKernel_eq a 8 (by norm_num), rawKernel_eq a 9 (by norm_num),
    rawKernel_eq a 10 (by norm_num)]
  norm_num
  ring

/-- Below one half the slope runs from `-1` at `smooth = 0` towards `-1 / 5`. -/
theorem tempSlope_low {s : α} (h : s < 1 / 2) : tempSlope s = -1 + s * (8 / 5) := by
  unfold tempSlope
  have h5 : smoothSize / 2 = 5 := rfl
  rw [h5]
  simp only [if_pos h]
  norm_num
  ring

/-- From one half on the slope runs from `-1 / 5` to `0` at `smooth = 1`. -/
theorem tempSlope_high {s : α} (h : 1 / 2 ≤ s) : tempSlope s = -2 / 5 + s * (2 / 5) := by
  unfold tempSlope
  have h5 : smoothSize / 2 = 5 := rfl
  rw [h5]
  simp only [if_neg (not_lt.mpr h)]
  norm_num
  ring

/-- The tap `j` of the kernel that `updateSmooth` builds when the flag is set. -/
theorem updateSmooth_tap (a : EqMatchAnalyzer α) (h : a.toUpdateSmooth = true) (j : Nat)
    (hj : j < 11) :
    a.updateSmooth.smoothKernel j
      = (tempSlope a.smooth * (((if j ≤ 5 then 5 - j else j - 5 : Nat)) : α) + 1)
        * (1 / max (11 + 30 * tempSlope a.smooth) (1 / 100)) := by
  unfold EqMatchAnalyzer.updateSmooth
  rw [if_pos h]
  have hs : j < smoothSize := hj
  simp only [hs, if_true]
  rw [rawKernel_eq a j hj, kernelSum_rawKernel]

/-- The sum of the taps of the kernel that `updateSmooth` builds when the flag is set. -/
theorem updateSmooth_sum (a : EqMatchAnalyzer α) (h : a.toUpdateSmooth = true) :
    kernelSum a.updateSmooth.smoothKernel
      = (11 + 30 * tempSlope a.smooth) * (1 / max (11 + 30 * tempSlope a.smooth) (1 / 100)) := by
  unfold kernelSum
  have hr : List.range smoothSize = [0, 1, 2, 3, 4, 5, 6, 7, 8, 9, 10] := rfl
  rw [hr]
  simp only [List.map_cons, List.map_nil, List.sum_cons, List.sum_nil]
  rw [updateSmooth_tap a h 0 (by norm_num), updateSmooth_tap a h 1 (by norm_num),
    updateSmooth_tap a h 2 (by norm_num), updateSmooth_tap a h 3 (by norm_num),
    updateSmooth_tap a h 4 (by norm_num), updateSmooth_tap a h 5 (by norm_num),
    updateSmooth_tap a h 6 (by norm_num), updateSmooth_tap a h 7 (by norm_num),
    updateSmooth_tap a h 8 (by norm_num), updateSmooth_tap a h 9 (by norm_num),
    updateSmooth_tap a h 10 (by norm_num)]
  norm_num
  ring

/-- The factor `kernelC` is positive, whatever the sum. -/
theorem kernelC_pos (x : α) : 0 < 1 / max x (1 / 100) := by
  have : (0 : α) < max x (1 / 100) := lt_max_of_lt_right (by norm_num)
  positivity

/-- What `updateSmooth` achieves on the upper half of the slider, and in general: with the
update flag clear the analyzer is left as it is; with the flag set the flag is cleared, each of
the 11 taps is a function of `smooth` alone and the kernel is symmetric about its centre tap
5; for `smooth >= 1 / 2` no tap is negative and the taps sum to 1 in exact arithmetic. -/
theorem updateSmooth_upper_half (a : EqMatchAnalyzer α) :
    (a.toUpdateSmooth = false → a.updateSmooth = a) ∧
      (a.toUpdateSmooth = true →
        a.updateSmooth.toUpdateSmooth = false ∧
        (∀ b : EqMatchAnalyzer α, b.toUpdateSmooth = true → b.smooth = a.smooth →
          ∀ j, j < 11 → b.updateSmooth.smoothKernel j = a.updateSmooth.smoothKernel j) ∧
        (∀ i, i ≤ 5 →
          a.updateSmooth.smoothKernel (5 + i) = a.updateSmooth.smoothKernel (5 - i)) ∧
        (1 / 2 ≤ a.smooth → ∀ j, j < 11 → 0 ≤ a.updateSmooth.smoothKernel j) ∧
        (1 / 2 ≤ a.smooth → kernelSum a.updateSmooth.smoothKernel = 1)) := by
  constructor
  · intro h
    unfold EqMatchAnalyzer.updateSmooth
    rw [if_neg (by simp [h])]
  intro h
  have hc := kernelC_pos (11 + 30 * tempSlope a.smooth)
  refine ⟨?_, ?_, ?_, ?_, ?_⟩
  · unfold EqMatchAnalyzer.updateSmooth
    rw [if_pos h]
  · intro b hb hs j hj
    rw [updateSmooth_tap b hb j hj, updateSmooth_tap a h j hj, hs]
  · intro i hi
    rw [updateSmooth_tap a h (5 + i) (by omega), updateSmooth_tap a h (5 - i) (by omega)]
    have e : (if 5 + i ≤ 5 then 5 - (5 + i) else 5 + i - 5 : Nat)
        = (if 5 - i ≤ 5 then 5 - (5 - i) else 5 - i - 5 : Nat) := by
      split_ifs <;> omega
    rw [e]
  · intro hs j hj
    rw [updateSmooth_tap a h j hj]
    apply mul_nonneg _ hc.le
    rw [tempSlope_high hs]
    have hd : (((if j ≤ 5 then 5 - j else j - 5 : Nat)) : α) ≤ 5 := by
      have : (if j ≤ 5 then 5 - j else j - 5 : Nat) ≤ 5 := by split_ifs <;> omega
      exact_mod_cast this
    have hd0 : (0 : α) ≤ (((if j ≤ 5 then 5 - j else j - 5 : Nat)) : α) := Nat.cast_nonneg _
    nlinarith
  · intro hs
    rw [updateSmooth_sum a h]
    have hsum : (1 : α) / 100 ≤ 11 + 30 * tempSlope a.smooth := by
      rw [tempSlope_high hs]; linarith
    rw [max_eq_left hsum]
    have : (11 + 30 * tempSlope a.smooth) ≠ 0 := by linarith
    field_simp

/-- On the lower half of the slider the taps are not clamped at zero: for `smooth < 1 / 2`
the slope is below `-1 / 5`, and the two outermost taps of the kernel that `updateSmooth`
builds are negative. -/
theorem updateSmooth_lower_half (a : EqMatchAnalyzer α) (h : a.toUpdateSmooth = true)
    (hs : a.smooth < 1 / 2) :
    a.updateSmooth.smoothKernel 0 < 0 ∧ a.updateSmooth.smoothKernel 10 < 0 := by
  have hc := kernelC_pos (11 + 30 * tempSlope a.smooth)
  rw [updateSmooth_tap a h 0 (by norm_num), updateSmooth_tap a h 10 (by norm_num)]
  have hneg : tempSlope a.smooth * 5 + 1 < 0 := by
    rw [tempSlope_low hs]; linarith
  constructor
  · apply mul_neg_of_neg_of_pos _ hc
    norm_num
    linarith
  · apply mul_neg_of_neg_of_pos _ hc
    norm_num
    linarith

end SmoothLemmas

section SmoothClaims

/-- C30: the claim asks, for every `smooth` in `[0, 1]`, for a kernel without negative weight
whose weights sum to 1. At `smooth = 0`, the lower end of the slider, with the update flag set,
`updateSmooth` computes the slope `-1`, the taps `-4, -3, -2, -1, 0, 1, 0, -1, -2, -3, -4`
before scaling with sum `-19`, and the factor `1 / max (-19, 0.01) = 100`: the kernel it
leaves has negative weights and the sum `-1900`. -/
theorem updateSmooth_at_zero :
    (0 : ℚ) ≤ (freshAnalyzer 0).smooth ∧ (freshAnalyzer 0).smooth ≤ 1 ∧
      (freshAnalyzer 0).toUpdateSmooth = true ∧
      (List.range 11).map (freshAnalyzer 0).updateSmooth.smoothKernel
        = [-400, -300, -200, -100, 0, 100, 0, -100, -200, -300, -400] ∧
      ¬ (∀ j, j < 11 → 0 ≤ (freshAnalyzer 0).updateSmooth.smoothKernel j) ∧
      kernelSum (freshAnalyzer 0).updateSmooth.smoothKernel = -1900 ∧
      kernelSum (freshAnalyzer 0).updateSmooth.smoothKernel ≠ 1 := by
  have ht : tempSlope (freshAnalyzer 0).smooth = -1 := by
    rw [tempSlope_low (by norm_num [freshAnalyzer])]
    norm_num [freshAnalyzer]
  have htap : ∀ j, j < 11 → (freshAnalyzer 0).updateSmooth.smoothKernel j
      = (-(((if j ≤ 5 then 5 - j else j - 5 : Nat)) : ℚ) + 1) * 100 := by
    intro j hj
    have hm : (1 : ℚ) / max (11 + 30 * -1) (1 / 100) = 100 := by norm_num
    rw [updateSmooth_tap _ rfl j hj, ht, hm]
    ring
  have hsum : kernelSum (freshAnalyzer 0).updateSmooth.smoothKernel = -1900 := by
    rw [updateSmooth_sum _ rfl, ht]
    norm_num
  refine ⟨by norm_num [freshAnalyzer], by norm_num [freshAnalyzer], rfl, ?_, ?_, hsum, ?_⟩
  · have hr : List.range 11 = [0, 1, 2, 3, 4, 5, 6, 7, 8, 9, 10] := rfl
    rw [hr]
    simp only [List.map_cons, List.map_nil]
    rw [htap 0 (by norm_num), htap 1 (by norm_num), htap 2 (by norm_num),
      htap 3 (by norm_num), htap 4 (by norm_num), htap 5 (by norm_num),
      htap 6 (by norm_num), htap 7 (by norm_num), htap 8 (by norm_num),
      htap 9 (by norm_num), htap 10 (by norm_num)]
    norm_num
  · intro hall
    have h10 := hall 10 (by norm_num)
    rw [htap 10 (by norm_num)] at h10
    norm_num at h10
  · rw [hsum]; norm_num

end SmoothClaims
